import Mathlib

/-!
Filter-ID subscribers (`lib.esm/providers/subscriber-filterid.js`).

A shallow embedding of the three classes of the module
(`FilterIdSubscriber`, `FilterIdEventSubscriber`, `FilterIdPendingSubscriber`)
as a deterministic step function over an explicit state.

* The private fields of a subscriber are fields of `State`.
* `async #poll` is cut at its `await`s: a suspended poll cycle is a
  continuation `Cont`, and the code between two `await`s is one function
  (`pollBegin`, `pollInstalled`, `pollNetwork`, `pollChanges`, `pollEmitted`).
  The `try`-block returns `Except Err Flow`; `pollExit` is the `catch` clause
  together with the statement after it.
* Everything the module asks of the provider is appended to `State.trace`,
  tagged with the piece of code that asked it.
* What the outside world does (public method calls, block notifications,
  replies to requests) is an `Event`; `step` runs the code the event triggers.
  Any event may follow any other, so a call such as `stop()` can fall between
  any two `await`s of a cycle.
* Promises follow the JavaScript rules: when a pending installation task
  settles, the cycles awaiting it continue in the order in which they began to
  wait and the `#teardown` callback runs after them, all in the step
  `installSettles`; an `await` or a `.then` on a promise that has already
  settled continues in a later step of its own (`wake`, `thenRuns`).
* The provider is outside the module. Its methods are taken to return
  normally: a request that fails is a promise that is rejected. Its registry of
  block listeners is modelled from the specification (`once`, `off`, `block`).
-/

namespace SubscriberFilterId

/-! ## Data -/

deriving instance DecidableEq for Except

/-- The filter ID issued by the node, e.g. `0xF1`; only ever passed back. -/
abbrev FilterId := Nat

/-- A raw entry of an `eth_getFilterChanges` result (a log record or a hash). -/
abbrev Raw := Nat

/-- The object `getNetwork()` resolves to; the module reads `chainId` only. -/
structure Network where
  chainId : Nat
deriving DecidableEq, Repr

/-- The event filter handed to `FilterIdEventSubscriber` (hex data as numbers). -/
structure Filter where
  address : Nat
  topics : List Nat
deriving DecidableEq, Repr

/-- The function `copy(obj)`: `JSON.parse(JSON.stringify(obj))`, a deep copy; on plain data
    the copy has the same value as the original. -/
def copy (obj : Filter) : Filter :=
  { address := obj.address, topics := obj.topics.map id }

/-- The errors that can be thrown inside `#poll`. -/
inductive Err
  /-- The error `new Error("subclasses must override this")`. -/
  | mustOverride
  /-- The error `new Error("chaid changed")`. -/
  | chainChanged
  /-- The loop `for (const result of results)` over a value that is not iterable. -/
  | notIterable
  /-- A rejection or exception coming from the provider. -/
  | rpc (code : Nat)
deriving DecidableEq, Repr

/-- The three classes of the module. -/
inductive Kind
  /-- The class `FilterIdSubscriber` itself: every hook throws. -/
  | base
  /-- The class `FilterIdEventSubscriber`; the argument is its field `#event`. -/
  | event (ev : Filter)
  /-- The class `FilterIdPendingSubscriber`. -/
  | pending
deriving DecidableEq, Repr

/-- The RPC methods the module sends. -/
inductive Method
  | eth_newFilter
  | eth_newPendingTransactionFilter
  | eth_getFilterChanges
  | eth_uninstallFilter
deriving DecidableEq, Repr

/-- One element of the `params` array of `provider.send`. -/
inductive Param
  | filter (f : Filter)
  /-- A filter ID as the installation task resolved it (`none` is `null`). -/
  | filterId (v : Option FilterId)
deriving DecidableEq, Repr

/-- The first argument of `provider.emit`. -/
inductive Channel
  | event (ev : Filter)
  | pending
deriving DecidableEq, Repr

/-- The second argument of `provider.emit`. -/
inductive Payload
  /-- The call `provider._wrapLog(result, network)`, left uninterpreted. -/
  | wrapLog (result : Raw) (network : Network)
  /-- The entry itself. -/
  | raw (result : Raw)
deriving DecidableEq, Repr

/-- The subscriber `_recover` constructs. -/
inductive Fallback
  /-- The object `new PollingEventSubscriber(provider, event)`. -/
  | pollingEventSubscriber (ev : Filter)
deriving DecidableEq, Repr

/-- What the module asks of its provider (and of the console). -/
inductive Effect
  /-- The call `provider.send(method, params)`. -/
  | send (method : Method) (params : List Param)
  /-- The call `provider.getNetwork()`. -/
  | getNetwork
  /-- The call `provider._recoverSubscriber(this, fallback)`. -/
  | recoverSubscriber (fallback : Fallback)
  /-- The call `provider.emit(channel, payload)`. -/
  | emit (channel : Channel) (payload : Payload)
  /-- The call `provider.once("block", this.#poller)`. -/
  | once
  /-- The call `provider.off("block", this.#poller)`. -/
  | off
  /-- The call `console.log("@TODO", error)`. -/
  | consoleLog (error : Err)
deriving DecidableEq, Repr

/-- The piece of code an effect comes from. -/
inductive Origin
  /-- A public method (`stop`, `pause`) called from outside. -/
  | call
  /-- The poll cycle with this number (cycles are numbered as they begin). -/
  | cycle (c : Nat)
  /-- The callback `#teardown` attached with `.then` to this installation task. -/
  | teardown (p : Nat)
deriving DecidableEq, Repr

/-- One line of the trace. -/
structure Entry where
  origin : Origin
  effect : Effect
deriving DecidableEq, Repr

/-- The promise returned by `_subscribe` (the installation task). -/
inductive Task
  | pending
  | fulfilled (filterId : Option FilterId)
  | rejected (error : Err)
deriving DecidableEq, Repr

/-- Where a poll cycle is suspended. -/
inductive Cont
  /-- At `await this.#filterIdPromise` (line 44), on the task with this handle. -/
  | awaitInstall (p : Nat)
  /-- At `await this.#provider.getNetwork()` (line 49). -/
  | awaitNetwork (filterId : FilterId)
  /-- At `await this.#provider.send("eth_getFilterChanges", ...)` (line 59). -/
  | awaitChanges (filterId : FilterId)
  /-- At `await this._emitResults(...)` (line 60), on a promise settled as given. -/
  | awaitEmit (outcome : Except Err Unit)
  /-- The call of `#poll` has returned. -/
  | done
deriving DecidableEq, Repr

/-- What an `eth_getFilterChanges` request resolves to. -/
inductive RpcValue
  | array (results : List Raw)
  | null
deriving DecidableEq, Repr

/-- The subscriber together with the part of the world it talks to. -/
structure State where
  /-- Which class the instance belongs to (and `#event`). -/
  kind : Kind
  /-- Field `#filterIdPromise`: `none` is `null`, `some p` the task with handle `p`. -/
  filterIdPromise : Option Nat
  /-- Field `#running`. -/
  running : Bool
  /-- Field `#network`. -/
  network : Option Network
  /-- Field `#hault`. -/
  hault : Bool
  /-- The installation tasks created so far; a handle is an index. -/
  tasks : List Task
  /-- The poll cycles begun so far. -/
  cycles : List Cont
  /-- The tasks on which a `#teardown` callback is waiting. -/
  thens : List Nat
  /-- How many times `#poller` is registered for the next block. -/
  listeners : Nat
  /-- The provider's property `_network`. -/
  providerNetwork : Network
  /-- Everything asked of the provider so far, oldest first. -/
  trace : List Entry
deriving Repr

/-- How a stretch of the `try`-block of `#poll` ends when it does not throw. -/
inductive Flow
  /-- It reached an `await`. -/
  | suspend (k : Cont)
  /-- It executed `return`. -/
  | ret
  /-- It ran off the end of the `try`-block. -/
  | fallThrough
deriving DecidableEq, Repr

/-- The result of calling `_emitResults`. -/
inductive Called
  /-- It threw before returning a promise. -/
  | threw (e : Err)
  /-- It returned a promise that settles as given. -/
  | promised (outcome : Except Err Unit)
deriving DecidableEq, Repr

/-- What the outside world can do. -/
inductive Event
  /-- The method `start()` is called. -/
  | start
  /-- The method `stop()` is called. -/
  | stop
  /-- The method `pause(dropWhilePaused)` is called. -/
  | pause (dropWhilePaused : Bool)
  /-- The method `resume()` is called. -/
  | resume
  /-- The provider announces a block. -/
  | block
  /-- The installation request behind task `p` completes. -/
  | installSettles (p : Nat) (outcome : Except Err (Option FilterId))
  /-- Cycle `c` continues after an `await` on a promise that had already
      settled when it was awaited. -/
  | wake (c : Nat)
  /-- The `getNetwork()` call of cycle `c` completes. -/
  | networkReply (c : Nat) (outcome : Except Err Network)
  /-- The `eth_getFilterChanges` request of cycle `c` completes. -/
  | changesReply (c : Nat) (outcome : Except Err RpcValue)
  /-- The `#teardown` callback on task `p` runs, `p` having been settled
      already when `#teardown` attached it. -/
  | thenRuns (p : Nat)
  /-- The provider's `_network` becomes `n`. -/
  | providerNetworkIs (n : Network)
deriving DecidableEq, Repr

/-! ## The provider, as far as the module uses it -/

/-- Append one line to the trace. -/
def record (o : Origin) (e : Effect) (s : State) : State :=
  { s with trace := s.trace ++ [⟨o, e⟩] }

/-- Modelled from the spec: the provider's block-notification registry, which
    is not part of this module (`once(event, handler)`, section 6). `once`
    adds one one-shot registration of the poller. -/
def once (o : Origin) (s : State) : State :=
  record o .once { s with listeners := s.listeners + 1 }

/-- Modelled from the spec: the provider's block-notification registry, which
    is not part of this module (`off(event, handler)`, section 6). `off`
    removes one registration of the poller, if there is one. -/
def off (o : Origin) (s : State) : State :=
  record o .off { s with listeners := s.listeners - 1 }

/-! ## The hooks -/

/-- The hook `_subscribe(provider)`: the handle of the promise it returns, or the
    exception it throws. Lines 30-32, 114-117, 130-132. -/
def _subscribe (o : Origin) (s : State) : State × Except Err Nat :=
  match s.kind with
  | .base => (s, .error .mustOverride)
  | .event ev =>
    (record o (.send .eth_newFilter [.filter ev])
      { s with tasks := s.tasks ++ [.pending] }, .ok s.tasks.length)
  | .pending =>
    (record o (.send .eth_newPendingTransactionFilter [])
      { s with tasks := s.tasks ++ [.pending] }, .ok s.tasks.length)

/-- The hook `_recover(provider)`. Lines 36-38, 111-113; `FilterIdPendingSubscriber`
    inherits the method of the base class. -/
def _recover (s : State) : Except Err Fallback :=
  match s.kind with
  | .base => .error .mustOverride
  | .event ev => .ok (.pollingEventSubscriber ev)
  | .pending => .error .mustOverride

/-- The hook `_emitResults(provider, results)`. Lines 33-35, 118-122, 133-137. -/
def _emitResults (o : Origin) (results : RpcValue) (s : State) : State × Called :=
  match s.kind with
  | .base => (s, .threw .mustOverride)
  | .event ev =>
    match results with
    | .null => (s, .promised (.error .notIterable))
    | .array rs =>
      (rs.foldl
        (fun w result => record o (.emit (.event ev) (.wrapLog result w.providerNetwork)) w) s,
        .promised (.ok ()))
  | .pending =>
    match results with
    | .null => (s, .promised (.error .notIterable))
    | .array rs =>
      (rs.foldl (fun w result => record o (.emit .pending (.raw result)) w) s,
        .promised (.ok ()))

/-! ## `#poll` -/

/-- Store the continuation of cycle `c`. -/
def setCont (c : Nat) (k : Cont) (s : State) : State :=
  { s with cycles := s.cycles.set c k }

/-- The end of a stretch of `#poll`: suspension at an `await`, `return`, the
    `catch` clause (lines 62-64) and the statement after it (line 65). -/
def pollExit (c : Nat) (r : State × Except Err Flow) : State :=
  match r with
  | (s, .ok (.suspend k)) => setCont c k s
  | (s, .ok .ret) => setCont c .done s
  | (s, .ok .fallThrough) => setCont c .done (once (.cycle c) s)
  | (s, .error e) => setCont c .done (once (.cycle c) (record (.cycle c) (.consoleLog e) s))

/-- Lines 41-44, up to the first `await`. -/
def pollBegin (c : Nat) (s : State) : State × Except Err Flow :=
  match s.filterIdPromise with
  | some p => (s, .ok (.suspend (.awaitInstall p)))
  | none =>
    match _subscribe (.cycle c) s with
    | (s1, .error e) => (s1, .error e)
    | (s1, .ok p) => ({ s1 with filterIdPromise := some p }, .ok (.suspend (.awaitInstall p)))

/-- Lines 44-49: the installation task has settled as `r`. -/
def pollInstalled (c : Nat) (r : Except Err (Option FilterId)) (s : State) :
    State × Except Err Flow :=
  match r with
  | .error e => (s, .error e)
  | .ok none =>
    match _recover s with
    | .error e => (s, .error e)
    | .ok fallback => (record (.cycle c) (.recoverSubscriber fallback) s, .ok .ret)
  | .ok (some filterId) =>
    (record (.cycle c) .getNetwork s, .ok (.suspend (.awaitNetwork filterId)))

/-- Lines 49-59: `getNetwork()` has settled as `r`. -/
def pollNetwork (c : Nat) (filterId : FilterId) (r : Except Err Network) (s : State) :
    State × Except Err Flow :=
  match r with
  | .error e => (s, .error e)
  | .ok network =>
    let s1 := if s.network.isNone then { s with network := some network } else s
    if (s1.network.getD network).chainId ≠ network.chainId then
      (s1, .error .chainChanged)
    else if s1.hault then
      (s1, .ok .ret)
    else
      (record (.cycle c) (.send .eth_getFilterChanges [.filterId (some filterId)]) s1,
        .ok (.suspend (.awaitChanges filterId)))

/-- Lines 59-60: the `eth_getFilterChanges` request has settled as `r`. -/
def pollChanges (c : Nat) (r : Except Err RpcValue) (s : State) : State × Except Err Flow :=
  match r with
  | .error e => (s, .error e)
  | .ok results =>
    match _emitResults (.cycle c) results s with
    | (s1, .threw e) => (s1, .error e)
    | (s1, .promised outcome) => (s1, .ok (.suspend (.awaitEmit outcome)))

/-- Lines 60-61: the promise of `_emitResults` has settled as `r`. -/
def pollEmitted (r : Except Err Unit) (s : State) : State × Except Err Flow :=
  match r with
  | .error e => (s, .error e)
  | .ok _ => (s, .ok .fallThrough)

/-- A call of `#poll`: a new cycle, run up to its first `await`. -/
def poll (s : State) : State :=
  pollExit s.cycles.length (pollBegin s.cycles.length { s with cycles := s.cycles ++ [.done] })

/-- Cycle `c`, suspended on task `p`, continues if `p` has settled. -/
def resumeInstall (p c : Nat) (s : State) : State :=
  match s.cycles[c]? with
  | some (.awaitInstall q) =>
    if q = p then
      match s.tasks[p]? with
      | some (.fulfilled v) => pollExit c (pollInstalled c (.ok v) s)
      | some (.rejected e) => pollExit c (pollInstalled c (.error e) s)
      | _ => s
    else s
  | _ => s

/-! ## The public methods -/

/-- The method `#teardown()`, lines 67-75; the callback itself is `runThen`. -/
def teardown (s : State) : State :=
  match s.filterIdPromise with
  | none => s
  | some p => { s with filterIdPromise := none, thens := s.thens ++ [p] }

/-- The callback of `#teardown` (lines 71-73) on task `p`, once `p` has settled;
    on a rejected task it is dropped without running. -/
def runThen (p : Nat) (s : State) : State :=
  if p ∈ s.thens then
    match s.tasks[p]? with
    | some (.fulfilled v) =>
      record (.teardown p) (.send .eth_uninstallFilter [.filterId v])
        { s with thens := s.thens.erase p }
    | some (.rejected _) => { s with thens := s.thens.erase p }
    | _ => s
  else s

/-- The method `start()`, lines 76-82. -/
def start (s : State) : State :=
  if s.running then s else poll { s with running := true }

/-- The method `stop()`, lines 83-91. -/
def stop (s : State) : State :=
  if !s.running then s
  else off .call (teardown { s with running := false, hault := true })

/-- The method `pause(dropWhilePaused)`, lines 92-97. -/
def pause (dropWhilePaused : Bool) (s : State) : State :=
  off .call (if dropWhilePaused then teardown s else s)

/-- The method `resume()`, line 98. -/
def resume (s : State) : State :=
  start s

/-! ## The outside world -/

/-- Call `#poll` `n` times in a row. -/
def pollTimes : Nat → State → State
  | 0, s => s
  | n + 1, s => pollTimes n (poll s)

/-- Modelled from the spec: the provider's block-notification registry, which
    is not part of this module. A block notification takes every one-shot
    registration of the poller off the registry and calls the poller once for
    each. -/
def block (s : State) : State :=
  pollTimes s.listeners { s with listeners := 0 }

/-- The installation request behind the pending task `p` completes as `t`: the
    cycles awaiting `p` continue in the order they began, then the `#teardown`
    callback runs if one is attached. -/
def settle (p : Nat) (t : Task) (s : State) : State :=
  match s.tasks[p]? with
  | some .pending =>
    if t = .pending then s
    else
      runThen p
        ((List.range s.cycles.length).foldl (fun w c => resumeInstall p c w)
          { s with tasks := s.tasks.set p t })
  | _ => s

/-- The task a completed installation request leaves behind. -/
def taskOf (outcome : Except Err (Option FilterId)) : Task :=
  match outcome with
  | .ok v => .fulfilled v
  | .error e => .rejected e

/-- Cycle `c` continues after an `await` on an already settled promise. -/
def wake (c : Nat) (s : State) : State :=
  match s.cycles[c]? with
  | some (.awaitInstall p) => resumeInstall p c s
  | some (.awaitEmit r) => pollExit c (pollEmitted r s)
  | _ => s

/-- The `getNetwork()` call of cycle `c` completes. -/
def networkReply (c : Nat) (r : Except Err Network) (s : State) : State :=
  match s.cycles[c]? with
  | some (.awaitNetwork filterId) => pollExit c (pollNetwork c filterId r s)
  | _ => s

/-- The `eth_getFilterChanges` request of cycle `c` completes. -/
def changesReply (c : Nat) (r : Except Err RpcValue) (s : State) : State :=
  match s.cycles[c]? with
  | some (.awaitChanges _) => pollExit c (pollChanges c r s)
  | _ => s

/-- One event. -/
def step (s : State) (e : Event) : State :=
  match e with
  | .start => start s
  | .stop => stop s
  | .pause d => pause d s
  | .resume => resume s
  | .block => block s
  | .installSettles p r => settle p (taskOf r) s
  | .wake c => wake c s
  | .networkReply c r => networkReply c r s
  | .changesReply c r => changesReply c r s
  | .thenRuns p => runThen p s
  | .providerNetworkIs n => { s with providerNetwork := n }

/-- A sequence of events, from left to right. -/
def run (s : State) (es : List Event) : State :=
  es.foldl step s

/-- The constructor of `FilterIdSubscriber`, lines 22-29, for a provider whose
    `_network` is `net`. -/
def init (kind : Kind) (net : Network) : State :=
  { kind := kind, filterIdPromise := none, running := false, network := none, hault := false,
    tasks := [], cycles := [], thens := [], listeners := 0, providerNetwork := net, trace := [] }

/-- The object `new FilterIdEventSubscriber(provider, filter)`, lines 107-110. -/
def newEventSubscriber (filter : Filter) (net : Network) : State :=
  init (.event (copy filter)) net

/-- The object `new FilterIdPendingSubscriber(provider)`. -/
def newPendingSubscriber (net : Network) : State :=
  init .pending net

/-! ## Reading the trace -/

/-- The effects in the trace, without their origins. -/
def effects (s : State) : List Effect :=
  s.trace.map (fun e => e.effect)

/-- The effects of poll cycle `c`, in the order it caused them. -/
def cycleEffects (c : Nat) (s : State) : List Effect :=
  (s.trace.filter (fun e => e.origin = .cycle c)).map (fun e => e.effect)

/-- An installation request: what `_subscribe` sends. -/
def Effect.isInstall : Effect → Bool
  | .send .eth_newFilter _ => true
  | .send .eth_newPendingTransactionFilter _ => true
  | _ => false

/-- A `send("eth_getFilterChanges", ...)`. -/
def Effect.isGetChanges : Effect → Bool
  | .send .eth_getFilterChanges _ => true
  | _ => false

/-- A `send("eth_uninstallFilter", ...)`. -/
def Effect.isUninstall : Effect → Bool
  | .send .eth_uninstallFilter _ => true
  | _ => false

/-- A `provider.emit(...)`. -/
def Effect.isEmit : Effect → Bool
  | .emit _ _ => true
  | _ => false

/-- A `provider.once("block", ...)`. -/
def Effect.isOnce : Effect → Bool
  | .once => true
  | _ => false

/-- A `provider._recoverSubscriber(...)`. -/
def Effect.isRecover : Effect → Bool
  | .recoverSubscriber _ => true
  | _ => false

/-- How many effects in the whole trace satisfy `f`. -/
def count (f : Effect → Bool) (s : State) : Nat :=
  (effects s).countP f

/-- The `params` of an `eth_uninstallFilter` call made by the `#teardown`
    callback on task `p`, if the line is one. -/
def uninstallBy (p : Nat) (e : Entry) : Option (List Param) :=
  match e.origin, e.effect with
  | .teardown q, .send .eth_uninstallFilter params => if q = p then some params else none
  | _, _ => none

/-- The `params` of the `eth_uninstallFilter` calls made by the `#teardown`
    callback on task `p`. -/
def uninstallsOf (p : Nat) (s : State) : List (List Param) :=
  s.trace.filterMap (uninstallBy p)

/-- The calls that run `#teardown` on a running subscriber. -/
def Event.isTeardown : Event → Bool
  | .stop => true
  | .pause true => true
  | _ => false

/-- The poll cycles that have begun and not returned. -/
def inFlight (s : State) : Nat :=
  s.cycles.countP (fun k => k ≠ .done)

/-- A state some sequence of events leads to from a new subscriber. -/
def Reachable (s : State) : Prop :=
  ∃ kind net es, s = run (init kind net) es

/-! ## Failing cycles -/

/-- The relation `Failure s c err s'`: in state `s` a step of poll cycle `c` throws or
    rejects with `err`, and `s'` is the state once the code has reacted. One
    constructor for each place of the `try`-block where that can happen. -/
inductive Failure : State → Nat → Err → State → Prop
  /-- The hook `_subscribe` throws (line 42): the hook of the base class. -/
  | subscribeThrows (s : State) :
      s.kind = .base → s.filterIdPromise = none →
      Failure s s.cycles.length .mustOverride (poll s)
  /-- The awaited installation task is rejected (line 44). -/
  | installRejects (s : State) (c p : Nat) (err : Err) :
      s.cycles[c]? = some (.awaitInstall p) → s.tasks[p]? = some .pending →
      Failure s c err (step s (.installSettles p (.error err)))
  /-- The installation task had been rejected before it was awaited (line 44). -/
  | installRejected (s : State) (c p : Nat) (err : Err) :
      s.cycles[c]? = some (.awaitInstall p) → s.tasks[p]? = some (.rejected err) →
      Failure s c err (step s (.wake c))
  /-- The call `getNetwork()` is rejected (line 49). -/
  | networkRejects (s : State) (c : Nat) (filterId : FilterId) (err : Err) :
      s.cycles[c]? = some (.awaitNetwork filterId) →
      Failure s c err (step s (.networkReply c (.error err)))
  /-- The `eth_getFilterChanges` request is rejected (line 59). -/
  | changesRejects (s : State) (c : Nat) (filterId : FilterId) (err : Err) :
      s.cycles[c]? = some (.awaitChanges filterId) →
      Failure s c err (step s (.changesReply c (.error err)))
  /-- The hook `_emitResults` throws (line 60): the hook of the base class. -/
  | emitResultsThrows (s : State) (c : Nat) (filterId : FilterId) (v : RpcValue) :
      s.kind = .base → s.cycles[c]? = some (.awaitChanges filterId) →
      Failure s c .mustOverride (step s (.changesReply c (.ok v)))
  /-- The promise of `_emitResults` is rejected (line 60). -/
  | emitResultsRejects (s : State) (c : Nat) (err : Err) :
      s.cycles[c]? = some (.awaitEmit (.error err)) →
      Failure s c err (step s (.wake c))

/-! ## Elementary transitions

Every `step` is a finite chain of the transitions below (`moves_step`), so a
property kept by each of them is kept by every run. The relations are a proof
device: nothing is claimed about them except through `step`. -/

/-- What can send a cycle suspended at `k` to the `catch` clause with the
    error `e`: the awaited installation task was rejected with `e`, or it yielded
    no filter ID and `_recover` is the throwing method of the base class;
    `getNetwork()` or the `eth_getFilterChanges` request failed, the chain
    changed or `_emitResults` threw; the promise of `_emitResults` was rejected
    with `e`. -/
def Thrown (s : State) (k : Cont) (e : Err) : Prop :=
  match k with
  | .awaitInstall p =>
    s.tasks[p]? = some (.rejected e) ∨
      (s.tasks[p]? = some (.fulfilled none) ∧ e = .mustOverride ∧ ∀ ev, s.kind ≠ .event ev)
  | .awaitNetwork _ => True
  | .awaitChanges _ => True
  | .awaitEmit r => r = .error e
  | .done => False

/-- The two ways a call of `#poll` comes about: `start()` on a subscriber that
    is not running, or the provider calling one registered listener. -/
inductive Armed : State → State → Prop
  | byStart (s : State) : s.running = false → Armed s { s with running := true }
  | byBlock (s : State) : 0 < s.listeners → Armed s { s with listeners := s.listeners - 1 }

/-- One elementary transition. The flag is `true` for the transitions that can
    happen without `#teardown` clearing the cached task. -/
inductive Move : Bool → State → State → Prop
  /-- The method `#poll` finds a cached task and awaits it. -/
  | beginCached (q : Bool) (t s : State) (p : Nat) :
      Armed t s → s.filterIdPromise = some p →
      Move q t { s with cycles := s.cycles ++ [.awaitInstall p] }
  /-- The method `#poll` finds no cached task, calls `_subscribe` and caches its promise. -/
  | beginSubscribed (q : Bool) (t s : State) (e : Effect) :
      Armed t s → s.filterIdPromise = none → s.kind ≠ .base → e.isInstall = true →
      Move q t { s with
        filterIdPromise := some s.tasks.length
        tasks := s.tasks ++ [.pending]
        cycles := s.cycles ++ [.awaitInstall s.tasks.length]
        trace := s.trace ++ [⟨.cycle s.cycles.length, e⟩] }
  /-- The method `#poll` finds no cached task and `_subscribe` throws. -/
  | beginThrew (q : Bool) (t s : State) (e : Err) :
      Armed t s → s.filterIdPromise = none → s.kind = .base →
      Move q t { s with
        cycles := s.cycles ++ [.done]
        listeners := s.listeners + 1
        trace := s.trace ++ [⟨.cycle s.cycles.length, .consoleLog e⟩,
          ⟨.cycle s.cycles.length, .once⟩] }
  /-- The awaited task yields a filter ID; `getNetwork()` is called. -/
  | installed (q : Bool) (s : State) (c p : Nat) (filterId : FilterId) :
      s.cycles[c]? = some (.awaitInstall p) → s.tasks[p]? = some (.fulfilled (some filterId)) →
      Move q s { s with
        cycles := s.cycles.set c (.awaitNetwork filterId)
        trace := s.trace ++ [⟨.cycle c, .getNetwork⟩] }
  /-- The awaited task yields no filter ID; the fallback is handed over. -/
  | recovered (q : Bool) (s : State) (c p : Nat) (ev : Filter) :
      s.cycles[c]? = some (.awaitInstall p) → s.tasks[p]? = some (.fulfilled none) →
      s.kind = .event ev →
      Move q s { s with
        cycles := s.cycles.set c .done
        trace := s.trace ++ [⟨.cycle c, .recoverSubscriber (.pollingEventSubscriber ev)⟩] }
  /-- An exception reaches the `catch` clause of a suspended cycle. -/
  | caught (q : Bool) (s : State) (c : Nat) (k : Cont) (e : Err) :
      s.cycles[c]? = some k → k ≠ .done → Thrown s k e →
      Move q s { s with
        cycles := s.cycles.set c .done
        listeners := s.listeners + 1
        trace := s.trace ++ [⟨.cycle c, .consoleLog e⟩, ⟨.cycle c, .once⟩] }
  /-- The first network is stored in `#network`. -/
  | recorded (q : Bool) (s : State) (n : Network) :
      s.network = none → Move q s { s with network := some n }
  /-- The cycle returns at the `#hault` check. -/
  | halted (q : Bool) (s : State) (c : Nat) (filterId : FilterId) :
      s.cycles[c]? = some (.awaitNetwork filterId) → s.hault = true →
      Move q s { s with cycles := s.cycles.set c .done }
  /-- The cycle passes the `#hault` check and sends `eth_getFilterChanges`. -/
  | asked (q : Bool) (s : State) (c : Nat) (filterId : FilterId) :
      s.cycles[c]? = some (.awaitNetwork filterId) → s.hault = false →
      Move q s { s with
        cycles := s.cycles.set c (.awaitChanges filterId)
        trace := s.trace ++
          [⟨.cycle c, .send .eth_getFilterChanges [.filterId (some filterId)]⟩] }
  /-- The hook `_emitResults` runs its loop and returns a promise. -/
  | emitted (q : Bool) (s : State) (c : Nat) (filterId : FilterId)
      (es : List (Channel × Payload)) (r : Except Err Unit) :
      s.cycles[c]? = some (.awaitChanges filterId) →
      Move q s { s with
        cycles := s.cycles.set c (.awaitEmit r)
        trace := s.trace ++ es.map (fun e => ⟨.cycle c, .emit e.1 e.2⟩) }
  /-- The `try`-block completes; the poller is registered for the next block. -/
  | finished (q : Bool) (s : State) (c : Nat) :
      s.cycles[c]? = some (.awaitEmit (.ok ())) →
      Move q s { s with
        cycles := s.cycles.set c .done
        listeners := s.listeners + 1
        trace := s.trace ++ [⟨.cycle c, .once⟩] }
  /-- The method `#teardown` clears the cached task and attaches its callback. -/
  | tornDown (s : State) (p : Nat) :
      s.filterIdPromise = some p →
      Move false s { s with filterIdPromise := none, thens := s.thens ++ [p] }
  /-- The `#teardown` callback runs. -/
  | thenFired (q : Bool) (s : State) (p : Nat) (v : Option FilterId) :
      p ∈ s.thens → s.tasks[p]? = some (.fulfilled v) →
      Move q s { s with
        thens := s.thens.erase p
        trace := s.trace ++ [⟨.teardown p, .send .eth_uninstallFilter [.filterId v]⟩] }
  /-- The `#teardown` callback is dropped: its task was rejected. -/
  | thenDropped (q : Bool) (s : State) (p : Nat) (e : Err) :
      p ∈ s.thens → s.tasks[p]? = some (.rejected e) →
      Move q s { s with thens := s.thens.erase p }
  /-- The method `stop()` on a running subscriber clears `#running` and sets `#hault`. -/
  | stopped (q : Bool) (s : State) :
      s.running = true → Move q s { s with running := false, hault := true }
  /-- The call `provider.off("block", this.#poller)`. -/
  | offed (q : Bool) (s : State) :
      Move q s { s with listeners := s.listeners - 1, trace := s.trace ++ [⟨.call, .off⟩] }
  /-- A pending installation task settles. -/
  | taskSettled (q : Bool) (s : State) (p : Nat) (t : Task) :
      s.tasks[p]? = some .pending → t ≠ .pending →
      Move q s { s with tasks := s.tasks.set p t }
  /-- The provider's `_network` changes. -/
  | providerChanged (q : Bool) (s : State) (n : Network) :
      Move q s { s with providerNetwork := n }

/-- A finite chain of elementary transitions. -/
def Moves (q : Bool) : State → State → Prop :=
  Relation.ReflTransGen (Move q)

/-! ## Invariants of reachable states -/

/-- What a cycle suspended at `k` can have caused so far. -/
def Cont.permits : Cont → Effect → Bool
  | .awaitInstall _, e => e.isInstall
  | .awaitNetwork _, e => e.isInstall || e == .getNetwork
  | .awaitChanges _, e => e.isInstall || e == .getNetwork || e.isGetChanges
  | .awaitEmit _, e => e.isInstall || e == .getNetwork || e.isGetChanges || e.isEmit
  | .done, _ => true

/-- Every effect of a cycle in the trace `tr` comes from a cycle that has begun
    and is permitted by where that cycle is now in `cy`. -/
def Logged (tr : List Entry) (cy : List Cont) : Prop :=
  ∀ e ∈ tr, ∀ c, e.origin = .cycle c → ∃ k, cy[c]? = some k ∧ k.permits e.effect = true

/-- The trace agrees with the cycles. -/
def CycleLog (s : State) : Prop :=
  Logged s.trace s.cycles

/-- The cached task exists, has no `#teardown` callback attached and none has
    run on it; a task is waited on by at most one callback, which has not run;
    callbacks have run on existing tasks only. -/
def TaskLog (s : State) : Prop :=
  (∀ p, s.filterIdPromise = some p →
      p < s.tasks.length ∧ p ∉ s.thens ∧ ∀ e ∈ s.trace, e.origin ≠ .teardown p) ∧
  (∀ p ∈ s.thens, p < s.tasks.length ∧ ∀ e ∈ s.trace, e.origin ≠ .teardown p) ∧
  s.thens.Nodup ∧
  (∀ e ∈ s.trace, ∀ p, e.origin = .teardown p → p < s.tasks.length)

/-- The cycles in flight plus the registered listeners: what can still lead to
    a call of `#poll` without `start()`. -/
def tokens (s : State) : Nat :=
  inFlight s + s.listeners

/-- Until `stop()` is called there is at most one polling chain, and none
    before `start()`. -/
def OneChain (s : State) : Prop :=
  s.hault = false → tokens s ≤ 1 ∧ (s.running = false → tokens s = 0)

/-- From `s` to `s'` nothing happened but cycles continuing from an `await`
    on the installation task: the fields of the subscriber, the tasks and
    the callbacks are the same, no token was added, and every new line of the
    trace comes from a cycle. -/
def Resumed (s s' : State) : Prop :=
  s'.kind = s.kind ∧ s'.filterIdPromise = s.filterIdPromise ∧ s'.running = s.running ∧
  s'.network = s.network ∧ s'.hault = s.hault ∧ s'.tasks = s.tasks ∧ s'.thens = s.thens ∧
  s'.providerNetwork = s.providerNetwork ∧ s'.cycles.length = s.cycles.length ∧
  tokens s' ≤ tokens s ∧
  ∃ es : List Entry, s'.trace = s.trace ++ es ∧
    ∀ e ∈ es, (∃ c, e.origin = .cycle c) ∧ e.effect.isUninstall = false

/-- Task `p` exists, and while it is pending a `#teardown` callback waits on
    it and it is not the cached task. -/
def Awaited (p : Nat) (s : State) : Prop :=
  p < s.tasks.length ∧
    (s.tasks[p]? = some .pending → p ∈ s.thens ∧ s.filterIdPromise ≠ some p)

/-- The `#teardown` callback on task `p` has run: the `eth_uninstallFilter`
    requests it made are `sent`, no callback waits on `p` and `p` is not cached. -/
def Uninstalled (p : Nat) (sent : List (List Param)) (s : State) : Prop :=
  p < s.tasks.length ∧ p ∉ s.thens ∧ s.filterIdPromise ≠ some p ∧ uninstallsOf p s = sent

/-- The subscriber was stopped while cycle `c` had not reached
    `eth_getFilterChanges`: the cycle has not sent that request and has emitted
    nothing. -/
def Cancelled (c : Nat) (s : State) : Prop :=
  s.hault = true ∧ (∃ k, s.cycles[c]? = some k ∧ ∀ f, k ≠ .awaitChanges f) ∧
  ∀ x ∈ cycleEffects c s, x.isGetChanges = false ∧ x.isEmit = false

/-- The cached task `p` was rejected with `err`, and every cycle numbered `n`
    or more either awaits `p` and has caused nothing, or has returned after
    logging `err` and registering the poller, and nothing else. -/
def Stuck (p : Nat) (err : Err) (n : Nat) (s : State) : Prop :=
  s.filterIdPromise = some p ∧ s.tasks[p]? = some (.rejected err) ∧
  ∀ c, n ≤ c → c < s.cycles.length →
    (s.cycles[c]? = some (.awaitInstall p) ∧ cycleEffects c s = []) ∨
    (s.cycles[c]? = some .done ∧ cycleEffects c s = [.consoleLog err, .once])

/-- A list of effects without `eth_getFilterChanges` and without emission, in
    which the poller is registered only if an error was logged. -/
def Fruitless (l : List Effect) : Prop :=
  (∀ x ∈ l, x.isGetChanges = false ∧ x.isEmit = false) ∧
  (Effect.once ∈ l → ∃ e, Effect.consoleLog e ∈ l)

/-- Cycle `c` has begun, is not past the `#hault` check, and what it has
    caused is fruitless. -/
def Doomed (c : Nat) (s : State) : Prop :=
  (∃ k, s.cycles[c]? = some k ∧ (∀ f, k ≠ .awaitChanges f) ∧ ∀ r, k ≠ .awaitEmit r) ∧
  Fruitless (cycleEffects c s)

/-- The subscriber was stopped before cycle `n` began: `#hault` is set and
    every cycle numbered `n` or more is doomed. -/
def Stopped (n : Nat) (s : State) : Prop :=
  CycleLog s ∧ s.hault = true ∧ n ≤ s.cycles.length ∧
  ∀ c, n ≤ c → c < s.cycles.length → Doomed c s

/-- A running subscriber that was never stopped, with no cycle in flight and
    no listener registered. -/
def Idle (s : State) : Prop :=
  s.running = true ∧ s.hault = false ∧ tokens s = 0

/-- What `_emitResults` of the two concrete classes emits for the list `rs`. -/
def emissions (s : State) (rs : List Raw) : List Effect :=
  match s.kind with
  | .base => []
  | .event ev => rs.map (fun r => .emit (.event ev) (.wrapLog r s.providerNetwork))
  | .pending => rs.map (fun r => .emit .pending (.raw r))

/-- A subscriber that cannot send `eth_getFilterChanges` any more: it was
    stopped, or it is running with no cycle in flight and no listener. -/
def Inert (s : State) : Prop :=
  s.hault = true ∨ (s.running = true ∧ tokens s = 0)

/-! ## Every step is a chain of elementary transitions -/

theorem Move.weaken {q : Bool} {s s' : State} (h : Move q s s') : Move false s s' := by
  cases h
  case beginCached => exact .beginCached _ _ _ _ (by assumption) (by assumption)
  case beginSubscribed =>
    exact .beginSubscribed _ _ _ _ (by assumption) (by assumption) (by assumption) (by assumption)
  case beginThrew => exact .beginThrew _ _ _ _ (by assumption) (by assumption) (by assumption)
  case installed => exact .installed _ _ _ _ _ (by assumption) (by assumption)
  case recovered => exact .recovered _ _ _ _ _ (by assumption) (by assumption) (by assumption)
  case caught => exact .caught _ _ _ _ _ (by assumption) (by assumption) (by assumption)
  case recorded => exact .recorded _ _ _ (by assumption)
  case halted => exact .halted _ _ _ _ (by assumption) (by assumption)
  case asked => exact .asked _ _ _ _ (by assumption) (by assumption)
  case emitted => exact .emitted _ _ _ _ _ _ (by assumption)
  case finished => exact .finished _ _ _ (by assumption)
  case tornDown => exact .tornDown _ _ (by assumption)
  case thenFired => exact .thenFired _ _ _ _ (by assumption) (by assumption)
  case thenDropped => exact .thenDropped _ _ _ _ (by assumption) (by assumption)
  case stopped => exact .stopped _ _ (by assumption)
  case offed => exact .offed _ _
  case taskSettled => exact .taskSettled _ _ _ _ (by assumption) (by assumption)
  case providerChanged => exact .providerChanged _ _ _

theorem Moves.relax {q : Bool} {s s' : State} (h : Moves q s s') : Moves false s s' := by
  induction h with
  | refl => exact .refl
  | tail _ h ih => exact .tail ih h.weaken

theorem Moves.one {q : Bool} {s s' : State} (h : Move q s s') : Moves q s s' :=
  Relation.ReflTransGen.single h

theorem Moves.then {q : Bool} {a b c : State} (h : Moves q a b) (h' : Moves q b c) :
    Moves q a c :=
  Relation.ReflTransGen.trans h h'

theorem moves_poll {q : Bool} {t a : State} (h : Armed t a) : Moves q t (poll a) := by
  apply Moves.one
  unfold poll pollBegin
  split
  · next p hp =>
    have := Move.beginCached q t a p h hp
    simpa [pollExit, setCont] using this
  · next hp =>
    cases hk : a.kind with
    | base =>
      have := Move.beginThrew q t a .mustOverride h hp hk
      simpa [pollExit, setCont, _subscribe, hk, once, record] using this
    | event ev =>
      have := Move.beginSubscribed q t a (.send .eth_newFilter [.filter ev]) h hp (by simp [hk]) rfl
      simpa [pollExit, setCont, _subscribe, hk, once, record] using this
    | pending =>
      have := Move.beginSubscribed q t a (.send .eth_newPendingTransactionFilter []) h hp
        (by simp [hk]) rfl
      simpa [pollExit, setCont, _subscribe, hk, once, record] using this


theorem moves_resumeInstall (q : Bool) (p c : Nat) (s : State) :
    Moves q s (resumeInstall p c s) := by
  unfold resumeInstall
  split
  · next p' hc =>
    split_ifs with hq
    · subst hq
      split
      · next v ht =>
        apply Moves.one
        cases v with
        | none =>
          cases hk : s.kind with
          | base =>
            have := Move.caught q s c _ .mustOverride hc (by simp) (Or.inr ⟨ht, rfl, by simp [hk]⟩)
            simpa [pollExit, setCont, pollInstalled, _recover, hk, once, record] using this
          | event ev =>
            have := Move.recovered q s c _ ev hc ht hk
            simpa [pollExit, setCont, pollInstalled, _recover, hk, once, record] using this
          | pending =>
            have := Move.caught q s c _ .mustOverride hc (by simp) (Or.inr ⟨ht, rfl, by simp [hk]⟩)
            simpa [pollExit, setCont, pollInstalled, _recover, hk, once, record] using this
        | some filterId =>
          have := Move.installed q s c _ filterId hc ht
          simpa [pollExit, setCont, pollInstalled, record] using this
      · next e ht =>
        apply Moves.one
        have := Move.caught q s c _ e hc (by simp) (Or.inl ht)
        simpa [pollExit, setCont, pollInstalled, once, record] using this
      · exact .refl
    · exact .refl
  · exact .refl

theorem moves_runThen (q : Bool) (p : Nat) (s : State) : Moves q s (runThen p s) := by
  unfold runThen
  split_ifs with hp
  · split
    · next v ht =>
      apply Moves.one
      have := Move.thenFired q s p v hp ht
      simpa [record] using this
    · next e ht => exact Moves.one (Move.thenDropped q s p e hp ht)
    · exact .refl
  · exact .refl

theorem moves_networkReply (q : Bool) (c : Nat) (r : Except Err Network) (s : State) :
    Moves q s (networkReply c r s) := by
  unfold networkReply
  split
  · next filterId hc =>
    cases r with
    | error e =>
      apply Moves.one
      have := Move.caught q s c _ e hc (by simp) trivial
      simpa [pollExit, setCont, pollNetwork, once, record] using this
    | ok n =>
      cases hn : s.network with
      | none =>
        have h1 := Move.recorded q s n hn
        refine Moves.then (Moves.one h1) (Moves.one ?_)
        by_cases hh : s.hault = true
        · have := Move.halted q { s with network := some n } c filterId hc hh
          simpa [pollExit, setCont, pollNetwork, once, record, hn, hh] using this
        · have := Move.asked q { s with network := some n } c filterId hc (by simpa using hh)
          simpa [pollExit, setCont, pollNetwork, once, record, hn, hh] using this
      | some m =>
        apply Moves.one
        by_cases hm : m.chainId = n.chainId
        · by_cases hh : s.hault = true
          · have := Move.halted q s c filterId hc hh
            simpa [pollExit, setCont, pollNetwork, once, record, hn, hh, hm] using this
          · have := Move.asked q s c filterId hc (by simpa using hh)
            simpa [pollExit, setCont, pollNetwork, once, record, hn, hh, hm] using this
        · have := Move.caught q s c _ .chainChanged hc (by simp) trivial
          simpa [pollExit, setCont, pollNetwork, once, record, hn, hm] using this
  · exact .refl


theorem foldl_record_eq (o : Origin) (g : Network → Raw → Effect) (rs : List Raw) (s : State) :
    rs.foldl (fun w r => record o (g w.providerNetwork r) w) s
      = { s with trace := s.trace ++ rs.map (fun r => ⟨o, g s.providerNetwork r⟩) } := by
  induction rs generalizing s with
  | nil => simp
  | cons r rs ih =>
    simp only [List.foldl_cons, List.map_cons]
    rw [ih]
    simp [record]

theorem emitResults_event (o : Origin) (rs : List Raw) (s : State) (ev : Filter)
    (hk : s.kind = .event ev) :
    _emitResults o (.array rs) s
      = ({ s with trace := s.trace ++
            rs.map (fun r => ⟨o, .emit (.event ev) (.wrapLog r s.providerNetwork)⟩) },
          .promised (.ok ())) := by
  simp only [_emitResults, hk]
  rw [foldl_record_eq o (fun n r => .emit (.event ev) (.wrapLog r n))]
  simp [hk]

theorem emitResults_pending (o : Origin) (rs : List Raw) (s : State)
    (hk : s.kind = .pending) :
    _emitResults o (.array rs) s
      = ({ s with trace := s.trace ++ rs.map (fun r => ⟨o, .emit .pending (.raw r)⟩) },
          .promised (.ok ())) := by
  simp only [_emitResults, hk]
  rw [foldl_record_eq o (fun _ r => .emit .pending (.raw r))]
  simp [hk]

theorem moves_changesReply (q : Bool) (c : Nat) (r : Except Err RpcValue) (s : State) :
    Moves q s (changesReply c r s) := by
  unfold changesReply
  split
  · next filterId hc =>
    apply Moves.one
    cases r with
    | error e =>
      have := Move.caught q s c _ e hc (by simp) trivial
      simpa [pollExit, setCont, pollChanges, once, record] using this
    | ok v =>
      cases hk : s.kind with
      | base =>
        have := Move.caught q s c _ .mustOverride hc (by simp) trivial
        simpa [pollExit, setCont, pollChanges, _emitResults, hk, once, record] using this
      | event ev =>
        cases v with
        | null =>
          have := Move.emitted q s c filterId [] (.error .notIterable) hc
          simpa [pollExit, setCont, pollChanges, _emitResults, hk] using this
        | array rs =>
          have := Move.emitted q s c filterId
            (rs.map (fun r => (.event ev, .wrapLog r s.providerNetwork))) (.ok ()) hc
          simp only [pollChanges, emitResults_event _ _ _ _ hk, pollExit, setCont]
          simpa using this
      | pending =>
        cases v with
        | null =>
          have := Move.emitted q s c filterId [] (.error .notIterable) hc
          simpa [pollExit, setCont, pollChanges, _emitResults, hk] using this
        | array rs =>
          have := Move.emitted q s c filterId
            (rs.map (fun r => (.pending, .raw r))) (.ok ()) hc
          simp only [pollChanges, emitResults_pending _ _ _ hk, pollExit, setCont]
          simpa using this
  · exact .refl

theorem moves_wake (q : Bool) (c : Nat) (s : State) : Moves q s (wake c s) := by
  unfold wake
  split
  · exact moves_resumeInstall q _ c s
  · next r hc =>
    apply Moves.one
    cases r with
    | error e =>
      have := Move.caught q s c _ e hc (by simp) rfl
      simpa [pollExit, setCont, pollEmitted, once, record] using this
    | ok u =>
      have := Move.finished q s c hc
      simpa [pollExit, setCont, pollEmitted, once, record] using this
  · exact .refl

theorem moves_start (q : Bool) (s : State) : Moves q s (start s) := by
  unfold start
  split_ifs with h
  · exact .refl
  · exact moves_poll (Armed.byStart s (by simpa using h))

theorem moves_teardown (s : State) : Moves false s (teardown s) := by
  unfold teardown
  split
  · exact .refl
  · next p hp => exact Moves.one (Move.tornDown s p hp)

theorem moves_off (q : Bool) (o : Origin) (s : State) (ho : o = .call) : Moves q s (off o s) := by
  subst ho
  apply Moves.one
  have := Move.offed q s
  simpa [off, record] using this

theorem moves_stop (s : State) : Moves false s (stop s) := by
  unfold stop
  split_ifs with h
  · exact .refl
  · refine Moves.then (Moves.one (Move.stopped false s (by simpa using h))) ?_
    exact Moves.then (moves_teardown _) (moves_off _ _ _ rfl)

theorem moves_pause (d : Bool) (s : State) : Moves false s (pause d s) := by
  unfold pause
  split_ifs
  · exact Moves.then (moves_teardown _) (moves_off _ _ _ rfl)
  · exact moves_off _ _ _ rfl

theorem moves_pause_false (q : Bool) (s : State) : Moves q s (pause false s) := by
  unfold pause
  simpa using moves_off q _ s rfl


theorem poll_shift (n : Nat) (s : State) :
    poll { s with listeners := s.listeners + n }
      = { poll s with listeners := (poll s).listeners + n } := by
  unfold poll pollBegin
  cases hp : s.filterIdPromise <;> cases hk : s.kind <;>
    simp [hk, pollExit, setCont, _subscribe, once, record, Nat.add_right_comm]

theorem moves_pollTimes (q : Bool) :
    ∀ (n : Nat) (s : State), Moves q { s with listeners := s.listeners + n } (pollTimes n s)
  | 0, s => by
    simp only [pollTimes, Nat.add_zero]
    exact .refl
  | n + 1, s => by
    have h1 : Armed { s with listeners := s.listeners + (n + 1) }
        { s with listeners := s.listeners + n } := by
      have := Armed.byBlock { s with listeners := s.listeners + (n + 1) } (by simp)
      simpa using this
    have h2 : Moves q _ _ := moves_poll (q := q) h1
    rw [poll_shift] at h2
    exact h2.then (moves_pollTimes q n (poll s))

theorem moves_block (q : Bool) (s : State) : Moves q s (block s) := by
  have := moves_pollTimes q s.listeners { s with listeners := 0 }
  simpa [block] using this

theorem moves_foldl_resume (q : Bool) (p : Nat) (cs : List Nat) (s : State) :
    Moves q s (cs.foldl (fun w c => resumeInstall p c w) s) := by
  induction cs generalizing s with
  | nil => exact .refl
  | cons c cs ih => exact (moves_resumeInstall q p c s).then (ih _)

theorem moves_settle (q : Bool) (p : Nat) (t : Task) (s : State) :
    Moves q s (settle p t s) := by
  unfold settle
  split
  · next hp =>
    split_ifs with ht
    · exact .refl
    · exact (Moves.one (Move.taskSettled q s p t hp ht)).then
        ((moves_foldl_resume q p _ _).then (moves_runThen q p _))
  · exact .refl

theorem moves_step (s : State) (e : Event) : Moves false s (step s e) := by
  cases e with
  | start => exact moves_start _ s
  | stop => exact moves_stop s
  | pause d => exact moves_pause d s
  | resume => exact moves_start _ s
  | block => exact moves_block _ s
  | installSettles p r => exact moves_settle _ p _ s
  | wake c => exact moves_wake _ c s
  | networkReply c r => exact moves_networkReply _ c r s
  | changesReply c r => exact moves_changesReply _ c r s
  | thenRuns p => exact moves_runThen _ p s
  | providerNetworkIs n => exact Moves.one (Move.providerChanged _ s n)

theorem moves_step_quiet (s : State) (e : Event) (he : e.isTeardown = false) :
    Moves true s (step s e) := by
  cases e with
  | start => exact moves_start _ s
  | stop => simp [Event.isTeardown] at he
  | pause d =>
    cases d with
    | true => simp [Event.isTeardown] at he
    | false => exact moves_pause_false _ s
  | resume => exact moves_start _ s
  | block => exact moves_block _ s
  | installSettles p r => exact moves_settle _ p _ s
  | wake c => exact moves_wake _ c s
  | networkReply c r => exact moves_networkReply _ c r s
  | changesReply c r => exact moves_changesReply _ c r s
  | thenRuns p => exact moves_runThen _ p s
  | providerNetworkIs n => exact Moves.one (Move.providerChanged _ s n)

theorem moves_run (s : State) (es : List Event) : Moves false s (run s es) := by
  induction es generalizing s with
  | nil => exact .refl
  | cons e es ih => exact (moves_step s e).then (ih _)

theorem moves_run_quiet (s : State) (es : List Event) (hes : ∀ e ∈ es, e.isTeardown = false) :
    Moves true s (run s es) := by
  induction es generalizing s with
  | nil => exact .refl
  | cons e es ih =>
    exact (moves_step_quiet s e (hes e (by simp))).then
      (ih _ (fun e he => hes e (by simp [he])))

/-- A property kept by every elementary transition is kept by every chain. -/
theorem Moves.keeps {q : Bool} {X : State → Prop}
    (hX : ∀ s s', Move q s s' → X s → X s') {s s' : State} (h : Moves q s s') (hs : X s) :
    X s' := by
  induction h with
  | refl => exact hs
  | tail _ h ih => exact hX _ _ h ih

/-! ## The trace agrees with the cycles -/

theorem Logged.set {tr : List Entry} {cy : List Cont} (h : Logged tr cy) {c : Nat} {k k' : Cont}
    (hc : cy[c]? = some k) (hmono : ∀ e, k.permits e = true → k'.permits e = true) :
    Logged tr (cy.set c k') := by
  intro e he c0 h0
  obtain ⟨k0, hk0, hp⟩ := h e he c0 h0
  by_cases hcc : c = c0
  · subst hcc
    have hlt : c < cy.length := by
      rcases List.getElem?_eq_some_iff.mp hc with ⟨hlt, _⟩
      exact hlt
    refine ⟨k', by simp [hlt], hmono _ ?_⟩
    rw [hc] at hk0
    cases hk0
    exact hp
  · exact ⟨k0, by rw [List.getElem?_set_ne hcc]; exact hk0, hp⟩

theorem Logged.push {tr : List Entry} {cy : List Cont} (h : Logged tr cy) (k' : Cont) :
    Logged tr (cy ++ [k']) := by
  intro e he c0 h0
  obtain ⟨k0, hk0, hp⟩ := h e he c0 h0
  have hlt : c0 < cy.length := by
    rcases List.getElem?_eq_some_iff.mp hk0 with ⟨hlt, _⟩
    exact hlt
  exact ⟨k0, by rw [List.getElem?_append_left hlt]; exact hk0, hp⟩

theorem Logged.add {tr : List Entry} {cy : List Cont} (h : Logged tr cy) {c : Nat} {k : Cont}
    (hc : cy[c]? = some k) (es : List Effect) (hes : ∀ e ∈ es, k.permits e = true) :
    Logged (tr ++ es.map (fun e => ⟨.cycle c, e⟩)) cy := by
  intro e he c0 h0
  rcases List.mem_append.mp he with he | he
  · exact h e he c0 h0
  · obtain ⟨x, hx, rfl⟩ := List.mem_map.mp he
    cases h0
    exact ⟨k, hc, hes x hx⟩

theorem Logged.other {tr : List Entry} {cy : List Cont} (h : Logged tr cy) (es : List Entry)
    (hes : ∀ e ∈ es, ∀ c, e.origin ≠ .cycle c) :
    Logged (tr ++ es) cy := by
  intro e he c0 h0
  rcases List.mem_append.mp he with he | he
  · exact h e he c0 h0
  · exact absurd h0 (hes e he c0)


theorem Logged.advance {tr : List Entry} {cy : List Cont} (h : Logged tr cy) {c : Nat}
    {k : Cont} (hc : cy[c]? = some k) (k' : Cont)
    (hmono : ∀ e, k.permits e = true → k'.permits e = true)
    (es : List Effect) (hes : ∀ e ∈ es, k'.permits e = true) :
    Logged (tr ++ es.map (fun e => ⟨.cycle c, e⟩)) (cy.set c k') := by
  have hlt : c < cy.length := by
    rcases List.getElem?_eq_some_iff.mp hc with ⟨hlt, _⟩
    exact hlt
  exact (h.set hc hmono).add (by simp [hlt]) es hes

theorem Logged.begin {tr : List Entry} {cy : List Cont} (h : Logged tr cy) (k' : Cont)
    (es : List Effect) (hes : ∀ e ∈ es, k'.permits e = true) :
    Logged (tr ++ es.map (fun e => ⟨.cycle cy.length, e⟩)) (cy ++ [k']) :=
  (h.push k').add (by simp) es hes

theorem cycleLog_move {q : Bool} (s s' : State) (h : Move q s s') (hs : CycleLog s) :
    CycleLog s' := by
  unfold CycleLog at *
  cases h with
  | beginCached _ _ a p ha hp =>
    have : Logged a.trace a.cycles := by cases ha <;> exact hs
    simpa using this.begin (.awaitInstall p) [] (by simp)
  | beginSubscribed _ _ a e ha h1 h2 h3 =>
    have : Logged a.trace a.cycles := by cases ha <;> exact hs
    simpa using this.begin (.awaitInstall a.tasks.length) [e] (by simpa [Cont.permits] using h3)
  | beginThrew _ _ a e ha h1 h2 =>
    have : Logged a.trace a.cycles := by cases ha <;> exact hs
    simpa using this.begin .done [.consoleLog e, .once] (by simp [Cont.permits])
  | installed _ _ c p f h1 h2 =>
    simpa using hs.advance h1 (.awaitNetwork f) (by simp +contextual [Cont.permits])
      [.getNetwork] (by simp [Cont.permits])
  | recovered _ _ c p ev h1 h2 h3 =>
    simpa using hs.advance h1 .done (by simp [Cont.permits])
      [.recoverSubscriber (.pollingEventSubscriber ev)] (by simp [Cont.permits])
  | caught _ _ c k e h1 h2 _ =>
    simpa using hs.advance h1 .done (by simp [Cont.permits])
      [.consoleLog e, .once] (by simp [Cont.permits])
  | recorded _ _ n h1 => exact hs
  | halted _ _ c f h1 h2 =>
    simpa using hs.advance h1 .done (by simp [Cont.permits]) [] (by simp)
  | asked _ _ c f h1 h2 =>
    simpa using hs.advance h1 (.awaitChanges f) (by simp +contextual [Cont.permits])
      [.send .eth_getFilterChanges [.filterId (some f)]]
      (by simp [Cont.permits, Effect.isGetChanges])
  | emitted _ _ c f es r h1 =>
    simpa [Function.comp_def] using hs.advance h1 (.awaitEmit r)
      (by simp +contextual [Cont.permits])
      (es.map (fun e => .emit e.1 e.2))
      (by
        intro e he
        obtain ⟨x, _, rfl⟩ := List.mem_map.mp he
        simp [Cont.permits, Effect.isEmit])
  | finished _ _ c h1 =>
    simpa using hs.advance h1 .done (by simp [Cont.permits]) [.once] (by simp [Cont.permits])
  | tornDown _ p h1 => exact hs
  | thenFired _ _ p v h1 h2 => exact hs.other _ (by simp)
  | thenDropped _ _ p e h1 h2 => exact hs
  | stopped _ _ h1 => exact hs
  | offed _ _ => exact hs.other _ (by simp)
  | taskSettled _ _ p t h1 h2 => exact hs
  | providerChanged _ _ n => exact hs

/-! ## The cached task and the teardown callbacks -/

theorem TaskLog.frame {s s' : State} (hs : TaskLog s)
    (h1 : s'.filterIdPromise = s.filterIdPromise) (h2 : s'.thens = s.thens)
    (h3 : s'.tasks.length = s.tasks.length) (es : List Entry) (h4 : s'.trace = s.trace ++ es)
    (h5 : ∀ e ∈ es, ∀ p, e.origin ≠ .teardown p) : TaskLog s' := by
  obtain ⟨g1, g2, g3, g4⟩ := hs
  unfold TaskLog
  rw [h1, h2, h3, h4]
  refine ⟨?_, ?_, g3, ?_⟩
  · intro p hp
    obtain ⟨a1, a2, a3⟩ := g1 p hp
    refine ⟨a1, a2, fun e he => ?_⟩
    rcases List.mem_append.mp he with he | he
    · exact a3 e he
    · exact h5 e he p
  · intro p hp
    obtain ⟨a1, a2⟩ := g2 p hp
    refine ⟨a1, fun e he => ?_⟩
    rcases List.mem_append.mp he with he | he
    · exact a2 e he
    · exact h5 e he p
  · intro e he p hp
    rcases List.mem_append.mp he with he | he
    · exact g4 e he p hp
    · exact absurd hp (h5 e he p)

theorem taskLog_armed {t a : State} (ha : Armed t a) (ht : TaskLog t) : TaskLog a := by
  cases ha <;> exact ht

theorem taskLog_move {q : Bool} (s s' : State) (h : Move q s s') (hs : TaskLog s) :
    TaskLog s' := by
  cases h with
  | beginCached _ _ a p ha hp =>
    exact (taskLog_armed ha hs).frame rfl rfl rfl [] (by simp) (by simp)
  | beginSubscribed _ _ a e ha h1 h2 h3 =>
    obtain ⟨g1, g2, g3, g4⟩ := taskLog_armed ha hs
    refine ⟨?_, ?_, g3, ?_⟩
    · intro p hp
      simp only [Option.some.injEq] at hp
      subst hp
      refine ⟨by simp, fun hm => absurd (g2 _ hm).1 (by simp), ?_⟩
      intro e he
      simp only [List.mem_append, List.mem_singleton] at he
      rcases he with he | rfl
      · intro h; exact absurd (g4 e he _ h) (by simp)
      · simp
    · intro p hp
      obtain ⟨a1, a2⟩ := g2 p hp
      refine ⟨by simp only [List.length_append, List.length_singleton]; omega, ?_⟩
      intro e he
      simp only [List.mem_append, List.mem_singleton] at he
      rcases he with he | rfl
      · exact a2 e he
      · simp
    · intro e he p hp
      simp only [List.mem_append, List.mem_singleton] at he
      rcases he with he | rfl
      · have := g4 e he p hp
        simp only [List.length_append, List.length_singleton]; omega
      · simp at hp
  | beginThrew _ _ a e ha h1 h2 =>
    exact (taskLog_armed ha hs).frame rfl rfl rfl _ rfl (by simp)
  | installed _ _ c p f h1 h2 => exact hs.frame rfl rfl rfl _ rfl (by simp)
  | recovered _ _ c p ev h1 h2 h3 => exact hs.frame rfl rfl rfl _ rfl (by simp)
  | caught _ _ c k e h1 h2 _ => exact hs.frame rfl rfl rfl _ rfl (by simp)
  | recorded _ _ n h1 => exact hs
  | halted _ _ c f h1 h2 => exact hs
  | asked _ _ c f h1 h2 => exact hs.frame rfl rfl rfl _ rfl (by simp)
  | emitted _ _ c f es r h1 =>
    refine hs.frame rfl rfl rfl _ rfl ?_
    intro e he p
    obtain ⟨x, _, rfl⟩ := List.mem_map.mp he
    simp
  | finished _ _ c h1 => exact hs.frame rfl rfl rfl _ rfl (by simp)
  | tornDown _ p h1 =>
    obtain ⟨g1, g2, g3, g4⟩ := hs
    obtain ⟨a1, a2, a3⟩ := g1 p h1
    refine ⟨by simp, ?_, ?_, g4⟩
    · intro p' hp'
      simp only [List.mem_append, List.mem_singleton] at hp'
      rcases hp' with hp' | rfl
      · exact g2 p' hp'
      · exact ⟨a1, a3⟩
    · exact List.Nodup.append g3 (by simp) (by simpa using a2)
  | thenFired _ _ p v h1 h2 =>
    obtain ⟨g1, g2, g3, g4⟩ := hs
    refine ⟨?_, ?_, g3.erase p, ?_⟩
    · intro p' hp'
      obtain ⟨a1, a2, a3⟩ := g1 p' hp'
      have hne : p' ≠ p := fun h => a2 (h ▸ h1)
      refine ⟨a1, fun hm => a2 (List.mem_of_mem_erase hm), ?_⟩
      intro e he
      simp only [List.mem_append, List.mem_singleton] at he
      rcases he with he | rfl
      · exact a3 e he
      · simpa using fun h => hne h.symm
    · intro p' hp'
      have hne : p' ≠ p := fun h => by
        subst h
        exact (List.Nodup.mem_erase_iff g3).mp hp' |>.1 rfl
      obtain ⟨a1, a2⟩ := g2 p' (List.mem_of_mem_erase hp')
      refine ⟨a1, ?_⟩
      intro e he
      simp only [List.mem_append, List.mem_singleton] at he
      rcases he with he | rfl
      · exact a2 e he
      · simpa using fun h => hne h.symm
    · intro e he p' hp'
      simp only [List.mem_append, List.mem_singleton] at he
      rcases he with he | rfl
      · exact g4 e he p' hp'
      · simp only [Origin.teardown.injEq] at hp'
        subst hp'
        exact (g2 _ h1).1
  | thenDropped _ _ p e h1 h2 =>
    obtain ⟨g1, g2, g3, g4⟩ := hs
    refine ⟨?_, ?_, g3.erase p, g4⟩
    · intro p' hp'
      obtain ⟨a1, a2, a3⟩ := g1 p' hp'
      exact ⟨a1, fun hm => a2 (List.mem_of_mem_erase hm), a3⟩
    · intro p' hp'
      exact g2 p' (List.mem_of_mem_erase hp')
  | stopped _ _ h1 => exact hs
  | offed _ _ => exact hs.frame rfl rfl rfl _ rfl (by simp)
  | taskSettled _ _ p t h1 h2 => exact hs.frame rfl rfl (by simp) [] (by simp) (by simp)
  | providerChanged _ _ n => exact hs

/-! ## One polling chain -/

theorem countP_set_add (P : Cont → Bool) (l : List Cont) (c : Nat) (k k' : Cont)
    (hc : l[c]? = some k) :
    (l.set c k').countP P + (if P k then 1 else 0) = l.countP P + (if P k' then 1 else 0) := by
  induction l generalizing c with
  | nil => simp at hc
  | cons x xs ih =>
    cases c with
    | zero =>
      simp only [List.getElem?_cons_zero, Option.some.injEq] at hc
      subst hc
      simp only [List.set_cons_zero, List.countP_cons]
      omega
    | succ c =>
      simp only [List.getElem?_cons_succ] at hc
      have := ih c hc
      simp only [List.set_cons_succ, List.countP_cons]
      omega

theorem inFlight_set_done (s : State) (c : Nat) (k : Cont) (hc : s.cycles[c]? = some k)
    (hk : k ≠ .done) :
    (s.cycles.set c .done).countP (fun k => k ≠ .done) + 1
      = s.cycles.countP (fun k => k ≠ .done) := by
  have := countP_set_add (fun k => k ≠ .done) s.cycles c k .done hc
  simpa [hk] using this

theorem inFlight_set_keep (s : State) (c : Nat) (k k' : Cont) (hc : s.cycles[c]? = some k)
    (hk : k ≠ .done) (hk' : k' ≠ .done) :
    (s.cycles.set c k').countP (fun k => k ≠ .done)
      = s.cycles.countP (fun k => k ≠ .done) := by
  have := countP_set_add (fun k => k ≠ .done) s.cycles c k k' hc
  simpa [hk, hk'] using this

theorem inFlight_push (l : List Cont) (k : Cont) :
    (l ++ [k]).countP (fun k => k ≠ .done)
      = l.countP (fun k => k ≠ .done) + (if k ≠ .done then 1 else 0) := by
  by_cases hk : k = .done <;> simp [List.countP_append, hk]

theorem armed_tokens {t a : State} (ha : Armed t a) (ht : OneChain t) (hh : a.hault = false) :
    tokens a = 0 ∧ a.running = true := by
  cases ha with
  | byStart hr =>
    have := (ht hh).2 hr
    exact ⟨this, rfl⟩
  | byBlock hl =>
    have h1 := ht hh
    dsimp only [tokens, inFlight] at *
    have hr : t.running = true := by
      by_contra hr
      have := h1.2 (by simpa using hr)
      omega
    exact ⟨by omega, hr⟩

theorem oneChain_move {q : Bool} (s s' : State) (h : Move q s s') (hs : OneChain s) :
    OneChain s' := by
  cases h with
  | beginCached _ _ a p ha hp =>
    intro hh
    have := armed_tokens ha hs hh
    dsimp only [tokens, inFlight] at *
    rw [inFlight_push]
    obtain ⟨h0, hr⟩ := this
    refine ⟨by simp only [ne_eq, reduceCtorEq, not_false_eq_true, not_true_eq_false, if_true,
      if_false] at h0 ⊢; omega, fun hr' => ?_⟩
    rw [hr] at hr'
    cases hr'
  | beginSubscribed _ _ a e ha h1 h2 h3 =>
    intro hh
    have := armed_tokens ha hs hh
    dsimp only [tokens, inFlight] at *
    rw [inFlight_push]
    obtain ⟨h0, hr⟩ := this
    refine ⟨by simp only [ne_eq, reduceCtorEq, not_false_eq_true, not_true_eq_false, if_true,
      if_false] at h0 ⊢; omega, fun hr' => ?_⟩
    rw [hr] at hr'
    cases hr'
  | beginThrew _ _ a e ha h1 h2 =>
    intro hh
    have := armed_tokens ha hs hh
    dsimp only [tokens, inFlight] at *
    rw [inFlight_push]
    obtain ⟨h0, hr⟩ := this
    refine ⟨by simp only [ne_eq, reduceCtorEq, not_false_eq_true, not_true_eq_false, if_true,
      if_false] at h0 ⊢; omega, fun hr' => ?_⟩
    rw [hr] at hr'
    cases hr'
  | installed _ _ c p f h1 h2 =>
    have := inFlight_set_keep s c _ (.awaitNetwork f) h1 (by simp) (by simp)
    dsimp only [OneChain, tokens, inFlight] at *
    rw [this]; exact hs
  | recovered _ _ c p ev h1 h2 h3 =>
    have := inFlight_set_done s c _ h1 (by simp)
    intro hh; have := hs hh
    dsimp only [OneChain, tokens, inFlight] at *
    constructor
    · omega
    · intro hr; have := this.2 hr; omega
  | caught _ _ c k e h1 h2 _ =>
    have := inFlight_set_done s c _ h1 h2
    intro hh; have := hs hh
    dsimp only [OneChain, tokens, inFlight] at *
    constructor
    · omega
    · intro hr; have := this.2 hr; omega
  | recorded _ _ n h1 => exact hs
  | halted _ _ c f h1 h2 =>
    intro hh
    rw [show s.hault = false from hh] at h2
    cases h2
  | asked _ _ c f h1 h2 =>
    have := inFlight_set_keep s c _ (.awaitChanges f) h1 (by simp) (by simp)
    dsimp only [OneChain, tokens, inFlight] at *
    rw [this]; exact hs
  | emitted _ _ c f es r h1 =>
    have := inFlight_set_keep s c _ (.awaitEmit r) h1 (by simp) (by simp)
    dsimp only [OneChain, tokens, inFlight] at *
    rw [this]; exact hs
  | finished _ _ c h1 =>
    have := inFlight_set_done s c _ h1 (by simp)
    intro hh; have := hs hh
    dsimp only [OneChain, tokens, inFlight] at *
    constructor
    · omega
    · intro hr; have := this.2 hr; omega
  | tornDown _ p h1 => exact hs
  | thenFired _ _ p v h1 h2 => exact hs
  | thenDropped _ _ p e h1 h2 => exact hs
  | stopped _ _ h1 => intro hh; cases hh
  | offed _ _ =>
    intro hh; have := hs hh
    dsimp only [OneChain, tokens, inFlight] at *
    constructor
    · omega
    · intro hr; have := this.2 hr; omega
  | taskSettled _ _ p t h1 h2 => exact hs
  | providerChanged _ _ n => exact hs

/-! ## Inert subscribers -/

theorem inFlight_pos (s : State) (c : Nat) (k : Cont) (hc : s.cycles[c]? = some k)
    (hk : k ≠ .done) : 0 < inFlight s := by
  unfold inFlight
  rw [List.countP_pos_iff]
  exact ⟨k, List.getElem?_mem hc, by simpa using hk⟩

theorem asked_only {q : Bool} (s s' : State) (h : Move q s s') :
    count Effect.isGetChanges s' = count Effect.isGetChanges s ∨
      (s.hault = false ∧ 0 < inFlight s) := by
  cases h with
  | beginCached _ _ a p ha hp => left; cases ha <;> simp [count, effects]
  | beginSubscribed _ _ a e ha h1 h2 h3 =>
    left
    have : e.isGetChanges = false := by
      cases e <;> simp_all [Effect.isInstall, Effect.isGetChanges]
      next m _ => cases m <;> simp_all
    cases ha <;> simp [count, effects, List.countP_append, this]
  | beginThrew _ _ a e ha h1 h2 =>
    left; cases ha <;> simp [count, effects, List.countP_append, Effect.isGetChanges]
  | asked _ _ c f h1 h2 => right; exact ⟨h2, inFlight_pos s c _ h1 (by simp)⟩
  | emitted _ _ c f es r h1 =>
    left
    simp [count, effects, List.countP_append, Effect.isGetChanges, List.countP_map,
      Function.comp_def]
  | _ => left; simp [count, effects, List.countP_append, Effect.isGetChanges]

theorem hault_move {q : Bool} (s s' : State) (h : Move q s s') (hs : s.hault = true) :
    s'.hault = true := by
  cases h with
  | beginCached _ _ a p ha hp => cases ha <;> exact hs
  | beginSubscribed _ _ a e ha h1 h2 h3 => cases ha <;> exact hs
  | beginThrew _ _ a e ha h1 h2 => cases ha <;> exact hs
  | stopped _ _ h1 => rfl
  | _ => exact hs

theorem inert_move {q : Bool} (s s' : State) (h : Move q s s') (hs : Inert s) :
    Inert s' := by
  rcases hs with hs | ⟨hr, ht⟩
  · exact Or.inl (hault_move s s' h hs)
  · have h0 : inFlight s = 0 ∧ s.listeners = 0 := by unfold tokens at ht; omega
    have nocycle : ∀ (c : Nat) (k : Cont),
        s.cycles[c]? = some k → k ≠ Cont.done → False := by
      intro c k hc hk
      have := inFlight_pos s c k hc hk
      omega
    cases h with
    | beginCached _ _ a p ha hp =>
      cases ha with
      | byStart h => rw [hr] at h; cases h
      | byBlock h => omega
    | beginSubscribed _ _ a e ha h1 h2 h3 =>
      cases ha with
      | byStart h => rw [hr] at h; cases h
      | byBlock h => omega
    | beginThrew _ _ a e ha h1 h2 =>
      cases ha with
      | byStart h => rw [hr] at h; cases h
      | byBlock h => omega
    | installed _ _ c p f h1 h2 => exact (nocycle c _ h1 (by simp)).elim
    | recovered _ _ c p ev h1 h2 h3 => exact (nocycle c _ h1 (by simp)).elim
    | caught _ _ c k e h1 h2 _ => exact (nocycle c _ h1 h2).elim
    | recorded _ _ n h1 => exact Or.inr ⟨hr, ht⟩
    | halted _ _ c f h1 h2 => exact Or.inl h2
    | asked _ _ c f h1 h2 => exact (nocycle c _ h1 (by simp)).elim
    | emitted _ _ c f es r h1 => exact (nocycle c _ h1 (by simp)).elim
    | finished _ _ c h1 => exact (nocycle c _ h1 (by simp)).elim
    | tornDown _ p h1 => exact Or.inr ⟨hr, ht⟩
    | thenFired _ _ p v h1 h2 => exact Or.inr ⟨hr, ht⟩
    | thenDropped _ _ p e h1 h2 => exact Or.inr ⟨hr, ht⟩
    | stopped _ _ h1 => exact Or.inl rfl
    | offed _ _ =>
      refine Or.inr ⟨hr, ?_⟩
      dsimp only [tokens, inFlight] at *
      omega
    | taskSettled _ _ p t h1 h2 => exact Or.inr ⟨hr, ht⟩
    | providerChanged _ _ n => exact Or.inr ⟨hr, ht⟩

theorem inert_silent_move {q : Bool} (s s' : State) (h : Move q s s') (hs : Inert s) :
    count Effect.isGetChanges s' = count Effect.isGetChanges s := by
  rcases asked_only s s' h with h1 | ⟨h1, h2⟩
  · exact h1
  · rcases hs with hs | ⟨_, ht⟩
    · rw [h1] at hs; cases hs
    · unfold tokens at ht; omega

theorem inert_silent {q : Bool} {s s' : State} (h : Moves q s s') (hs : Inert s) :
    Inert s' ∧ count Effect.isGetChanges s' = count Effect.isGetChanges s := by
  induction h with
  | refl => exact ⟨hs, rfl⟩
  | tail _ h ih => exact ⟨inert_move _ _ h ih.1, (inert_silent_move _ _ h ih.1).trans ih.2⟩

/-! ## Cycles continuing when the installation task settles -/

/-- What `resumeInstall` can do: nothing, or move cycle `c` on from its
    `await` of task `p`. -/
theorem resumeInstall_shape (p c : Nat) (s : State) :
    resumeInstall p c s = s ∨
      ∃ (k : Cont) (n : Nat) (es : List Effect),
        s.cycles[c]? = some (.awaitInstall p) ∧
        resumeInstall p c s = { s with
          cycles := s.cycles.set c k
          listeners := s.listeners + n
          trace := s.trace ++ es.map (fun e => ⟨.cycle c, e⟩) } ∧
        ((k = .done ∧ n ≤ 1) ∨ n = 0) ∧ ∀ x ∈ es, x.isUninstall = false := by
  unfold resumeInstall
  split
  · next p' hc =>
    split_ifs with hq
    · subst hq
      split
      · next v ht =>
        right
        cases v with
        | none =>
          cases hk : s.kind with
          | base =>
            exact ⟨.done, 1, [.consoleLog .mustOverride, .once], hc,
              by simp [pollExit, setCont, pollInstalled, _recover, hk, once, record],
              by simp, by simp [Effect.isUninstall]⟩
          | event ev =>
            exact ⟨.done, 0, [.recoverSubscriber (.pollingEventSubscriber ev)], hc,
              by simp [pollExit, setCont, pollInstalled, _recover, hk, once, record],
              by simp, by simp [Effect.isUninstall]⟩
          | pending =>
            exact ⟨.done, 1, [.consoleLog .mustOverride, .once], hc,
              by simp [pollExit, setCont, pollInstalled, _recover, hk, once, record],
              by simp, by simp [Effect.isUninstall]⟩
        | some filterId =>
          exact ⟨.awaitNetwork filterId, 0, [.getNetwork], hc,
            by simp [pollExit, setCont, pollInstalled, record],
            by simp, by simp [Effect.isUninstall]⟩
      · next e ht =>
        right
        exact ⟨.done, 1, [.consoleLog e, .once], hc,
          by simp [pollExit, setCont, pollInstalled, once, record],
          by simp, by simp [Effect.isUninstall]⟩
      · exact Or.inl rfl
    · exact Or.inl rfl
  · exact Or.inl rfl

theorem Resumed.refl (s : State) : Resumed s s :=
  ⟨rfl, rfl, rfl, rfl, rfl, rfl, rfl, rfl, rfl, Nat.le_refl _, [], by simp, by simp⟩

theorem Resumed.trans {a b c : State} (h : Resumed a b) (h' : Resumed b c) : Resumed a c := by
  obtain ⟨a1, a2, a3, a4, a5, a6, a7, a8, a9, a10, es, a11, a12⟩ := h
  obtain ⟨b1, b2, b3, b4, b5, b6, b7, b8, b9, b10, es', b11, b12⟩ := h'
  refine ⟨b1.trans a1, b2.trans a2, b3.trans a3, b4.trans a4, b5.trans a5, b6.trans a6,
    b7.trans a7, b8.trans a8, b9.trans a9, Nat.le_trans b10 a10, es ++ es', ?_, ?_⟩
  · rw [b11, a11, List.append_assoc]
  · intro e he
    rcases List.mem_append.mp he with he | he
    · exact a12 e he
    · exact b12 e he

theorem resumeInstall_resumed (p c : Nat) (s : State) : Resumed s (resumeInstall p c s) := by
  rcases resumeInstall_shape p c s with h | ⟨k, n, es, hc, h, hk, hun⟩
  · rw [h]; exact Resumed.refl s
  · rw [h]
    refine ⟨rfl, rfl, rfl, rfl, rfl, rfl, rfl, rfl, by simp, ?_, _, rfl, ?_⟩
    swap
    · intro e he
      obtain ⟨x, hx, rfl⟩ := List.mem_map.mp he
      exact ⟨⟨c, rfl⟩, hun x hx⟩
    dsimp only [tokens, inFlight]
    by_cases hd : k = .done
    · subst hd
      have := inFlight_set_done s c _ hc (by simp)
      rcases hk with ⟨_, hn⟩ | rfl <;> omega
    · have := inFlight_set_keep s c _ k hc (by simp) hd
      rcases hk with ⟨rfl, _⟩ | rfl
      · exact absurd rfl hd
      · omega

theorem foldl_resumed (p : Nat) (cs : List Nat) (s : State) :
    Resumed s (cs.foldl (fun w c => resumeInstall p c w) s) := by
  induction cs generalizing s with
  | nil => exact Resumed.refl s
  | cons c cs ih => exact (resumeInstall_resumed p c s).trans (ih _)

theorem resumeInstall_other (p c c0 : Nat) (s : State) (h0 : c0 ≠ c) :
    (resumeInstall p c s).cycles[c0]? = s.cycles[c0]? ∧
      cycleEffects c0 (resumeInstall p c s) = cycleEffects c0 s := by
  rcases resumeInstall_shape p c s with h | ⟨k, n, es, hc, h, hk, hun⟩
  · rw [h]; exact ⟨rfl, rfl⟩
  · rw [h]
    refine ⟨by simp [List.getElem?_set_ne (Ne.symm h0)], ?_⟩
    simp [cycleEffects, List.filter_map, Function.comp_def, Ne.symm h0]

theorem foldl_resume_other (p c0 : Nat) (cs : List Nat) (s : State) (h0 : c0 ∉ cs) :
    (cs.foldl (fun w c => resumeInstall p c w) s).cycles[c0]? = s.cycles[c0]? ∧
      cycleEffects c0 (cs.foldl (fun w c => resumeInstall p c w) s) = cycleEffects c0 s := by
  induction cs generalizing s with
  | nil => exact ⟨rfl, rfl⟩
  | cons c cs ih =>
    have h1 : c0 ≠ c := fun h => h0 (by simp [h])
    have h2 : c0 ∉ cs := fun h => h0 (by simp [h])
    obtain ⟨a1, a2⟩ := resumeInstall_other p c c0 s h1
    obtain ⟨b1, b2⟩ := ih (resumeInstall p c s) h2
    exact ⟨b1.trans a1, b2.trans a2⟩


theorem resumeInstall_recover (p c : Nat) (s : State) (ev : Filter) (hk : s.kind = .event ev)
    (hc : s.cycles[c]? = some (.awaitInstall p)) (hp : s.tasks[p]? = some (.fulfilled none)) :
    resumeInstall p c s = { s with
      cycles := s.cycles.set c .done
      trace := s.trace ++ [⟨.cycle c, .recoverSubscriber (.pollingEventSubscriber ev)⟩] } := by
  simp [resumeInstall, hc, hp, pollExit, setCont, pollInstalled, _recover, hk, record]

theorem foldl_resume_recover (p c : Nat) (ev : Filter) (cs : List Nat) (s : State)
    (hnd : cs.Nodup) (hmem : c ∈ cs) (hk : s.kind = .event ev)
    (hc : s.cycles[c]? = some (.awaitInstall p)) (hp : s.tasks[p]? = some (.fulfilled none)) :
    cycleEffects c (cs.foldl (fun w c => resumeInstall p c w) s)
        = cycleEffects c s ++ [.recoverSubscriber (.pollingEventSubscriber ev)] ∧
      (cs.foldl (fun w c => resumeInstall p c w) s).cycles[c]? = some .done ∧
      tokens (cs.foldl (fun w c => resumeInstall p c w) s) + 1 ≤ tokens s := by
  induction cs generalizing s with
  | nil => simp at hmem
  | cons c' cs ih =>
    simp only [List.foldl_cons]
    obtain ⟨hnot, hnd'⟩ := List.nodup_cons.mp hnd
    by_cases hcc : c' = c
    · subst hcc
      have heq := resumeInstall_recover p c' s ev hk hc hp
      obtain ⟨a1, a2⟩ := foldl_resume_other p c' cs (resumeInstall p c' s) hnot
      have hlt : c' < s.cycles.length := by
        rcases List.getElem?_eq_some_iff.mp hc with ⟨hlt, _⟩
        exact hlt
      have htok := (foldl_resumed p cs (resumeInstall p c' s)).2.2.2.2.2.2.2.2.2.1
      have hdone := inFlight_set_done s c' _ hc (by simp)
      refine ⟨?_, ?_, ?_⟩
      · rw [a2, heq]; simp [cycleEffects]
      · rw [a1, heq]; simp [hlt]
      · rw [heq] at htok ⊢
        dsimp only [tokens, inFlight] at *
        omega
    · have hmem' : c ∈ cs := by
        rcases List.mem_cons.mp hmem with h | h
        · exact absurd h.symm hcc
        · exact h
      have hres := resumeInstall_resumed p c' s
      obtain ⟨b1, b2⟩ := resumeInstall_other p c' c s (Ne.symm hcc)
      obtain ⟨i1, i2, i3⟩ := ih (resumeInstall p c' s) hnd' hmem'
        (hres.1.trans hk) (b1.trans hc) (by rw [hres.2.2.2.2.2.1]; exact hp)
      refine ⟨by rw [i1, b2], i2, ?_⟩
      have := hres.2.2.2.2.2.2.2.2.2.1
      omega

/-- A cycle that has returned stays returned and causes nothing more. -/
theorem done_move {q : Bool} (s s' : State) (c : Nat) (h : Move q s s')
    (hc : s.cycles[c]? = some .done) :
    s'.cycles[c]? = some .done ∧ cycleEffects c s' = cycleEffects c s := by
  have hlt : c < s.cycles.length := by
    rcases List.getElem?_eq_some_iff.mp hc with ⟨hlt, _⟩
    exact hlt
  have key : ∀ (c' : Nat) (k k' : Cont) (n : Nat) (es : List Effect),
      s.cycles[c']? = some k → k ≠ .done →
      (s.cycles.set c' k')[c]? = some .done ∧
        ((s.trace ++ es.map (fun e => (⟨.cycle c', e⟩ : Entry))).filter
          (fun e => e.origin = .cycle c)).map (fun e => e.effect) = cycleEffects c s := by
    intro c' k k' n es h1 h2
    have hne : c' ≠ c := by
      rintro rfl
      rw [hc] at h1
      cases h1
      exact h2 rfl
    refine ⟨by rw [List.getElem?_set_ne hne]; exact hc, ?_⟩
    simp [cycleEffects, List.filter_map, Function.comp_def, hne]
  have push : ∀ (a : State) (k' : Cont) (es : List Effect),
      a.cycles = s.cycles → a.trace = s.trace →
      (a.cycles ++ [k'])[c]? = some .done ∧
        ((a.trace ++ es.map (fun e => (⟨.cycle a.cycles.length, e⟩ : Entry))).filter
          (fun e => e.origin = .cycle c)).map (fun e => e.effect) = cycleEffects c s := by
    intro a k' es h1 h2
    rw [h1, h2]
    refine ⟨by rw [List.getElem?_append_left hlt]; exact hc, ?_⟩
    have hne : s.cycles.length ≠ c := by omega
    simp [cycleEffects, List.filter_map, Function.comp_def, hne]
  cases h with
  | beginCached _ _ a p ha hp =>
    have := push a (.awaitInstall p) [] (by cases ha <;> rfl) (by cases ha <;> rfl)
    simpa [cycleEffects] using this
  | beginSubscribed _ _ a e ha h1 h2 h3 =>
    have := push a (.awaitInstall a.tasks.length) [e] (by cases ha <;> rfl)
      (by cases ha <;> rfl)
    simpa [cycleEffects] using this
  | beginThrew _ _ a e ha h1 h2 =>
    have := push a .done [.consoleLog e, .once] (by cases ha <;> rfl) (by cases ha <;> rfl)
    simpa [cycleEffects] using this
  | installed _ _ c' p f h1 h2 =>
    simpa [cycleEffects] using key c' _ (.awaitNetwork f) 0 [.getNetwork] h1 (by simp)
  | recovered _ _ c' p ev h1 h2 h3 =>
    simpa [cycleEffects] using key c' _ .done 0
      [.recoverSubscriber (.pollingEventSubscriber ev)] h1 (by simp)
  | caught _ _ c' k e h1 h2 _ =>
    simpa [cycleEffects] using key c' _ .done 0 [.consoleLog e, .once] h1 h2
  | recorded _ _ n h1 => exact ⟨hc, rfl⟩
  | halted _ _ c' f h1 h2 =>
    simpa [cycleEffects] using key c' _ .done 0 [] h1 (by simp)
  | asked _ _ c' f h1 h2 =>
    simpa [cycleEffects] using key c' _ (.awaitChanges f) 0
      [.send .eth_getFilterChanges [.filterId (some f)]] h1 (by simp)
  | emitted _ _ c' f es r h1 =>
    simpa [cycleEffects, Function.comp_def] using key c' _ (.awaitEmit r) 0
      (es.map (fun e => .emit e.1 e.2)) h1 (by simp)
  | finished _ _ c' h1 =>
    simpa [cycleEffects] using key c' _ .done 0 [.once] h1 (by simp)
  | tornDown _ p h1 => exact ⟨hc, rfl⟩
  | thenFired _ _ p v h1 h2 => exact ⟨hc, by simp [cycleEffects]⟩
  | thenDropped _ _ p e h1 h2 => exact ⟨hc, rfl⟩
  | stopped _ _ h1 => exact ⟨hc, rfl⟩
  | offed _ _ => exact ⟨hc, by simp [cycleEffects]⟩
  | taskSettled _ _ p t h1 h2 => exact ⟨hc, rfl⟩
  | providerChanged _ _ n => exact ⟨hc, rfl⟩

theorem done_moves {q : Bool} {s s' : State} (c : Nat) (h : Moves q s s')
    (hc : s.cycles[c]? = some .done) :
    s'.cycles[c]? = some .done ∧ cycleEffects c s' = cycleEffects c s := by
  induction h with
  | refl => exact ⟨hc, rfl⟩
  | tail _ h ih =>
    obtain ⟨a1, a2⟩ := done_move _ _ c h ih.1
    exact ⟨a1, a2.trans ih.2⟩

/-! ## Runs -/

theorem singleFlight_move (s s' : State) (h : Move true s s')
    (hs : s.kind ≠ .base ∧ s.tasks.length = count Effect.isInstall s ∧
      ((s.filterIdPromise = none ∧ count Effect.isInstall s = 0) ∨
        (s.filterIdPromise ≠ none ∧ count Effect.isInstall s = 1))) :
    s'.kind ≠ .base ∧ s'.tasks.length = count Effect.isInstall s' ∧
      ((s'.filterIdPromise = none ∧ count Effect.isInstall s' = 0) ∨
        (s'.filterIdPromise ≠ none ∧ count Effect.isInstall s' = 1)) := by
  cases h with
  | beginCached _ _ a p ha hp =>
    cases ha <;> simp_all [count, effects]
  | beginSubscribed _ _ a e ha h1 h2 h3 =>
    cases ha <;> simp_all [count, effects, List.countP_append]
  | beginThrew _ _ a e ha h1 h2 =>
    cases ha <;> simp_all [count, effects]
  | _ =>
    simp_all [count, effects, Effect.isInstall, List.countP_append, List.countP_map,
      Function.comp_def]

theorem run_append (s : State) (es es' : List Event) :
    run s (es ++ es') = run (run s es) es' := by
  simp [run, List.foldl_append]

theorem run_cons (s : State) (e : Event) (es : List Event) :
    run s (e :: es) = run (step s e) es := rfl

theorem reachable_init (kind : Kind) (net : Network) : Reachable (init kind net) :=
  ⟨kind, net, [], rfl⟩

theorem Reachable.run {s : State} (h : Reachable s) (es : List Event) :
    Reachable (run s es) := by
  obtain ⟨kind, net, es0, rfl⟩ := h
  exact ⟨kind, net, es0 ++ es, (run_append _ _ _).symm⟩

theorem Reachable.step {s : State} (h : Reachable s) (e : Event) : Reachable (step s e) :=
  h.run [e]

theorem Reachable.invariants {s : State} (h : Reachable s) :
    CycleLog s ∧ TaskLog s ∧ OneChain s := by
  obtain ⟨kind, net, es, rfl⟩ := h
  have hm := moves_run (init kind net) es
  refine ⟨hm.keeps cycleLog_move ?_, hm.keeps taskLog_move ?_, hm.keeps oneChain_move ?_⟩
  · intro e he; simp [init] at he
  · simp [TaskLog, init]
  · intro _; simp [tokens, inFlight, init]

theorem kind_move {q : Bool} (s s' : State) (h : Move q s s') : s'.kind = s.kind := by
  cases h with
  | beginCached _ _ a p ha hp => cases ha <;> rfl
  | beginSubscribed _ _ a e ha h1 h2 h3 => cases ha <;> rfl
  | beginThrew _ _ a e ha h1 h2 => cases ha <;> rfl
  | _ => rfl

theorem kind_run (s : State) (es : List Event) : (run s es).kind = s.kind := by
  have := (moves_run s es).keeps (X := fun x => x.kind = s.kind)
    (fun a b h ha => (kind_move a b h).trans ha) rfl
  exact this

theorem hault_run (s : State) (es : List Event) (h : s.hault = true) :
    (run s es).hault = true :=
  (moves_run s es).keeps (X := fun x => x.hault = true) (fun a b hm ha => hault_move a b hm ha) h

/-- The subscriber of C1 never sees `#teardown`. -/
theorem singleFlight_run (kind : Kind) (net : Network) (es : List Event)
    (hk : kind ≠ .base) (hes : ∀ e ∈ es, e.isTeardown = false) :
    (run (init kind net) es).kind ≠ .base ∧
      (run (init kind net) es).tasks.length = count Effect.isInstall (run (init kind net) es) ∧
      (((run (init kind net) es).filterIdPromise = none ∧
          count Effect.isInstall (run (init kind net) es) = 0) ∨
        ((run (init kind net) es).filterIdPromise ≠ none ∧
          count Effect.isInstall (run (init kind net) es) = 1)) := by
  refine (moves_run_quiet (init kind net) es hes).keeps
    (X := fun s => s.kind ≠ .base ∧ s.tasks.length = count Effect.isInstall s ∧
      ((s.filterIdPromise = none ∧ count Effect.isInstall s = 0) ∨
        (s.filterIdPromise ≠ none ∧ count Effect.isInstall s = 1)))
    singleFlight_move ?_
  simp [init, count, effects, hk]

theorem poll_cached (s : State) (p : Nat) (hp : s.filterIdPromise = some p) :
    poll s = { s with cycles := s.cycles ++ [.awaitInstall p] } := by
  simp [poll, pollBegin, hp, pollExit, setCont]

/-- C1. Single-flight installation. For a subscriber of one of the two concrete
    classes and every sequence of events without a call that runs `#teardown`
    (no `stop()`, no `pause(true)`), `_subscribe` has been invoked at most once
    (at most one installation request in the trace, at most one installation task
    created); and when a task is cached, a further call of `#poll` issues no
    request and awaits that same task. -/
theorem single_flight_installation (kind : Kind) (net : Network) (es : List Event)
    (hk : kind ≠ .base) (hes : ∀ e ∈ es, e.isTeardown = false) :
    count Effect.isInstall (run (init kind net) es) ≤ 1 ∧
      (run (init kind net) es).tasks.length ≤ 1 ∧
      ∀ p, (run (init kind net) es).filterIdPromise = some p →
        poll (run (init kind net) es) =
          { run (init kind net) es with
            cycles := (run (init kind net) es).cycles ++ [.awaitInstall p] } := by
  obtain ⟨_, h1, h2⟩ := singleFlight_run kind net es hk hes
  refine ⟨?_, ?_, fun p hp => poll_cached _ p hp⟩
  · rcases h2 with ⟨_, h⟩ | ⟨_, h⟩ <;> omega
  · rcases h2 with ⟨_, h⟩ | ⟨_, h⟩ <;> omega

theorem single_flight_installation_witness :
    Kind.pending ≠ Kind.base ∧
      (∀ e ∈ [Event.start, .installSettles 0 (.error (.rpc 1)), .block, .block],
        e.isTeardown = false) ∧
      count Effect.isInstall (run (init .pending ⟨1⟩)
        [.start, .installSettles 0 (.error (.rpc 1)), .block, .block]) ≤ 1 :=
  ⟨by decide, by decide,
    (single_flight_installation .pending ⟨1⟩
      [.start, .installSettles 0 (.error (.rpc 1)), .block, .block] (by decide) (by decide)).1⟩

theorem runThen_frame (p c : Nat) (s : State) :
    (runThen p s).cycles = s.cycles ∧ cycleEffects c (runThen p s) = cycleEffects c s ∧
      (runThen p s).listeners = s.listeners ∧ (runThen p s).running = s.running ∧
      (runThen p s).hault = s.hault := by
  unfold runThen
  split_ifs
  · split <;> simp [record, cycleEffects]
  · simp

/-- The step in which a cycle of a log-event subscriber sees its installation
    task yield no filter ID. -/
theorem handoff_step (s : State) (ev : Filter) (c p : Nat) (e : Event)
    (hk : s.kind = .event ev) (hc : s.cycles[c]? = some (.awaitInstall p))
    (he : (e = .installSettles p (.ok none) ∧ s.tasks[p]? = some .pending) ∨
      (e = .wake c ∧ s.tasks[p]? = some (.fulfilled none))) :
    cycleEffects c (step s e)
        = cycleEffects c s ++ [.recoverSubscriber (.pollingEventSubscriber ev)] ∧
      (step s e).cycles[c]? = some .done ∧ tokens (step s e) + 1 ≤ tokens s ∧
      (step s e).running = s.running ∧ (step s e).hault = s.hault := by
  have hlt : c < s.cycles.length := by
    rcases List.getElem?_eq_some_iff.mp hc with ⟨hlt, _⟩
    exact hlt
  rcases he with ⟨rfl, hp⟩ | ⟨rfl, hp⟩
  · have hpl : p < s.tasks.length := by
      rcases List.getElem?_eq_some_iff.mp hp with ⟨hlt, _⟩
      exact hlt
    have hstep : step s (.installSettles p (.ok none)) =
        runThen p ((List.range s.cycles.length).foldl (fun w c => resumeInstall p c w)
          { s with tasks := s.tasks.set p (.fulfilled none) }) := by
      simp [step, settle, hp, taskOf]
    obtain ⟨f1, f2, f3⟩ := foldl_resume_recover p c ev (List.range s.cycles.length)
      { s with tasks := s.tasks.set p (.fulfilled none) } (List.nodup_range _)
      (List.mem_range.mpr hlt) hk hc (by simp [hpl])
    have hres := foldl_resumed p (List.range s.cycles.length)
      { s with tasks := s.tasks.set p (.fulfilled none) }
    obtain ⟨r1, r2, r3, r4, r5⟩ := runThen_frame p c
      ((List.range s.cycles.length).foldl (fun w c => resumeInstall p c w)
        { s with tasks := s.tasks.set p (.fulfilled none) })
    rw [hstep]
    refine ⟨r2.trans f1, by rw [r1]; exact f2, ?_, r4.trans hres.2.2.1, r5.trans hres.2.2.2.2.1⟩
    dsimp only [tokens, inFlight] at *
    rw [r1, r3]
    exact f3
  · have hstep : step s (.wake c) = resumeInstall p c s := by
      simp [step, wake, hc]
    obtain ⟨f1, f2, f3⟩ := foldl_resume_recover p c ev [c] s (by simp) (by simp) hk hc hp
    have hres := resumeInstall_resumed p c s
    rw [hstep]
    exact ⟨f1, f2, f3, hres.2.2.1, hres.2.2.2.2.1⟩

theorem inert_run (s : State) (es : List Event) (hs : Inert s) :
    Inert (run s es) ∧ count Effect.isGetChanges (run s es) = count Effect.isGetChanges s :=
  inert_silent (moves_run s es) hs

theorem done_run (s : State) (es : List Event) (c : Nat) (hc : s.cycles[c]? = some .done) :
    (run s es).cycles[c]? = some .done ∧ cycleEffects c (run s es) = cycleEffects c s :=
  done_moves c (moves_run s es) hc

theorem cycleEffects_permitted (s : State) (c : Nat) (k : Cont) (hs : CycleLog s)
    (hc : s.cycles[c]? = some k) : ∀ x ∈ cycleEffects c s, k.permits x = true := by
  intro x hx
  simp only [cycleEffects, List.mem_map, List.mem_filter, decide_eq_true_eq] at hx
  obtain ⟨e, ⟨he, ho⟩, rfl⟩ := hx
  obtain ⟨k', hk', hp⟩ := hs e he c ho
  rw [hc] at hk'
  cases hk'
  exact hp

/-- C2. Unsupported-filter handoff of the log-event subscriber. Let a cycle of
    a `FilterIdEventSubscriber` built from filter `D` await the installation task,
    and let the task yield `null` (it settles while the cycle waits, or it had
    settled before the `await`). In that step the cycle calls
    `_recoverSubscriber(this, new PollingEventSubscriber(provider, copy(D)))`
    and returns; everything else the cycle ever caused is the installation
    request, so it sent no `eth_getFilterChanges` and registered no listener;
    after any further events the cycle has caused nothing more and the instance
    has sent no further `eth_getFilterChanges`. -/
theorem unsupported_filter_handoff (D : Filter) (net : Network) (es0 es : List Event)
    (s : State) (c p : Nat) (e : Event)
    (hs : s = run (newEventSubscriber D net) es0)
    (hc : s.cycles[c]? = some (.awaitInstall p))
    (he : (e = .installSettles p (.ok none) ∧ s.tasks[p]? = some .pending) ∨
      (e = .wake c ∧ s.tasks[p]? = some (.fulfilled none))) :
    cycleEffects c (step s e)
        = cycleEffects c s ++ [.recoverSubscriber (.pollingEventSubscriber (copy D))] ∧
      (∀ x ∈ cycleEffects c s, x.isInstall = true) ∧
      (step s e).cycles[c]? = some .done ∧
      cycleEffects c (run (step s e) es) = cycleEffects c (step s e) ∧
      count Effect.isGetChanges (run (step s e) es) = count Effect.isGetChanges (step s e) := by
  have hreach : Reachable s := ⟨_, _, es0, hs⟩
  have hk : s.kind = .event (copy D) := by rw [hs, kind_run]; rfl
  obtain ⟨hlog, _, hone⟩ := hreach.invariants
  obtain ⟨h1, h2, h3, h4, h5⟩ := handoff_step s (copy D) c p e hk hc he
  refine ⟨h1, ?_, h2, (done_run _ es c h2).2, ?_⟩
  · simpa [Cont.permits] using cycleEffects_permitted s c _ hlog hc
  · refine (inert_run _ es ?_).2
    by_cases hh : s.hault = true
    · exact Or.inl (h5.trans hh)
    · have hh' : s.hault = false := by simpa using hh
      obtain ⟨t1, t2⟩ := hone hh'
      have hpos := inFlight_pos s c _ hc (by simp)
      have hrun : s.running = true := by
        by_contra hr
        have := t2 (by simpa using hr)
        unfold tokens at this
        omega
      refine Or.inr ⟨h4.trans hrun, ?_⟩
      omega

theorem unsupported_filter_handoff_witness :
    cycleEffects 0 (step (run (newEventSubscriber ⟨0xAAA, []⟩ ⟨1⟩) [.start])
        (.installSettles 0 (.ok none)))
      = [.send .eth_newFilter [.filter ⟨0xAAA, []⟩],
          .recoverSubscriber (.pollingEventSubscriber ⟨0xAAA, []⟩)] ∧
      count Effect.isGetChanges
          (run (step (run (newEventSubscriber ⟨0xAAA, []⟩ ⟨1⟩) [.start])
            (.installSettles 0 (.ok none))) [.block, .stop, .start, .block])
        = 0 := by
  have h := unsupported_filter_handoff ⟨0xAAA, []⟩ ⟨1⟩ [.start]
    [.block, .stop, .start, .block] _ 0 0 (.installSettles 0 (.ok none)) rfl (by decide)
    (Or.inl ⟨rfl, by decide⟩)
  exact ⟨h.1.trans (by decide), h.2.2.2.2.trans (by decide)⟩

theorem cycle_shape (s : State) (c : Nat) (k : Cont) (n : Nat) (E : List Effect)
    (net : Option Network) (hlt : c < s.cycles.length) :
    cycleEffects c { s with
        network := net
        cycles := s.cycles.set c k
        listeners := n
        trace := s.trace ++ E.map (fun e => ⟨.cycle c, e⟩) }
      = cycleEffects c s ++ E ∧
    ({ s with
        network := net
        cycles := s.cycles.set c k
        listeners := n
        trace := s.trace ++ E.map (fun e => ⟨.cycle c, e⟩) } : State).cycles[c]? = some k := by
  refine ⟨?_, by simp [hlt]⟩
  simp [cycleEffects, List.filter_map, Function.comp_def]

theorem lt_of_cont {s : State} {c : Nat} {k : Cont} (hc : s.cycles[c]? = some k) :
    c < s.cycles.length := by
  rcases List.getElem?_eq_some_iff.mp hc with ⟨hlt, _⟩
  exact hlt

theorem lt_of_task {s : State} {p : Nat} {t : Task} (hp : s.tasks[p]? = some t) :
    p < s.tasks.length := by
  rcases List.getElem?_eq_some_iff.mp hp with ⟨hlt, _⟩
  exact hlt

theorem resumeInstall_rejected (p c : Nat) (s : State) (err : Err)
    (hc : s.cycles[c]? = some (.awaitInstall p)) (hp : s.tasks[p]? = some (.rejected err)) :
    resumeInstall p c s = { s with
      cycles := s.cycles.set c .done
      listeners := s.listeners + 1
      trace := s.trace ++ [⟨.cycle c, .consoleLog err⟩, ⟨.cycle c, .once⟩] } := by
  simp [resumeInstall, hc, hp, pollExit, setCont, pollInstalled, once, record]

/-- Through the cycles continuing on a settled task, cycle `c` does what
    `resumeInstall p c` does to it. -/
theorem foldl_resume_at (p c : Nat) (E : List Effect) (k : Cont) (cs : List Nat) (s : State)
    (hnd : cs.Nodup) (hmem : c ∈ cs) (hc : s.cycles[c]? = some (.awaitInstall p))
    (hE : ∀ s0 : State, s0.kind = s.kind → s0.tasks = s.tasks →
      s0.cycles[c]? = some (.awaitInstall p) →
      cycleEffects c (resumeInstall p c s0) = cycleEffects c s0 ++ E ∧
        (resumeInstall p c s0).cycles[c]? = some k) :
    cycleEffects c (cs.foldl (fun w c => resumeInstall p c w) s) = cycleEffects c s ++ E ∧
      (cs.foldl (fun w c => resumeInstall p c w) s).cycles[c]? = some k := by
  induction cs generalizing s with
  | nil => simp at hmem
  | cons c' cs ih =>
    simp only [List.foldl_cons]
    obtain ⟨hnot, hnd'⟩ := List.nodup_cons.mp hnd
    by_cases hcc : c' = c
    · subst hcc
      obtain ⟨a1, a2⟩ := foldl_resume_other p c' cs (resumeInstall p c' s) hnot
      obtain ⟨e1, e2⟩ := hE s rfl rfl hc
      exact ⟨a2.trans e1, a1.trans e2⟩
    · have hmem' : c ∈ cs := by
        rcases List.mem_cons.mp hmem with h | h
        · exact absurd h.symm hcc
        · exact h
      have hres := resumeInstall_resumed p c' s
      obtain ⟨b1, b2⟩ := resumeInstall_other p c' c s (Ne.symm hcc)
      obtain ⟨i1, i2⟩ := ih (resumeInstall p c' s) hnd' hmem' (b1.trans hc)
        (fun s0 h1 h2 h3 => hE s0 (h1.trans hres.1) (h2.trans hres.2.2.2.2.2.1) h3)
      exact ⟨by rw [i1, b2], i2⟩

/-- In the step of a failure the cycle logs the error, registers the poller
    and returns. -/
theorem failure_step {s s' : State} {c : Nat} {err : Err} (h : Failure s c err s')
    (hs : CycleLog s) :
    cycleEffects c s' = cycleEffects c s ++ [.consoleLog err, .once] ∧
      s'.cycles[c]? = some .done ∧ ∀ x ∈ cycleEffects c s, x.isOnce = false := by
  have hperm : ∀ (k : Cont), s.cycles[c]? = some k → k ≠ .done →
      ∀ x ∈ cycleEffects c s, x.isOnce = false := by
    intro k hc hk x hx
    have := cycleEffects_permitted s c k hs hc x hx
    cases k <;> cases x <;> simp_all [Cont.permits, Effect.isOnce, Effect.isInstall,
      Effect.isGetChanges, Effect.isEmit]
  cases h
  case subscribeThrows hk hp =>
    have hnone : cycleEffects s.cycles.length s = [] := by
      simp only [cycleEffects, List.map_eq_nil_iff, List.filter_eq_nil_iff, decide_eq_true_eq]
      intro e he ho
      obtain ⟨k, hk', _⟩ := hs e he _ ho
      have := lt_of_cont hk'
      omega
    have heq : poll s = { s with
        cycles := s.cycles ++ [.done]
        listeners := s.listeners + 1
        trace := s.trace ++ [⟨.cycle s.cycles.length, .consoleLog .mustOverride⟩,
          ⟨.cycle s.cycles.length, .once⟩] } := by
      simp [poll, pollBegin, hp, _subscribe, hk, pollExit, setCont, once, record]
    rw [heq]
    refine ⟨?_, by simp, by simp [hnone]⟩
    simp only [cycleEffects] at hnone ⊢
    simp [hnone]
  case installRejects =>
    rename_i p hp hc
    have hlt := lt_of_cont hc
    have hpl := lt_of_task hp
    have hstep : step s (.installSettles p (.error err)) =
        runThen p ((List.range s.cycles.length).foldl (fun w c => resumeInstall p c w)
          { s with tasks := s.tasks.set p (.rejected err) }) := by
      simp [step, settle, hp, taskOf]
    obtain ⟨f1, f2⟩ := foldl_resume_at p c [.consoleLog err, .once] .done
      (List.range s.cycles.length) { s with tasks := s.tasks.set p (.rejected err) }
      (List.nodup_range _) (List.mem_range.mpr hlt) hc
      (by
        intro s0 _ h2 h3
        have h4 : s0.tasks[p]? = some (.rejected err) := by rw [h2]; simp [hpl]
        rw [resumeInstall_rejected p c s0 err h3 h4]
        simpa using cycle_shape s0 c .done (s0.listeners + 1) [.consoleLog err, .once]
          s0.network (lt_of_cont h3))
    obtain ⟨r1, r2, -⟩ := runThen_frame p c
      ((List.range s.cycles.length).foldl (fun w c => resumeInstall p c w)
        { s with tasks := s.tasks.set p (.rejected err) })
    rw [hstep]
    exact ⟨r2.trans f1, by rw [r1]; exact f2, hperm _ hc (by simp)⟩
  case installRejected =>
    rename_i p hc hp
    have hstep : step s (.wake c) = resumeInstall p c s := by simp [step, wake, hc]
    rw [hstep, resumeInstall_rejected p c s err hc hp]
    have := cycle_shape s c .done (s.listeners + 1) [.consoleLog err, .once] s.network
      (lt_of_cont hc)
    exact ⟨by simpa using this.1, by simpa using this.2, hperm _ hc (by simp)⟩
  case networkRejects =>
    rename_i f hc
    have hstep : step s (.networkReply c (.error err)) = { s with
        cycles := s.cycles.set c .done
        listeners := s.listeners + 1
        trace := s.trace ++ [⟨.cycle c, .consoleLog err⟩, ⟨.cycle c, .once⟩] } := by
      simp [step, networkReply, hc, pollNetwork, pollExit, setCont, once, record]
    rw [hstep]
    have := cycle_shape s c .done (s.listeners + 1) [.consoleLog err, .once] s.network
      (lt_of_cont hc)
    exact ⟨by simpa using this.1, by simpa using this.2, hperm _ hc (by simp)⟩
  case changesRejects =>
    rename_i f hc
    have hstep : step s (.changesReply c (.error err)) = { s with
        cycles := s.cycles.set c .done
        listeners := s.listeners + 1
        trace := s.trace ++ [⟨.cycle c, .consoleLog err⟩, ⟨.cycle c, .once⟩] } := by
      simp [step, changesReply, hc, pollChanges, pollExit, setCont, once, record]
    rw [hstep]
    have := cycle_shape s c .done (s.listeners + 1) [.consoleLog err, .once] s.network
      (lt_of_cont hc)
    exact ⟨by simpa using this.1, by simpa using this.2, hperm _ hc (by simp)⟩
  case emitResultsThrows =>
    rename_i f v hk hc
    have hstep : step s (.changesReply c (.ok v)) = { s with
        cycles := s.cycles.set c .done
        listeners := s.listeners + 1
        trace := s.trace ++ [⟨.cycle c, .consoleLog .mustOverride⟩, ⟨.cycle c, .once⟩] } := by
      simp [step, changesReply, hc, pollChanges, _emitResults, hk, pollExit, setCont, once,
        record]
    rw [hstep]
    have := cycle_shape s c .done (s.listeners + 1) [.consoleLog .mustOverride, .once]
      s.network (lt_of_cont hc)
    exact ⟨by simpa using this.1, by simpa using this.2, hperm _ hc (by simp)⟩
  case emitResultsRejects =>
    rename_i hc
    have hstep : step s (.wake c) = { s with
        cycles := s.cycles.set c .done
        listeners := s.listeners + 1
        trace := s.trace ++ [⟨.cycle c, .consoleLog err⟩, ⟨.cycle c, .once⟩] } := by
      simp [step, wake, hc, pollEmitted, pollExit, setCont, once, record]
    rw [hstep]
    have := cycle_shape s c .done (s.listeners + 1) [.consoleLog err, .once] s.network
      (lt_of_cont hc)
    exact ⟨by simpa using this.1, by simpa using this.2, hperm _ hc (by simp)⟩

/-- C10. Always keep polling on failure. In a state whose trace agrees with
    its cycles (every reachable state, `Reachable.invariants`), whenever a step of
    poll cycle `c` throws or rejects with `err` (`_subscribe`, the awaited
    installation task, `getNetwork()`, the `eth_getFilterChanges` request or
    `_emitResults`), the cycle logs `err`, registers the poller for the next block
    and returns: the error goes no further. Over its whole life the cycle
    registers exactly one listener, whatever happens afterwards. -/
theorem keep_polling_on_failure (s s' : State) (c : Nat) (err : Err) (es : List Event)
    (h : Failure s c err s') (hs : CycleLog s) :
    cycleEffects c s' = cycleEffects c s ++ [.consoleLog err, .once] ∧
      s'.cycles[c]? = some .done ∧
      (cycleEffects c s').countP Effect.isOnce = 1 ∧
      cycleEffects c (run s' es) = cycleEffects c s' := by
  obtain ⟨h1, h2, h3⟩ := failure_step h hs
  refine ⟨h1, h2, ?_, (done_run s' es c h2).2⟩
  rw [h1, List.countP_append, List.countP_eq_zero.mpr (by simpa using h3)]
  rfl

theorem keep_polling_on_failure_witness :
    cycleEffects 0 (run (newPendingSubscriber ⟨1⟩)
        [.start, .installSettles 0 (.ok (some 0xF2)), .networkReply 0 (.error (.rpc 7))])
      = [.send .eth_newPendingTransactionFilter [], .getNetwork, .consoleLog (.rpc 7), .once] :=
  (keep_polling_on_failure
    (run (newPendingSubscriber ⟨1⟩) [.start, .installSettles 0 (.ok (some 0xF2))]) _ 0 (.rpc 7) []
    (Failure.networkRejects _ 0 0xF2 (.rpc 7) (by decide))
    (Reachable.invariants ⟨_, _, _, rfl⟩).1).1.trans (by decide)

/-- C3. Chain-identity guard. In a reachable state let cycle `c` await
    `getNetwork()` while a network `m` is recorded, and let the call yield a
    network with a different `chainId`. Then the `try`-block throws
    `"chaid changed"`, and the step only logs the error, registers the poller
    once and returns (`#network` is unchanged); nothing the cycle ever caused is
    an `eth_getFilterChanges` request or an emission, also after any further
    events. -/
theorem chain_identity_guard (s : State) (c : Nat) (filterId : FilterId) (m n : Network)
    (es : List Event) (hr : Reachable s)
    (hc : s.cycles[c]? = some (.awaitNetwork filterId)) (hm : s.network = some m)
    (hne : m.chainId ≠ n.chainId) :
    (pollNetwork c filterId (.ok n) s).2 = .error .chainChanged ∧
      step s (.networkReply c (.ok n)) = { s with
        cycles := s.cycles.set c .done
        listeners := s.listeners + 1
        trace := s.trace ++ [⟨.cycle c, .consoleLog .chainChanged⟩, ⟨.cycle c, .once⟩] } ∧
      ∀ x ∈ cycleEffects c (run (step s (.networkReply c (.ok n))) es),
        x.isGetChanges = false ∧ x.isEmit = false := by
  have hstep : step s (.networkReply c (.ok n)) = { s with
      cycles := s.cycles.set c .done
      listeners := s.listeners + 1
      trace := s.trace ++ [⟨.cycle c, .consoleLog .chainChanged⟩, ⟨.cycle c, .once⟩] } := by
    simp [step, networkReply, hc, pollNetwork, hm, hne, pollExit, setCont, once, record]
  refine ⟨by simp [pollNetwork, hm, hne], hstep, ?_⟩
  have hshape := cycle_shape s c .done (s.listeners + 1) [.consoleLog .chainChanged, .once]
    s.network (lt_of_cont hc)
  have hdone : (step s (.networkReply c (.ok n))).cycles[c]? = some .done := by
    rw [hstep]; simp [lt_of_cont hc]
  rw [(done_run _ es c hdone).2, hstep]
  have heff : cycleEffects c { s with
      cycles := s.cycles.set c .done
      listeners := s.listeners + 1
      trace := s.trace ++ [⟨.cycle c, .consoleLog .chainChanged⟩, ⟨.cycle c, .once⟩] }
      = cycleEffects c s ++ [.consoleLog .chainChanged, .once] := by
    simpa using hshape.1
  rw [heff]
  intro x hx
  rcases List.mem_append.mp hx with hx | hx
  · have := cycleEffects_permitted s c _ hr.invariants.1 hc x hx
    cases x <;> simp_all [Cont.permits, Effect.isInstall, Effect.isGetChanges, Effect.isEmit]
    next md _ => cases md <;> simp_all
  · simp only [List.mem_cons, List.mem_singleton, List.not_mem_nil, or_false] at hx
    rcases hx with rfl | rfl <;> simp [Effect.isGetChanges, Effect.isEmit]


theorem chain_identity_guard_witness :
    (pollNetwork 1 0xF1 (.ok ⟨5⟩)
      (run (newEventSubscriber ⟨0xAAA, []⟩ ⟨1⟩)
        [.start, .installSettles 0 (.ok (some 0xF1)), .networkReply 0 (.ok ⟨1⟩),
          .changesReply 0 (.ok (.array [])), .wake 0, .block, .wake 1])).2
      = .error .chainChanged :=
  (chain_identity_guard
    (run (newEventSubscriber ⟨0xAAA, []⟩ ⟨1⟩)
      [.start, .installSettles 0 (.ok (some 0xF1)), .networkReply 0 (.ok ⟨1⟩),
        .changesReply 0 (.ok (.array [])), .wake 0, .block, .wake 1])
    1 0xF1 ⟨1⟩ ⟨5⟩ [] ⟨_, _, _, rfl⟩ (by decide) (by decide) (by decide)).1

theorem poll_running (s : State) : (poll s).running = s.running := by
  unfold poll pollBegin
  cases hp : s.filterIdPromise <;> cases hk : s.kind <;>
    simp [hk, pollExit, setCont, _subscribe, once, record]

theorem poll_cycles_length (s : State) : (poll s).cycles.length = s.cycles.length + 1 := by
  unfold poll pollBegin
  cases hp : s.filterIdPromise <;> cases hk : s.kind <;>
    simp [hk, pollExit, setCont, _subscribe, once, record]

theorem poll_concrete (s : State) (hk : s.kind ≠ .base) (hp : s.filterIdPromise = none) :
    ∃ e : Effect, e.isInstall = true ∧ poll s = { s with
      filterIdPromise := some s.tasks.length
      tasks := s.tasks ++ [.pending]
      cycles := s.cycles ++ [.awaitInstall s.tasks.length]
      trace := s.trace ++ [⟨.cycle s.cycles.length, e⟩] } := by
  cases hkind : s.kind with
  | base => exact absurd hkind hk
  | event ev =>
    exact ⟨.send .eth_newFilter [.filter ev], rfl,
      by simp [poll, pollBegin, hp, _subscribe, hkind, pollExit, setCont, record]⟩
  | pending =>
    exact ⟨.send .eth_newPendingTransactionFilter [], rfl,
      by simp [poll, pollBegin, hp, _subscribe, hkind, pollExit, setCont, record]⟩

/-- C6. `start()` is eager and idempotent. On a subscriber that is not running
    it sets `#running` and begins one poll cycle in the same call (one cycle
    more, no listener involved); that cycle awaits the cached task if there is
    one and otherwise, for the concrete classes, sends the installation request
    and caches the new task. On a running subscriber it changes nothing. Hence
    a second `start()` changes nothing, and two calls begin one cycle. -/
theorem start_eager_idempotent (s : State) :
    (s.running = false →
      start s = poll { s with running := true } ∧
      (start s).running = true ∧
      (start s).cycles.length = s.cycles.length + 1 ∧
      (∀ p, s.filterIdPromise = some p →
        start s = { s with running := true, cycles := s.cycles ++ [.awaitInstall p] }) ∧
      (s.filterIdPromise = none → s.kind ≠ .base →
        ∃ e : Effect, e.isInstall = true ∧ start s = { s with
          running := true
          filterIdPromise := some s.tasks.length
          tasks := s.tasks ++ [.pending]
          cycles := s.cycles ++ [.awaitInstall s.tasks.length]
          trace := s.trace ++ [⟨.cycle s.cycles.length, e⟩] }) ∧
      (start (start s)).cycles.length = s.cycles.length + 1) ∧
    (s.running = true → start s = s) ∧
    start (start s) = start s := by
  have hrun : (start s).running = true := by
    unfold start
    split_ifs with h
    · exact h
    · rw [poll_running]
  have hidem : start (start s) = start s := by
    rw [start.eq_1 (start s), if_pos hrun]
  refine ⟨fun h => ?_, fun h => by simp [start, h], hidem⟩
  have hs : start s = poll { s with running := true } := by simp [start, h]
  refine ⟨hs, hrun, ?_, ?_, ?_, ?_⟩
  · rw [hs, poll_cycles_length]
  · intro p hp
    rw [hs]
    exact poll_cached { s with running := true } p hp
  · intro hp hk
    obtain ⟨e, he, heq⟩ := poll_concrete { s with running := true } hk hp
    exact ⟨e, he, hs.trans heq⟩
  · rw [hidem, hs, poll_cycles_length]

theorem start_eager_idempotent_witness :
    (start (newEventSubscriber ⟨0xAAA, []⟩ ⟨1⟩)).running = true ∧
      (start (start (newEventSubscriber ⟨0xAAA, []⟩ ⟨1⟩))).cycles.length = 1 :=
  ⟨((start_eager_idempotent (newEventSubscriber ⟨0xAAA, []⟩ ⟨1⟩)).1 rfl).2.1,
    ((start_eager_idempotent (newEventSubscriber ⟨0xAAA, []⟩ ⟨1⟩)).1 rfl).2.2.2.2.2⟩

/-- C9. Emission of the pending-transaction subscriber. For a
    `FilterIdPendingSubscriber` and every list `rs` of raw entries,
    `_emitResults` appends to the trace exactly one `emit("pending", r)` for each
    entry `r` of `rs`, in the order of the list and with the entry unchanged
    (so as many emissions as entries, and none for the empty list), and returns
    a fulfilled promise; a poll cycle that receives `rs` from
    `eth_getFilterChanges` does exactly that and waits for the promise. -/
theorem pending_emission (s : State) (o : Origin) (rs : List Raw) (c : Nat)
    (filterId : FilterId) (hk : s.kind = .pending) :
    _emitResults o (.array rs) s
        = ({ s with trace := s.trace ++ rs.map (fun r => ⟨o, .emit .pending (.raw r)⟩) },
            .promised (.ok ())) ∧
      (rs.map (fun r => (⟨o, .emit .pending (.raw r)⟩ : Entry))).length = rs.length ∧
      (_emitResults o (.array []) s).1 = s ∧
      (s.cycles[c]? = some (.awaitChanges filterId) →
        step s (.changesReply c (.ok (.array rs))) = { s with
          cycles := s.cycles.set c (.awaitEmit (.ok ()))
          trace := s.trace ++ rs.map (fun r => ⟨.cycle c, .emit .pending (.raw r)⟩) }) := by
  refine ⟨emitResults_pending o rs s hk, by simp, ?_, ?_⟩
  · rw [emitResults_pending o [] s hk]; simp
  · intro hc
    simp [step, changesReply, hc, pollChanges, emitResults_pending _ rs s hk, pollExit, setCont]

theorem pending_emission_witness :
    ((_emitResults (.cycle 0) (.array [0xdead, 0xbeef]) (newPendingSubscriber ⟨1⟩)).1).trace
      = [⟨.cycle 0, .emit .pending (.raw 0xdead)⟩, ⟨.cycle 0, .emit .pending (.raw 0xbeef)⟩] :=
  (congrArg (fun x => x.1.trace)
    (pending_emission (newPendingSubscriber ⟨1⟩) (.cycle 0) [0xdead, 0xbeef] 0 0 rfl).1).trans
    (by decide)

/-! ## Teardown -/

theorem awaited_armed {p : Nat} {t a : State} (ha : Armed t a) (ht : Awaited p t) :
    Awaited p a := by
  cases ha <;> exact ht

theorem awaited_move {q : Bool} (p : Nat) (s s' : State) (h : Move q s s')
    (hs : Awaited p s) : Awaited p s' := by
  cases h with
  | beginCached _ _ a p' ha hp =>
    have h := awaited_armed ha hs
    exact h
  | beginSubscribed _ _ a e ha h1 h2 h3 =>
    obtain ⟨g1, g2⟩ := awaited_armed ha hs
    refine ⟨by simp only [List.length_append, List.length_singleton]; omega, ?_⟩
    intro hp
    rw [List.getElem?_append_left g1] at hp
    refine ⟨(g2 hp).1, ?_⟩
    simp only [ne_eq, Option.some.injEq]
    omega
  | beginThrew _ _ a e ha h1 h2 =>
    have h := awaited_armed ha hs
    exact h
  | installed _ _ c p' f h1 h2 => exact hs
  | recovered _ _ c p' ev h1 h2 h3 => exact hs
  | caught _ _ c k e h1 h2 _ => exact hs
  | recorded _ _ n h1 => exact hs
  | halted _ _ c f h1 h2 => exact hs
  | asked _ _ c f h1 h2 => exact hs
  | emitted _ _ c f es r h1 => exact hs
  | finished _ _ c h1 => exact hs
  | tornDown _ p' h1 =>
    obtain ⟨g1, g2⟩ := hs
    refine ⟨g1, fun hp => ⟨?_, by simp⟩⟩
    exact List.mem_append_left _ (g2 hp).1
  | thenFired _ _ p' v h1 h2 =>
    obtain ⟨g1, g2⟩ := hs
    refine ⟨g1, fun hp => ⟨?_, (g2 hp).2⟩⟩
    have hne : p ≠ p' := by
      rintro rfl
      rw [hp] at h2
      cases h2
    exact (List.mem_erase_of_ne hne).mpr (g2 hp).1
  | thenDropped _ _ p' e h1 h2 =>
    obtain ⟨g1, g2⟩ := hs
    refine ⟨g1, fun hp => ⟨?_, (g2 hp).2⟩⟩
    have hne : p ≠ p' := by
      rintro rfl
      rw [hp] at h2
      cases h2
    exact (List.mem_erase_of_ne hne).mpr (g2 hp).1
  | stopped _ _ h1 => exact hs
  | offed _ _ => exact hs
  | taskSettled _ _ p' t h1 h2 =>
    obtain ⟨g1, g2⟩ := hs
    refine ⟨by simpa using g1, fun hp => ?_⟩
    by_cases hpp : p' = p
    · subst hpp
      simp only [List.getElem?_set_self, g1, ↓reduceIte, Option.some.injEq] at hp
      exact absurd hp h2
    · rw [List.getElem?_set_ne hpp] at hp
      exact g2 hp
  | providerChanged _ _ n => exact hs

/-- Lines of the trace that do not come from the callback on `p` do not count. -/
theorem uninstallsOf_frame (p : Nat) (s s' : State) (es : List Entry)
    (h : s'.trace = s.trace ++ es) (hes : ∀ e ∈ es, e.origin ≠ .teardown p) :
    uninstallsOf p s' = uninstallsOf p s := by
  unfold uninstallsOf
  rw [h, List.filterMap_append]
  have : es.filterMap (uninstallBy p) = [] := by
    rw [List.filterMap_eq_nil_iff]
    intro e he
    have := hes e he
    unfold uninstallBy
    split
    · next q params ho _ =>
      rw [ho] at this
      simp only [ne_eq, Origin.teardown.injEq] at this
      simp [this]
    · rfl
  rw [this, List.append_nil]

theorem uninstalled_armed {p : Nat} {L : List (List Param)} {t a : State} (ha : Armed t a)
    (ht : Uninstalled p L t) : Uninstalled p L a := by
  cases ha <;> exact ht

theorem uninstalled_move {q : Bool} (p : Nat) (L : List (List Param)) (s s' : State)
    (h : Move q s s') (hs : Uninstalled p L s) : Uninstalled p L s' := by
  have frame : ∀ (a a' : State) (es : List Entry), Uninstalled p L a →
      a'.tasks.length = a.tasks.length → a'.thens = a.thens →
      a'.filterIdPromise = a.filterIdPromise → a'.trace = a.trace ++ es →
      (∀ e ∈ es, e.origin ≠ .teardown p) → Uninstalled p L a' := by
    intro a a' es ⟨g1, g2, g3, g4⟩ h1 h2 h3 h4 h5
    exact ⟨by rw [h1]; exact g1, by rw [h2]; exact g2, by rw [h3]; exact g3,
      (uninstallsOf_frame p a a' es h4 h5).trans g4⟩
  cases h with
  | beginCached _ _ a p' ha hp =>
    exact frame a _ [] (uninstalled_armed ha hs) rfl rfl rfl (by simp) (by simp)
  | beginSubscribed _ _ a e ha h1 h2 h3 =>
    obtain ⟨g1, g2, g3, g4⟩ := uninstalled_armed ha hs
    refine ⟨by simp only [List.length_append, List.length_singleton]; omega, g2, ?_, ?_⟩
    · simp only [ne_eq, Option.some.injEq]; omega
    · exact (uninstallsOf_frame p a _ _ rfl (by simp)).trans g4
  | beginThrew _ _ a e ha h1 h2 =>
    exact frame a _ _ (uninstalled_armed ha hs) rfl rfl rfl rfl (by simp)
  | installed _ _ c p' f h1 h2 => exact frame s _ _ hs rfl rfl rfl rfl (by simp)
  | recovered _ _ c p' ev h1 h2 h3 => exact frame s _ _ hs rfl rfl rfl rfl (by simp)
  | caught _ _ c k e h1 h2 _ => exact frame s _ _ hs rfl rfl rfl rfl (by simp)
  | recorded _ _ n h1 => exact hs
  | halted _ _ c f h1 h2 => exact hs
  | asked _ _ c f h1 h2 => exact frame s _ _ hs rfl rfl rfl rfl (by simp)
  | emitted _ _ c f es r h1 =>
    refine frame s _ _ hs rfl rfl rfl rfl ?_
    intro e he
    obtain ⟨x, _, rfl⟩ := List.mem_map.mp he
    simp
  | finished _ _ c h1 => exact frame s _ _ hs rfl rfl rfl rfl (by simp)
  | tornDown _ p' h1 =>
    obtain ⟨g1, g2, g3, g4⟩ := hs
    refine ⟨g1, ?_, by simp, g4⟩
    simp only [List.mem_append, List.mem_singleton, not_or]
    exact ⟨g2, fun h => g3 (h ▸ h1)⟩
  | thenFired _ _ p' v h1 h2 =>
    obtain ⟨g1, g2, g3, g4⟩ := hs
    have hne : p' ≠ p := fun h => g2 (h ▸ h1)
    refine ⟨g1, fun hm => g2 (List.mem_of_mem_erase hm), g3, ?_⟩
    exact (uninstallsOf_frame p s _ _ rfl (by simpa using hne)).trans g4
  | thenDropped _ _ p' e h1 h2 =>
    obtain ⟨g1, g2, g3, g4⟩ := hs
    exact ⟨g1, fun hm => g2 (List.mem_of_mem_erase hm), g3, g4⟩
  | stopped _ _ h1 => exact hs
  | offed _ _ => exact frame s _ _ hs rfl rfl rfl rfl (by simp)
  | taskSettled _ _ p' t h1 h2 =>
    exact frame s _ [] hs (by simp) rfl rfl (by simp) (by simp)
  | providerChanged _ _ n => exact hs


/-- What a move of cycle `c'` with effects `E` does to the effects of cycle `c`. -/
theorem cycleEffects_step (c c' : Nat) (tr : List Entry) (E : List Effect) :
    ((tr ++ E.map (fun e => (⟨.cycle c', e⟩ : Entry))).filter
        (fun e => e.origin = .cycle c)).map (fun e => e.effect)
      = (tr.filter (fun e => e.origin = .cycle c)).map (fun e => e.effect)
        ++ (if c' = c then E else []) := by
  by_cases h : c' = c <;> simp [List.filter_map, Function.comp_def, h]

theorem cancelled_move {q : Bool} (c : Nat) (s s' : State) (h : Move q s s')
    (hs : Cancelled c s) : Cancelled c s' := by
  obtain ⟨hh, ⟨k, hk, hnc⟩, heff⟩ := hs
  have hlt := lt_of_cont hk
  -- a cycle other than `c`, or `c` itself with harmless effects, moves on
  have key : ∀ (c' : Nat) (k' : Cont) (E : List Effect) (k0 : Cont),
      s.cycles[c']? = some k0 →
      (c' = c → (∀ f, k' ≠ .awaitChanges f) ∧
        ∀ x ∈ E, x.isGetChanges = false ∧ x.isEmit = false) →
      (∃ k, (s.cycles.set c' k')[c]? = some k ∧ ∀ f, k ≠ .awaitChanges f) ∧
        ∀ x ∈ ((s.trace ++ E.map (fun e => (⟨.cycle c', e⟩ : Entry))).filter
          (fun e => e.origin = .cycle c)).map (fun e => e.effect),
          x.isGetChanges = false ∧ x.isEmit = false := by
    intro c' k' E k0 h0 hE
    constructor
    · by_cases hcc : c' = c
      · subst hcc
        exact ⟨k', by simp [hlt], (hE rfl).1⟩
      · exact ⟨k, by rw [List.getElem?_set_ne hcc]; exact hk, hnc⟩
    · rw [cycleEffects_step]
      intro x hx
      rcases List.mem_append.mp hx with hx | hx
      · exact heff x hx
      · by_cases hcc : c' = c
        · rw [if_pos hcc] at hx
          exact (hE hcc).2 x hx
        · rw [if_neg hcc] at hx
          cases hx
  have push : ∀ (a : State) (k' : Cont) (E : List Effect),
      a.cycles = s.cycles → a.trace = s.trace →
      (∃ k, (a.cycles ++ [k'])[c]? = some k ∧ ∀ f, k ≠ .awaitChanges f) ∧
        ∀ x ∈ ((a.trace ++ E.map (fun e => (⟨.cycle a.cycles.length, e⟩ : Entry))).filter
          (fun e => e.origin = .cycle c)).map (fun e => e.effect),
          x.isGetChanges = false ∧ x.isEmit = false := by
    intro a k' E h1 h2
    rw [h1, h2]
    refine ⟨⟨k, by rw [List.getElem?_append_left hlt]; exact hk, hnc⟩, ?_⟩
    rw [cycleEffects_step, if_neg (by omega), List.append_nil]
    exact heff
  cases h with
  | beginCached _ _ a p ha hp =>
    have := push a (.awaitInstall p) [] (by cases ha <;> rfl) (by cases ha <;> rfl)
    refine ⟨by cases ha <;> exact hh, ?_⟩
    simpa [cycleEffects] using this
  | beginSubscribed _ _ a e ha h1 h2 h3 =>
    have := push a (.awaitInstall a.tasks.length) [e] (by cases ha <;> rfl)
      (by cases ha <;> rfl)
    refine ⟨by cases ha <;> exact hh, ?_⟩
    simpa [cycleEffects] using this
  | beginThrew _ _ a e ha h1 h2 =>
    have := push a .done [.consoleLog e, .once] (by cases ha <;> rfl) (by cases ha <;> rfl)
    refine ⟨by cases ha <;> exact hh, ?_⟩
    simpa [cycleEffects] using this
  | installed _ _ c' p f h1 h2 =>
    refine ⟨hh, ?_⟩
    simpa [cycleEffects] using key c' (.awaitNetwork f) [.getNetwork] _ h1
      (fun _ => ⟨by simp, by simp [Effect.isGetChanges, Effect.isEmit]⟩)
  | recovered _ _ c' p ev h1 h2 h3 =>
    refine ⟨hh, ?_⟩
    simpa [cycleEffects] using key c' .done
      [.recoverSubscriber (.pollingEventSubscriber ev)] _ h1
      (fun _ => ⟨by simp, by simp [Effect.isGetChanges, Effect.isEmit]⟩)
  | caught _ _ c' k e h1 h2 _ =>
    refine ⟨hh, ?_⟩
    simpa [cycleEffects] using key c' .done [.consoleLog e, .once] _ h1
      (fun _ => ⟨by simp, by simp [Effect.isGetChanges, Effect.isEmit]⟩)
  | recorded _ _ n h1 => exact ⟨hh, ⟨k, hk, hnc⟩, heff⟩
  | halted _ _ c' f h1 h2 =>
    refine ⟨hh, ?_⟩
    simpa [cycleEffects] using key c' .done [] _ h1 (fun _ => ⟨by simp, by simp⟩)
  | asked _ _ c' f h1 h2 =>
    rw [hh] at h2
    cases h2
  | emitted _ _ c' f es r h1 =>
    refine ⟨hh, ?_⟩
    have hne : c' ≠ c := by
      rintro rfl
      rw [hk] at h1
      cases h1
      exact hnc f rfl
    simpa [cycleEffects, Function.comp_def] using key c' (.awaitEmit r)
      (es.map (fun e => .emit e.1 e.2)) _ h1 (fun h => absurd h hne)
  | finished _ _ c' h1 =>
    refine ⟨hh, ?_⟩
    simpa [cycleEffects] using key c' .done [.once] _ h1
      (fun _ => ⟨by simp, by simp [Effect.isGetChanges, Effect.isEmit]⟩)
  | tornDown _ p h1 => exact ⟨hh, ⟨k, hk, hnc⟩, heff⟩
  | thenFired _ _ p v h1 h2 =>
    refine ⟨hh, ⟨k, hk, hnc⟩, ?_⟩
    simpa [cycleEffects] using heff
  | thenDropped _ _ p e h1 h2 => exact ⟨hh, ⟨k, hk, hnc⟩, heff⟩
  | stopped _ _ h1 => exact ⟨rfl, ⟨k, hk, hnc⟩, heff⟩
  | offed _ _ =>
    refine ⟨hh, ⟨k, hk, hnc⟩, ?_⟩
    simpa [cycleEffects] using heff
  | taskSettled _ _ p t h1 h2 => exact ⟨hh, ⟨k, hk, hnc⟩, heff⟩
  | providerChanged _ _ n => exact ⟨hh, ⟨k, hk, hnc⟩, heff⟩

theorem settled_move {q : Bool} (p : Nat) (s s' : State) (h : Move q s s')
    (hs : ∃ t, s.tasks[p]? = some t ∧ t ≠ .pending) :
    ∃ t, s'.tasks[p]? = some t ∧ t ≠ .pending := by
  obtain ⟨t, ht, hne⟩ := hs
  cases h with
  | beginCached _ _ a p' ha hp => exact ⟨t, by cases ha <;> exact ht, hne⟩
  | beginSubscribed _ _ a e ha h1 h2 h3 =>
    have ht' : a.tasks[p]? = some t := by cases ha <;> exact ht
    exact ⟨t, by rw [List.getElem?_append_left (lt_of_task ht')]; exact ht', hne⟩
  | beginThrew _ _ a e ha h1 h2 => exact ⟨t, by cases ha <;> exact ht, hne⟩
  | taskSettled _ _ p' t' h1 h2 =>
    by_cases hpp : p' = p
    · subst hpp
      rw [ht] at h1
      cases h1
      exact absurd rfl hne
    · exact ⟨t, by rw [List.getElem?_set_ne hpp]; exact ht, hne⟩
  | _ => exact ⟨t, ht, hne⟩

theorem stop_running (s : State) (hrun : s.running = true) :
    step s .stop = off .call (teardown { s with running := false, hault := true }) := by
  simp [step, stop, hrun]

theorem count_frame (f : Effect → Bool) (s s' : State) (es : List Entry)
    (h : s'.trace = s.trace ++ es) (hes : ∀ e ∈ es, f e.effect = false) :
    count f s' = count f s := by
  unfold count effects
  have h0 : (es.map (fun e => e.effect)).countP f = 0 := by
    rw [List.countP_eq_zero]
    intro x hx
    obtain ⟨e, he, rfl⟩ := List.mem_map.mp hx
    simp [hes e he]
  rw [h, List.map_append, List.countP_append, h0, Nat.add_zero]

/-- A cycle that has not passed the `#hault` check has sent no
    `eth_getFilterChanges`, emitted nothing and registered no listener. -/
theorem permits_early (k : Cont) (x : Effect)
    (hk : (∃ p, k = .awaitInstall p) ∨ ∃ f, k = .awaitNetwork f) (h : k.permits x = true) :
    x.isGetChanges = false ∧ x.isEmit = false ∧ x.isOnce = false := by
  rcases hk with ⟨p, rfl⟩ | ⟨f, rfl⟩
  · cases x with
    | send m ps => cases m <;> simp_all [Cont.permits, Effect.isInstall, Effect.isGetChanges,
        Effect.isEmit, Effect.isOnce]
    | _ => simp_all [Cont.permits, Effect.isInstall, Effect.isGetChanges, Effect.isEmit,
        Effect.isOnce]
  · cases x with
    | send m ps => cases m <;> simp_all [Cont.permits, Effect.isInstall, Effect.isGetChanges,
        Effect.isEmit, Effect.isOnce]
    | _ => simp_all [Cont.permits, Effect.isInstall, Effect.isGetChanges, Effect.isEmit,
        Effect.isOnce]

/-- The step in which the installation task `p` settles with a filter ID while
    a `#teardown` callback waits on it. -/
theorem settle_uninstalls (s : State) (p : Nat) (F : FilterId) (hlog : TaskLog s)
    (hp : s.tasks[p]? = some .pending) (hthen : p ∈ s.thens)
    (hcache : s.filterIdPromise ≠ some p) :
    Uninstalled p [[.filterId (some F)]] (step s (.installSettles p (.ok (some F)))) ∧
      count Effect.isUninstall (step s (.installSettles p (.ok (some F))))
        = count Effect.isUninstall s + 1 := by
  obtain ⟨_, g2, g3, _⟩ := hlog
  have hpl := lt_of_task hp
  have hres := foldl_resumed p (List.range s.cycles.length)
    { s with tasks := s.tasks.set p (.fulfilled (some F)) }
  generalize hw : (List.range s.cycles.length).foldl (fun w c => resumeInstall p c w)
    { s with tasks := s.tasks.set p (.fulfilled (some F)) } = w at hres
  have hstep : step s (.installSettles p (.ok (some F))) = runThen p w := by
    simp [step, settle, hp, taskOf, hw]
  obtain ⟨_, r2, _, _, _, r6, r7, _, _, _, es, r11, r12⟩ := hres
  simp only at r2 r6 r7 r11
  have hwt : w.tasks[p]? = some (.fulfilled (some F)) := by rw [r6]; simp [hpl]
  have hrt : runThen p w = record (.teardown p) (.send .eth_uninstallFilter [.filterId (some F)])
      { w with thens := w.thens.erase p } := by
    simp [runThen, r7, hthen, hwt]
  have hun0 : uninstallsOf p s = [] := by
    unfold uninstallsOf
    rw [List.filterMap_eq_nil_iff]
    intro e he
    have := (g2 p hthen).2 e he
    unfold uninstallBy
    split
    · next q params ho _ =>
      rw [ho] at this
      simp only [ne_eq, Origin.teardown.injEq] at this
      simp [this]
    · rfl
  have hunw : uninstallsOf p w = [] := by
    rw [uninstallsOf_frame p s w es r11 (fun e he => ?_), hun0]
    obtain ⟨⟨c, hc⟩, _⟩ := r12 e he
    rw [hc]
    simp
  rw [hstep, hrt]
  refine ⟨⟨?_, ?_, ?_, ?_⟩, ?_⟩
  · simp only [record, r6, List.length_set]; exact hpl
  · simp only [record, r7]
    exact fun hm => ((List.Nodup.mem_erase_iff g3).mp hm).1 rfl
  · simp only [record, r2]; exact hcache
  · simp only [uninstallsOf, record, List.filterMap_append] at hunw ⊢
    rw [hunw]
    simp [uninstallBy]
  · have hcw : count Effect.isUninstall w = count Effect.isUninstall s :=
      count_frame _ s w es r11 (fun e he => (r12 e he).2)
    rw [← hcw]
    simp [count, effects, record, List.countP_append, Effect.isUninstall]

/-- C4. Stop during installation. In a reachable state let the subscriber be
    running with the cached installation task `p`, call `stop()`, and let `p`
    still be pending after any further events `es1` (so it was in flight when
    `stop()` was called). The `#teardown` callback has sent nothing yet; in the
    step in which `p` yields the filter ID `F` exactly one `eth_uninstallFilter`
    request is sent; from then on, whatever events `es2` follow, the requests of
    the callback on `p` are that one request, with params `[F]`; and no cycle
    that was awaiting `p` when `stop()` was called ever sends
    `eth_getFilterChanges` or emits. -/
theorem stop_during_installation (s : State) (p : Nat) (F : FilterId) (es1 es2 : List Event)
    (hr : Reachable s) (hrun : s.running = true) (hp : s.filterIdPromise = some p)
    (hstill : (run (step s .stop) es1).tasks[p]? = some .pending) :
    s.tasks[p]? = some .pending ∧
      uninstallsOf p (run (step s .stop) es1) = [] ∧
      count Effect.isUninstall
          (step (run (step s .stop) es1) (.installSettles p (.ok (some F))))
        = count Effect.isUninstall (run (step s .stop) es1) + 1 ∧
      uninstallsOf p
          (run (step (run (step s .stop) es1) (.installSettles p (.ok (some F)))) es2)
        = [[.filterId (some F)]] ∧
      ∀ c, s.cycles[c]? = some (.awaitInstall p) →
        ∀ x ∈ cycleEffects c
            (run (step (run (step s .stop) es1) (.installSettles p (.ok (some F)))) es2),
          x.isGetChanges = false ∧ x.isEmit = false := by
  obtain ⟨hlog, htask, _⟩ := hr.invariants
  obtain ⟨hpl, hnot, hnone⟩ := htask.1 p hp
  have hstop : step s .stop = { s with
      running := false
      hault := true
      filterIdPromise := none
      thens := s.thens ++ [p]
      listeners := s.listeners - 1
      trace := s.trace ++ [⟨.call, .off⟩] } := by
    rw [stop_running s hrun]
    simp [teardown, hp, off, record]
  have hr2 : Reachable (run (step s .stop) es1) := (hr.step .stop).run es1
  have haw1 : Awaited p (step s .stop) := by
    rw [hstop]
    exact ⟨hpl, fun _ => ⟨by simp, by simp⟩⟩
  have haw2 : Awaited p (run (step s .stop) es1) :=
    (moves_run _ es1).keeps (fun a b h => awaited_move p a b h) haw1
  obtain ⟨hthen, hcache⟩ := haw2.2 hstill
  obtain ⟨hU, hcount⟩ := settle_uninstalls _ p F hr2.invariants.2.1 hstill hthen hcache
  have hpend : s.tasks[p]? = some .pending := by
    by_contra hcon
    have hex : ∃ t, s.tasks[p]? = some t ∧ t ≠ .pending := by
      refine ⟨s.tasks[p], by simp [hpl], fun h => hcon ?_⟩
      rw [← h]; simp [hpl]
    obtain ⟨t, ht, hne⟩ := (moves_run s (.stop :: es1)).keeps
      (X := fun a => ∃ t, a.tasks[p]? = some t ∧ t ≠ .pending)
      (fun a b h => settled_move p a b h) hex
    rw [run_cons, hstill] at ht
    cases ht
    exact hne rfl
  refine ⟨hpend, ?_, hcount, ?_, ?_⟩
  · unfold uninstallsOf
    rw [List.filterMap_eq_nil_iff]
    intro e he
    have := (hr2.invariants.2.1.2.1 p hthen).2 e he
    unfold uninstallBy
    split
    · next q params ho _ =>
      rw [ho] at this
      simp only [ne_eq, Origin.teardown.injEq] at this
      simp [this]
    · rfl
  · exact ((moves_run _ es2).keeps
      (fun a b h => uninstalled_move p [[.filterId (some F)]] a b h) hU).2.2.2
  · intro c hc
    have hc1 : Cancelled c (step s .stop) := by
      rw [hstop]
      refine ⟨rfl, ⟨_, hc, by simp⟩, ?_⟩
      intro x hx
      have hx' : x ∈ cycleEffects c s := by simpa [cycleEffects] using hx
      have := permits_early _ x (Or.inl ⟨p, rfl⟩) (cycleEffects_permitted s c _ hlog hc x hx')
      exact ⟨this.1, this.2.1⟩
    have hall : Cancelled c (run (step s .stop)
        (es1 ++ .installSettles p (.ok (some F)) :: es2)) :=
      (moves_run _ _).keeps (fun a b h => cancelled_move c a b h) hc1
    rw [run_append, run_cons] at hall
    exact hall.2.2

theorem stop_during_installation_witness :
    uninstallsOf 0
        (run (step (run (step (run (newEventSubscriber ⟨0xAAA, []⟩ ⟨1⟩) [.start]) .stop) [])
          (.installSettles 0 (.ok (some 0xF1)))) [.networkReply 0 (.ok ⟨1⟩)])
      = [[.filterId (some 0xF1)]] :=
  (stop_during_installation (run (newEventSubscriber ⟨0xAAA, []⟩ ⟨1⟩) [.start]) 0 0xF1 []
    [.networkReply 0 (.ok ⟨1⟩)] ⟨_, _, _, rfl⟩ (by decide) (by decide) (by decide)).2.2.2.1

/-! ## Cancellation, pause and emission -/

/-- C5. `stop()` while `eth_getFilterChanges` is awaited does not cancel the
    cycle. A log-event subscriber is started, its filter `0xF1` is installed, the
    network is fetched and the request is sent; `stop()` is called; the request
    then yields the record `7`. The cycle emits the record and registers the
    poller although `#hault` is set, and the next block makes a new cycle
    install another filter. -/
theorem stop_while_awaiting_changes_emits :
    (run (newEventSubscriber ⟨0xAAA, []⟩ ⟨1⟩)
        [.start, .installSettles 0 (.ok (some 0xF1)), .networkReply 0 (.ok ⟨1⟩), .stop,
          .thenRuns 0, .changesReply 0 (.ok (.array [7])), .wake 0]).trace
      = [⟨.cycle 0, .send .eth_newFilter [.filter ⟨0xAAA, []⟩]⟩,
          ⟨.cycle 0, .getNetwork⟩,
          ⟨.cycle 0, .send .eth_getFilterChanges [.filterId (some 0xF1)]⟩,
          ⟨.call, .off⟩,
          ⟨.teardown 0, .send .eth_uninstallFilter [.filterId (some 0xF1)]⟩,
          ⟨.cycle 0, .emit (.event ⟨0xAAA, []⟩) (.wrapLog 7 ⟨1⟩)⟩,
          ⟨.cycle 0, .once⟩] ∧
      (run (newEventSubscriber ⟨0xAAA, []⟩ ⟨1⟩)
        [.start, .installSettles 0 (.ok (some 0xF1)), .networkReply 0 (.ok ⟨1⟩), .stop,
          .thenRuns 0, .changesReply 0 (.ok (.array [7])), .wake 0]).hault = true ∧
      (run (newEventSubscriber ⟨0xAAA, []⟩ ⟨1⟩)
        [.start, .installSettles 0 (.ok (some 0xF1)), .networkReply 0 (.ok ⟨1⟩), .stop,
          .thenRuns 0, .changesReply 0 (.ok (.array [7])), .wake 0]).listeners = 1 ∧
      cycleEffects 1 (run (newEventSubscriber ⟨0xAAA, []⟩ ⟨1⟩)
        [.start, .installSettles 0 (.ok (some 0xF1)), .networkReply 0 (.ok ⟨1⟩), .stop,
          .thenRuns 0, .changesReply 0 (.ok (.array [7])), .wake 0, .block])
        = [.send .eth_newFilter [.filter ⟨0xAAA, []⟩]] := by
  decide


/-- C7. `pause(true)` followed by `resume()` installs nothing. A log-event
    subscriber has completed one poll cycle on filter `0xF1` and waits for the
    next block. `pause(true)` tears the filter down and removes the listener;
    `resume()` then returns at once because `#running` is still set: no task is
    cached, no installation request has been sent beyond the first, no cycle
    has begun and no listener is registered, so a block notification does
    nothing either. -/
theorem pause_drop_resume_installs_nothing :
    (run (newEventSubscriber ⟨0xAAA, []⟩ ⟨1⟩)
        [.start, .installSettles 0 (.ok (some 0xF1)), .networkReply 0 (.ok ⟨1⟩),
          .changesReply 0 (.ok (.array [])), .wake 0, .pause true, .thenRuns 0]).running
      = true ∧
    (run (newEventSubscriber ⟨0xAAA, []⟩ ⟨1⟩)
        [.start, .installSettles 0 (.ok (some 0xF1)), .networkReply 0 (.ok ⟨1⟩),
          .changesReply 0 (.ok (.array [])), .wake 0, .pause true, .thenRuns 0, .resume, .block])
      = { kind := .event ⟨0xAAA, []⟩
          filterIdPromise := none
          running := true
          network := some ⟨1⟩
          hault := false
          tasks := [.fulfilled (some 0xF1)]
          cycles := [.done]
          thens := []
          listeners := 0
          providerNetwork := ⟨1⟩
          trace :=
            [⟨.cycle 0, .send .eth_newFilter [.filter ⟨0xAAA, []⟩]⟩,
              ⟨.cycle 0, .getNetwork⟩,
              ⟨.cycle 0, .send .eth_getFilterChanges [.filterId (some 0xF1)]⟩,
              ⟨.cycle 0, .once⟩,
              ⟨.call, .off⟩,
              ⟨.teardown 0, .send .eth_uninstallFilter [.filterId (some 0xF1)]⟩] } := by
  constructor
  · decide
  · rfl

/-- C8, as stated, fails: the network an emitted log carries is the provider's
    `_network`, not the network the subscriber recorded. Here the subscriber
    records chain 1 from `getNetwork()` while the provider's `_network` is chain
    5; both records are emitted with chain 5. -/
theorem log_emission_network_counterexample :
    (run (newEventSubscriber ⟨0xAAA, []⟩ ⟨5⟩)
        [.start, .installSettles 0 (.ok (some 0xF1)), .networkReply 0 (.ok ⟨1⟩),
          .changesReply 0 (.ok (.array [7, 8]))]).network = some ⟨1⟩ ∧
    cycleEffects 0 (run (newEventSubscriber ⟨0xAAA, []⟩ ⟨5⟩)
        [.start, .installSettles 0 (.ok (some 0xF1)), .networkReply 0 (.ok ⟨1⟩),
          .changesReply 0 (.ok (.array [7, 8]))])
      = [.send .eth_newFilter [.filter ⟨0xAAA, []⟩],
          .getNetwork,
          .send .eth_getFilterChanges [.filterId (some 0xF1)],
          .emit (.event ⟨0xAAA, []⟩) (.wrapLog 7 ⟨5⟩),
          .emit (.event ⟨0xAAA, []⟩) (.wrapLog 8 ⟨5⟩)] ∧
    Payload.wrapLog 7 ⟨5⟩ ≠ Payload.wrapLog 7 ⟨1⟩ := by
  decide

theorem resumeInstall_installed (p c : Nat) (s : State) (F : FilterId)
    (hc : s.cycles[c]? = some (.awaitInstall p))
    (hp : s.tasks[p]? = some (.fulfilled (some F))) :
    resumeInstall p c s = { s with
      cycles := s.cycles.set c (.awaitNetwork F)
      trace := s.trace ++ [⟨.cycle c, .getNetwork⟩] } := by
  simp [resumeInstall, hc, hp, pollExit, setCont, pollInstalled, record]

/-- C8, amended. A poll cycle of a `FilterIdEventSubscriber` built from filter
    `D`, end to end. (1) When the awaited installation task yields the filter ID
    `F`, the cycle calls `getNetwork()` and waits with `F`. (2) If the
    subscriber is not halted and the network fetched has the recorded `chainId`
    (or none is recorded yet), the cycle sends `eth_getFilterChanges` with
    params `[F]` and nothing else. (3) For every list `rs` the request yields,
    the cycle emits exactly one event per record, in list order, each on the
    channel keyed by the stored copy of `D` and carrying
    `_wrapLog(record, provider._network)`, with the provider's `_network` as it is
    at that moment. -/
theorem log_subscriber_poll_cycle (D : Filter) (net : Network) (es0 : List Event) (s : State)
    (c : Nat) (F : FilterId) (n : Network) (rs : List Raw)
    (hs : s = run (newEventSubscriber D net) es0) :
    (∀ p, s.cycles[c]? = some (.awaitInstall p) → s.tasks[p]? = some .pending →
      (step s (.installSettles p (.ok (some F)))).cycles[c]? = some (.awaitNetwork F) ∧
      cycleEffects c (step s (.installSettles p (.ok (some F))))
        = cycleEffects c s ++ [.getNetwork]) ∧
    (s.cycles[c]? = some (.awaitNetwork F) → s.hault = false →
      (∀ m, s.network = some m → m.chainId = n.chainId) →
      step s (.networkReply c (.ok n)) = { s with
        network := some (s.network.getD n)
        cycles := s.cycles.set c (.awaitChanges F)
        trace := s.trace ++ [⟨.cycle c, .send .eth_getFilterChanges [.filterId (some F)]⟩] }) ∧
    (s.cycles[c]? = some (.awaitChanges F) →
      step s (.changesReply c (.ok (.array rs))) = { s with
        cycles := s.cycles.set c (.awaitEmit (.ok ()))
        trace := s.trace ++ rs.map (fun r =>
          ⟨.cycle c, .emit (.event (copy D)) (.wrapLog r s.providerNetwork)⟩) }) := by
  have hk : s.kind = .event (copy D) := by rw [hs, kind_run]; rfl
  refine ⟨?_, ?_, ?_⟩
  · intro p hc hp
    have hlt := lt_of_cont hc
    have hpl := lt_of_task hp
    have hstep : step s (.installSettles p (.ok (some F))) =
        runThen p ((List.range s.cycles.length).foldl (fun w c => resumeInstall p c w)
          { s with tasks := s.tasks.set p (.fulfilled (some F)) }) := by
      simp [step, settle, hp, taskOf]
    obtain ⟨f1, f2⟩ := foldl_resume_at p c [.getNetwork] (.awaitNetwork F)
      (List.range s.cycles.length) { s with tasks := s.tasks.set p (.fulfilled (some F)) }
      (List.nodup_range _) (List.mem_range.mpr hlt) hc
      (by
        intro s0 _ h2 h3
        have h4 : s0.tasks[p]? = some (.fulfilled (some F)) := by rw [h2]; simp [hpl]
        rw [resumeInstall_installed p c s0 F h3 h4]
        simpa using cycle_shape s0 c (.awaitNetwork F) s0.listeners [.getNetwork]
          s0.network (lt_of_cont h3))
    obtain ⟨r1, r2, -⟩ := runThen_frame p c
      ((List.range s.cycles.length).foldl (fun w c => resumeInstall p c w)
        { s with tasks := s.tasks.set p (.fulfilled (some F)) })
    rw [hstep]
    exact ⟨by rw [r1]; exact f2, r2.trans f1⟩
  · intro hc hh hm
    cases hn : s.network with
    | none =>
      simp [step, networkReply, hc, pollNetwork, hn, hh, pollExit, setCont, record]
    | some m =>
      have := hm m hn
      simp [step, networkReply, hc, pollNetwork, hn, hh, this, pollExit, setCont, record]
  · intro hc
    simp [step, changesReply, hc, pollChanges, emitResults_event _ rs s _ hk, pollExit, setCont]

theorem log_subscriber_poll_cycle_witness :
    step (run (newEventSubscriber ⟨0xAAA, []⟩ ⟨1⟩)
        [.start, .installSettles 0 (.ok (some 0xF1)), .networkReply 0 (.ok ⟨1⟩)])
      (.changesReply 0 (.ok (.array [7, 8])))
    = { run (newEventSubscriber ⟨0xAAA, []⟩ ⟨1⟩)
          [.start, .installSettles 0 (.ok (some 0xF1)), .networkReply 0 (.ok ⟨1⟩)] with
        cycles := [.awaitEmit (.ok ())]
        trace :=
          [⟨.cycle 0, .send .eth_newFilter [.filter ⟨0xAAA, []⟩]⟩,
            ⟨.cycle 0, .getNetwork⟩,
            ⟨.cycle 0, .send .eth_getFilterChanges [.filterId (some 0xF1)]⟩,
            ⟨.cycle 0, .emit (.event ⟨0xAAA, []⟩) (.wrapLog 7 ⟨1⟩)⟩,
            ⟨.cycle 0, .emit (.event ⟨0xAAA, []⟩) (.wrapLog 8 ⟨1⟩)⟩] } :=
  ((log_subscriber_poll_cycle ⟨0xAAA, []⟩ ⟨1⟩
    [.start, .installSettles 0 (.ok (some 0xF1)), .networkReply 0 (.ok ⟨1⟩)] _ 0 0xF1 ⟨1⟩ [7, 8]
    rfl).2.2 (by decide)).trans rfl

/-! ## The contracts of stop and pause -/

theorem runThen_fulfilled (p : Nat) (v : Option FilterId) (s : State) (hp : p ∈ s.thens)
    (ht : s.tasks[p]? = some (.fulfilled v)) :
    runThen p s = record (.teardown p) (.send .eth_uninstallFilter [.filterId v])
      { s with thens := s.thens.erase p } := by
  simp [runThen, hp, ht]

/-- C11. The contract of `stop()`. On a subscriber that is not running it is
    the identity (no state change, nothing asked of the provider). On a running
    subscriber it clears `#running`, sets `#hault`, clears `#filterIdPromise`,
    attaches the `#teardown` callback to the task that was cached (the callback
    sends `eth_uninstallFilter` with what the task yields) and calls
    `provider.off("block", poller)`, and nothing else. Hence a second `stop()`
    changes nothing. -/
theorem stop_contract (s : State) :
    (s.running = false → stop s = s) ∧
    (s.running = true → stop s = { s with
      running := false
      hault := true
      filterIdPromise := none
      thens := s.thens ++ s.filterIdPromise.toList
      listeners := s.listeners - 1
      trace := s.trace ++ [⟨.call, .off⟩] }) ∧
    (∀ p v, s.running = true → s.filterIdPromise = some p →
      s.tasks[p]? = some (.fulfilled v) →
      runThen p (stop s) = record (.teardown p) (.send .eth_uninstallFilter [.filterId v])
        { stop s with thens := (stop s).thens.erase p }) ∧
    stop (stop s) = stop s := by
  have h1 : s.running = false → stop s = s := fun h => by simp [stop, h]
  have h2 : s.running = true → stop s = { s with
      running := false
      hault := true
      filterIdPromise := none
      thens := s.thens ++ s.filterIdPromise.toList
      listeners := s.listeners - 1
      trace := s.trace ++ [⟨.call, .off⟩] } := by
    intro h
    cases hp : s.filterIdPromise <;> simp [stop, h, teardown, hp, off, record]
  refine ⟨h1, h2, ?_, ?_⟩
  · intro p v hr hp ht
    apply runThen_fulfilled
    · rw [h2 hr]; simp [hp]
    · rw [h2 hr]; exact ht
  · cases hr : s.running with
    | false => rw [h1 hr, h1 hr]
    | true =>
      have : (stop s).running = false := by rw [h2 hr]
      simp [stop.eq_1 (stop s), this]

theorem stop_contract_witness :
    (stop (run (newEventSubscriber ⟨0xAAA, []⟩ ⟨1⟩) [.start])).thens = [0] ∧
      stop (stop (run (newEventSubscriber ⟨0xAAA, []⟩ ⟨1⟩) [.start]))
        = stop (run (newEventSubscriber ⟨0xAAA, []⟩ ⟨1⟩) [.start]) :=
  ⟨(congrArg State.thens
      ((stop_contract (run (newEventSubscriber ⟨0xAAA, []⟩ ⟨1⟩) [.start])).2.1
        (by decide))).trans (by decide),
    (stop_contract (run (newEventSubscriber ⟨0xAAA, []⟩ ⟨1⟩) [.start])).2.2.2⟩

/-- Without `#teardown` the cached task stays cached and `_subscribe` is not
    called. -/
theorem cached_quiet_move (p : Nat) (n : Nat) (s s' : State) (h : Move true s s')
    (hs : s.filterIdPromise = some p ∧ count Effect.isInstall s = n) :
    s'.filterIdPromise = some p ∧ count Effect.isInstall s' = n := by
  obtain ⟨hp, hn⟩ := hs
  cases h with
  | beginCached _ _ a p' ha hp' =>
    cases ha <;> exact ⟨hp, by simpa [count, effects] using hn⟩
  | beginSubscribed _ _ a e ha h1 h2 h3 =>
    have : a.filterIdPromise = some p := by cases ha <;> exact hp
    rw [h1] at this
    cases this
  | beginThrew _ _ a e ha h1 h2 =>
    have : a.filterIdPromise = some p := by cases ha <;> exact hp
    rw [h1] at this
    cases this
  | emitted _ _ c f es r h1 =>
    refine ⟨hp, ?_⟩
    rw [← hn]
    exact count_frame _ s _ _ rfl (by
      intro e he
      obtain ⟨x, _, rfl⟩ := List.mem_map.mp he
      rfl)
  | _ =>
    refine ⟨hp, ?_⟩
    rw [← hn]
    first
      | exact count_frame _ s _ _ rfl (by simp [Effect.isInstall])
      | exact count_frame _ s _ [] (List.append_nil _).symm (by simp)

theorem cached_quiet_run (p : Nat) (s : State) (es : List Event)
    (hes : ∀ e ∈ es, e.isTeardown = false) (hp : s.filterIdPromise = some p) :
    (run s es).filterIdPromise = some p ∧
      count Effect.isInstall (run s es) = count Effect.isInstall s :=
  (moves_run_quiet s es hes).keeps
    (fun a b h => cached_quiet_move p (count Effect.isInstall s) a b h) ⟨hp, rfl⟩

/-- C13. `pause(false)` preserves the installation. In every state it only
    calls `provider.off("block", poller)`: the cached task, `#network`,
    `#running`, `#hault`, the tasks and the `#teardown` callbacks are unchanged
    and no request is sent. If a task `p` is cached, a following `resume()` sends
    no installation request and leaves `p` cached (on a running subscriber it
    does nothing at all), and after any further events without `#teardown` `p`
    is still the cached task, no installation request has been sent, and the
    next call of `#poll` awaits `p`. -/
theorem pause_false_preserves (s : State) :
    pause false s
        = { s with listeners := s.listeners - 1, trace := s.trace ++ [⟨.call, .off⟩] } ∧
    (s.running = true → resume (pause false s) = pause false s) ∧
    (∀ p, s.filterIdPromise = some p → ∀ es : List Event,
      (∀ e ∈ es, e.isTeardown = false) →
      (run (resume (pause false s)) es).filterIdPromise = some p ∧
      count Effect.isInstall (run (resume (pause false s)) es) = count Effect.isInstall s ∧
      poll (run (resume (pause false s)) es) =
        { run (resume (pause false s)) es with
          cycles := (run (resume (pause false s)) es).cycles ++ [.awaitInstall p] }) := by
  have h1 : pause false s
      = { s with listeners := s.listeners - 1, trace := s.trace ++ [⟨.call, .off⟩] } := by
    simp [pause, off, record]
  refine ⟨h1, ?_, ?_⟩
  · intro hr
    have : (pause false s).running = true := by rw [h1]; exact hr
    simp [resume, start, this]
  · intro p hp es hes
    have hrun : run (resume (pause false s)) es = run s (.pause false :: .resume :: es) := rfl
    have hq : ∀ e ∈ Event.pause false :: Event.resume :: es, e.isTeardown = false := by
      intro e he
      simp only [List.mem_cons] at he
      rcases he with rfl | rfl | he
      · rfl
      · rfl
      · exact hes e he
    obtain ⟨a1, a2⟩ := cached_quiet_run p s _ hq hp
    rw [hrun]
    exact ⟨a1, a2, poll_cached _ p a1⟩

theorem pause_false_preserves_witness :
    (run (resume (pause false
        (run (newEventSubscriber ⟨0xAAA, []⟩ ⟨1⟩)
          [.start, .installSettles 0 (.ok (some 0xF1)), .networkReply 0 (.ok ⟨1⟩),
            .changesReply 0 (.ok (.array [])), .wake 0]))) [.block]).filterIdPromise
      = some 0 :=
  ((pause_false_preserves
    (run (newEventSubscriber ⟨0xAAA, []⟩ ⟨1⟩)
      [.start, .installSettles 0 (.ok (some 0xF1)), .networkReply 0 (.ok ⟨1⟩),
        .changesReply 0 (.ok (.array [])), .wake 0])).2.2 0 (by decide) [.block]
    (by decide)).1

/-! ## The recorded network -/

theorem network_move {q : Bool} (m : Network) (s s' : State) (h : Move q s s')
    (hs : s.network = some m) : s'.network = some m := by
  cases h with
  | beginCached _ _ a p ha hp => cases ha <;> exact hs
  | beginSubscribed _ _ a e ha h1 h2 h3 => cases ha <;> exact hs
  | beginThrew _ _ a e ha h1 h2 => cases ha <;> exact hs
  | recorded _ _ n h1 =>
    rw [hs] at h1
    cases h1
  | _ => exact hs

theorem poll_frame (s : State) :
    (poll s).network = s.network ∧ (poll s).hault = s.hault ∧ (poll s).kind = s.kind ∧
      (poll s).providerNetwork = s.providerNetwork ∧ (poll s).running = s.running := by
  unfold poll pollBegin
  cases hp : s.filterIdPromise <;> cases hk : s.kind <;>
    simp [hk, pollExit, setCont, _subscribe, once, record]

theorem pollTimes_frame (n : Nat) (s : State) :
    (pollTimes n s).network = s.network ∧ (pollTimes n s).hault = s.hault ∧
      (pollTimes n s).kind = s.kind ∧
      (pollTimes n s).providerNetwork = s.providerNetwork ∧
      (pollTimes n s).running = s.running := by
  induction n generalizing s with
  | zero => exact ⟨rfl, rfl, rfl, rfl, rfl⟩
  | succ n ih =>
    obtain ⟨a1, a2, a3, a4, a5⟩ := ih (poll s)
    obtain ⟨b1, b2, b3, b4, b5⟩ := poll_frame s
    exact ⟨a1.trans b1, a2.trans b2, a3.trans b3, a4.trans b4, a5.trans b5⟩

theorem runThen_fields (p : Nat) (s : State) :
    (runThen p s).network = s.network ∧ (runThen p s).kind = s.kind ∧
      (runThen p s).providerNetwork = s.providerNetwork ∧
      (runThen p s).filterIdPromise = s.filterIdPromise ∧ (runThen p s).tasks = s.tasks := by
  unfold runThen
  split_ifs
  · split <;> simp [record]
  · simp

theorem settle_frame (p : Nat) (t : Task) (s : State) :
    (settle p t s).network = s.network ∧ (settle p t s).hault = s.hault ∧
      (settle p t s).kind = s.kind ∧ (settle p t s).providerNetwork = s.providerNetwork ∧
      (settle p t s).running = s.running ∧
      (settle p t s).filterIdPromise = s.filterIdPromise := by
  unfold settle
  split
  · split_ifs
    · exact ⟨rfl, rfl, rfl, rfl, rfl, rfl⟩
    · have hres := foldl_resumed p (List.range s.cycles.length)
        { s with tasks := s.tasks.set p t }
      generalize (List.range s.cycles.length).foldl (fun w c => resumeInstall p c w)
        { s with tasks := s.tasks.set p t } = w at hres
      obtain ⟨r1, r2, r3, r4, r5, _, _, r8, _⟩ := hres
      obtain ⟨f1, f2, f3, f4, _⟩ := runThen_fields p w
      obtain ⟨_, _, _, g4, g5⟩ := runThen_frame p 0 w
      exact ⟨f1.trans r4, g5.trans r5, f2.trans r1, f3.trans r8, g4.trans r3, f4.trans r2⟩
  · exact ⟨rfl, rfl, rfl, rfl, rfl, rfl⟩

/-- Only a successful `getNetwork()` records a network. -/
theorem network_none_step (s : State) (e : Event) (hs : s.network = none) :
    (step s e).network = none ∨
      ∃ c n, e = .networkReply c (.ok n) ∧ (step s e).network = some n := by
  cases e with
  | start =>
    left
    simp only [step, start]
    split_ifs
    · exact hs
    · rw [(poll_frame _).1]; exact hs
  | resume =>
    left
    simp only [step, resume, start]
    split_ifs
    · exact hs
    · rw [(poll_frame _).1]; exact hs
  | stop =>
    left
    simp only [step, stop]
    split_ifs
    · exact hs
    · cases hp : s.filterIdPromise <;> simp [teardown, hp, off, record, hs]
  | pause d =>
    left
    cases d <;> cases hp : s.filterIdPromise <;> simp [step, pause, teardown, hp, off, record, hs]
  | block =>
    left
    simp only [step, block]
    rw [(pollTimes_frame _ _).1]; exact hs
  | installSettles p r =>
    left
    simp only [step]
    rw [(settle_frame p _ s).1]; exact hs
  | wake c =>
    left
    simp only [step, wake]
    split
    · rw [(resumeInstall_resumed _ c s).2.2.2.1]; exact hs
    · next r _ => cases r <;> simp [pollEmitted, pollExit, setCont, once, record, hs]
    · exact hs
  | networkReply c r =>
    simp only [step, networkReply]
    split
    · next f hc =>
      cases r with
      | error err => left; simp [pollNetwork, pollExit, setCont, once, record, hs]
      | ok n =>
        right
        refine ⟨c, n, rfl, ?_⟩
        by_cases hh : s.hault = true <;>
          simp [pollNetwork, hs, hh, pollExit, setCont, once, record]
    · exact Or.inl hs
  | changesReply c r =>
    left
    simp only [step, changesReply]
    split
    · next f hc =>
      cases r with
      | error err => simp [pollChanges, pollExit, setCont, once, record, hs]
      | ok v =>
        cases hk : s.kind with
        | base => simp [pollChanges, _emitResults, hk, pollExit, setCont, once, record, hs]
        | event ev =>
          cases v with
          | null => simp [pollChanges, _emitResults, hk, pollExit, setCont, hs]
          | array rs => simp [pollChanges, emitResults_event _ rs s ev hk, pollExit, setCont, hs]
        | pending =>
          cases v with
          | null => simp [pollChanges, _emitResults, hk, pollExit, setCont, hs]
          | array rs => simp [pollChanges, emitResults_pending _ rs s hk, pollExit, setCont, hs]
    · exact hs
  | thenRuns p =>
    left
    simp only [step]
    rw [(runThen_fields p s).1]; exact hs
  | providerNetworkIs n => exact Or.inl hs

/-- C14. The recorded network is write-once. It is absent in a new subscriber;
    while it is absent the only event that can set it is a successful
    `getNetwork()` of a cycle waiting for it, which records the network it
    yields; once a network `m` is recorded it is the recorded network after
    every sequence of events (`stop`, `pause`, teardown and re-installation
    included); and a later cycle throws `"chaid changed"` exactly when the
    `chainId` it fetches differs from that of `m`. -/
theorem network_write_once (s : State) :
    (∀ kind net, (init kind net).network = none) ∧
    (∀ e, s.network = none →
      (step s e).network = none ∨
        ∃ c n, e = .networkReply c (.ok n) ∧ (step s e).network = some n) ∧
    (∀ c filterId n, s.network = none → s.cycles[c]? = some (.awaitNetwork filterId) →
      (step s (.networkReply c (.ok n))).network = some n) ∧
    (∀ m es, s.network = some m → (run s es).network = some m) ∧
    (∀ m c filterId n, s.network = some m →
      ((pollNetwork c filterId (.ok n) s).2 = .error .chainChanged ↔
        m.chainId ≠ n.chainId)) := by
  refine ⟨fun _ _ => rfl, fun e h => network_none_step s e h, ?_, ?_, ?_⟩
  · intro c f n hs hc
    rcases network_none_step s (.networkReply c (.ok n)) hs with h | ⟨_, _, he, h⟩
    · by_cases hh : s.hault = true <;>
        simp [step, networkReply, hc, pollNetwork, hs, hh, pollExit, setCont, once, record] at h
    · cases he
      exact h
  · intro m es hm
    exact (moves_run s es).keeps (fun a b h => network_move m a b h) hm
  · intro m c f n hm
    by_cases hne : m.chainId = n.chainId
    · by_cases hh : s.hault = true <;> simp [pollNetwork, hm, hne, hh]
    · simp [pollNetwork, hm, hne]

theorem network_write_once_witness :
    (run (run (newEventSubscriber ⟨0xAAA, []⟩ ⟨1⟩)
        [.start, .installSettles 0 (.ok (some 0xF1)), .networkReply 0 (.ok ⟨1⟩)])
      [.stop, .start, .installSettles 1 (.ok (some 0xF2)), .networkReply 1 (.ok ⟨5⟩)]).network
      = some ⟨1⟩ :=
  (network_write_once
    (run (newEventSubscriber ⟨0xAAA, []⟩ ⟨1⟩)
      [.start, .installSettles 0 (.ok (some 0xF1)), .networkReply 0 (.ok ⟨1⟩)])).2.2.2.1 ⟨1⟩
    [.stop, .start, .installSettles 1 (.ok (some 0xF2)), .networkReply 1 (.ok ⟨5⟩)]
    (by decide)

/-! ## Overlapping cycles -/

/-- C15, as stated, fails: `start()`, `stop()`, `start()` leaves two poll
    cycles in flight, each awaiting its own installation task. -/
theorem overlapping_cycles_counterexample :
    (run (newEventSubscriber ⟨0xAAA, []⟩ ⟨1⟩) [.start, .stop, .start]).cycles
        = [.awaitInstall 0, .awaitInstall 1] ∧
      inFlight (run (newEventSubscriber ⟨0xAAA, []⟩ ⟨1⟩) [.start, .stop, .start]) = 2 := by
  decide

/-! ## A rejected installation -/

/-- A move of cycle `c'` leaves every other cycle as it is. -/
theorem other_cycle (s : State) (c c' : Nat) (k' : Cont) (l : Nat) (net : Option Network)
    (E : List Effect) (hne : c' ≠ c) :
    ({ s with
        network := net
        cycles := s.cycles.set c' k'
        listeners := l
        trace := s.trace ++ E.map (fun e => ⟨.cycle c', e⟩) } : State).cycles[c]?
      = s.cycles[c]? ∧
    cycleEffects c { s with
        network := net
        cycles := s.cycles.set c' k'
        listeners := l
        trace := s.trace ++ E.map (fun e => ⟨.cycle c', e⟩) }
      = cycleEffects c s := by
  refine ⟨by simp [List.getElem?_set_ne hne], ?_⟩
  simp [cycleEffects, List.filter_map, Function.comp_def, hne]

/-- No line of the trace comes from a cycle that has not begun. -/
theorem cycleEffects_fresh (s : State) (c : Nat) (hs : CycleLog s) (hc : s.cycles.length ≤ c) :
    cycleEffects c s = [] := by
  simp only [cycleEffects, List.map_eq_nil_iff, List.filter_eq_nil_iff, decide_eq_true_eq]
  intro e he ho
  obtain ⟨k, hk, _⟩ := hs e he c ho
  have := lt_of_cont hk
  omega

theorem cycles_length_move {q : Bool} (s s' : State) (h : Move q s s') :
    s.cycles.length ≤ s'.cycles.length := by
  cases h with
  | beginCached _ _ a p ha hp => cases ha <;> simp
  | beginSubscribed _ _ a e ha h1 h2 h3 => cases ha <;> simp
  | beginThrew _ _ a e ha h1 h2 => cases ha <;> simp
  | _ => simp

theorem Stuck.carry {p n : Nat} {err : Err} {s s' : State} (hs : Stuck p err n s)
    (h1 : s'.filterIdPromise = s.filterIdPromise) (h2 : s'.tasks[p]? = s.tasks[p]?)
    (h3 : s'.cycles.length = s.cycles.length)
    (h4 : ∀ c, n ≤ c → c < s.cycles.length →
      s'.cycles[c]? = s.cycles[c]? ∧ cycleEffects c s' = cycleEffects c s) :
    Stuck p err n s' := by
  obtain ⟨g1, g2, g3⟩ := hs
  refine ⟨h1.trans g1, h2.trans g2, fun c hn hl => ?_⟩
  rw [h3] at hl
  obtain ⟨a1, a2⟩ := h4 c hn hl
  rw [a1, a2]
  exact g3 c hn hl

theorem stuck_move (p n : Nat) (err : Err) (s s' : State) (h : Move true s s')
    (hlog : CycleLog s) (hs : Stuck p err n s) : Stuck p err n s' := by
  have g := hs
  obtain ⟨g1, g2, g3⟩ := g
  -- a cycle numbered `n` or more is waiting for `p` or has returned
  have low : ∀ (c' : Nat) (k : Cont), s.cycles[c']? = some k → k ≠ .done →
      (∀ q, k ≠ .awaitInstall q) → ¬ n ≤ c' := by
    intro c' k hk hd hq hn
    rcases g3 c' hn (lt_of_cont hk) with ⟨a, _⟩ | ⟨a, _⟩
    · rw [hk] at a; cases a; exact hq p rfl
    · rw [hk] at a; cases a; exact hd rfl
  have low' : ∀ (c' q : Nat) (t : Task), s.cycles[c']? = some (.awaitInstall q) →
      s.tasks[q]? = some t → (∀ e, t ≠ .rejected e) → ¬ n ≤ c' := by
    intro c' q t hk ht hne hn
    rcases g3 c' hn (lt_of_cont hk) with ⟨a, _⟩ | ⟨a, _⟩
    · rw [hk] at a
      cases a
      rw [g2] at ht
      cases ht
      exact hne err rfl
    · rw [hk] at a; cases a
  have others : ∀ (c' : Nat) (k' : Cont) (l : Nat) (net : Option Network) (E : List Effect),
      ¬ n ≤ c' → c' < s.cycles.length →
      Stuck p err n { s with
        network := net
        cycles := s.cycles.set c' k'
        listeners := l
        trace := s.trace ++ E.map (fun e => ⟨.cycle c', e⟩) } := by
    intro c' k' l net E hlow hlt
    refine hs.carry rfl rfl (by simp) (fun c hn _ => ?_)
    exact other_cycle s c c' k' l net E (by omega)
  cases h with
  | beginCached _ _ a p' ha hp =>
    have ha1 : a.filterIdPromise = s.filterIdPromise ∧ a.tasks = s.tasks ∧
        a.cycles = s.cycles ∧ a.trace = s.trace := by
      cases ha <;> exact ⟨rfl, rfl, rfl, rfl⟩
    obtain ⟨b1, b2, b3, b4⟩ := ha1
    have hpp : p' = p := by
      rw [b1, g1] at hp
      cases hp
      rfl
    subst hpp
    refine ⟨by simpa [b1] using g1, by simpa [b2] using g2, fun c hn hl => ?_⟩
    simp only [List.length_append, List.length_singleton, b3] at hl
    by_cases hc : c < s.cycles.length
    · have := g3 c hn hc
      simpa [cycleEffects, b3, b4, List.getElem?_append_left hc] using this
    · have hc' : c = s.cycles.length := by omega
      subst hc'
      left
      have := cycleEffects_fresh s s.cycles.length hlog (Nat.le_refl _)
      refine ⟨by simp [b3], ?_⟩
      simpa [cycleEffects, b4] using this
  | beginSubscribed _ _ a e ha h1 h2 h3 =>
    have : a.filterIdPromise = some p := by cases ha <;> exact g1
    rw [h1] at this
    cases this
  | beginThrew _ _ a e ha h1 h2 =>
    have : a.filterIdPromise = some p := by cases ha <;> exact g1
    rw [h1] at this
    cases this
  | installed _ _ c' q f h1 h2 =>
    exact others c' _ s.listeners s.network [.getNetwork]
      (low' c' q _ h1 h2 (by simp)) (lt_of_cont h1)
  | recovered _ _ c' q ev h1 h2 h3 =>
    exact others c' _ s.listeners s.network [.recoverSubscriber (.pollingEventSubscriber ev)]
      (low' c' q _ h1 h2 (by simp)) (lt_of_cont h1)
  | caught _ _ c' k e h1 h2 h3 =>
    by_cases hn : n ≤ c'
    · rcases g3 c' hn (lt_of_cont h1) with ⟨a, aeff⟩ | ⟨a, _⟩
      · rw [h1] at a
        cases a
        have he : e = err := by
          rcases h3 with h3 | ⟨h3, _⟩
          · rw [g2] at h3
            cases h3
            rfl
          · rw [g2] at h3
            cases h3
        subst he
        refine ⟨g1, g2, fun c hc hl => ?_⟩
        by_cases hcc : c' = c
        · subst hcc
          right
          have := cycle_shape s c' .done (s.listeners + 1) [.consoleLog e, .once] s.network
            (lt_of_cont h1)
          rw [aeff] at this
          simpa using this.symm
        · have := other_cycle s c c' .done (s.listeners + 1) s.network
            [.consoleLog e, .once] hcc
          have hl' : c < s.cycles.length := by simpa using hl
          have hg := g3 c hc hl'
          rw [← this.1, ← this.2] at hg
          exact hg
      · rw [h1] at a
        cases a
        exact absurd rfl h2
    · exact others c' _ (s.listeners + 1) s.network [.consoleLog e, .once] hn (lt_of_cont h1)
  | recorded _ _ m h1 => exact hs.carry rfl rfl rfl (fun _ _ _ => ⟨rfl, rfl⟩)
  | halted _ _ c' f h1 h2 =>
    have := others c' .done s.listeners s.network [] (low c' _ h1 (by simp) (by simp))
      (lt_of_cont h1)
    simpa using this
  | asked _ _ c' f h1 h2 =>
    exact others c' _ s.listeners s.network [.send .eth_getFilterChanges [.filterId (some f)]]
      (low c' _ h1 (by simp) (by simp)) (lt_of_cont h1)
  | emitted _ _ c' f es r h1 =>
    have := others c' (.awaitEmit r) s.listeners s.network (es.map (fun e => .emit e.1 e.2))
      (low c' _ h1 (by simp) (by simp)) (lt_of_cont h1)
    simpa [Function.comp_def] using this
  | finished _ _ c' h1 =>
    exact others c' _ (s.listeners + 1) s.network [.once]
      (low c' _ h1 (by simp) (by simp)) (lt_of_cont h1)
  | thenFired _ _ q v h1 h2 =>
    exact hs.carry rfl rfl rfl (fun _ _ _ => ⟨rfl, by simp [cycleEffects]⟩)
  | thenDropped _ _ q e h1 h2 => exact hs.carry rfl rfl rfl (fun _ _ _ => ⟨rfl, rfl⟩)
  | stopped _ _ h1 => exact hs.carry rfl rfl rfl (fun _ _ _ => ⟨rfl, rfl⟩)
  | offed _ _ => exact hs.carry rfl rfl rfl (fun _ _ _ => ⟨rfl, by simp [cycleEffects]⟩)
  | taskSettled _ _ q t h1 h2 =>
    refine hs.carry rfl ?_ rfl (fun _ _ _ => ⟨rfl, rfl⟩)
    have hne : q ≠ p := by
      rintro rfl
      rw [g2] at h1
      cases h1
    simp [List.getElem?_set_ne hne]
  | providerChanged _ _ m => exact hs.carry rfl rfl rfl (fun _ _ _ => ⟨rfl, rfl⟩)


/-- C17. A failed installation is never retried. In a reachable state let the
    cached installation task `p` be rejected with `err`. After every sequence of
    events without `#teardown` (no `stop()`, no `pause(true)`) `p` is still the
    cached task and still rejected, no installation request has been sent, and
    every poll cycle begun in the meantime either still awaits `p`, having caused
    nothing, or has returned after exactly `console.log(err)` and
    `provider.once("block", poller)`: it sent no `eth_getFilterChanges` and emitted
    nothing. -/
theorem failed_installation_not_retried (s : State) (p : Nat) (err : Err) (es : List Event)
    (hr : Reachable s) (hp : s.filterIdPromise = some p)
    (ht : s.tasks[p]? = some (.rejected err)) (hes : ∀ e ∈ es, e.isTeardown = false) :
    (run s es).filterIdPromise = some p ∧
      (run s es).tasks[p]? = some (.rejected err) ∧
      count Effect.isInstall (run s es) = count Effect.isInstall s ∧
      ∀ c, s.cycles.length ≤ c → c < (run s es).cycles.length →
        ((run s es).cycles[c]? = some (.awaitInstall p) ∧ cycleEffects c (run s es) = []) ∨
        ((run s es).cycles[c]? = some .done ∧
          cycleEffects c (run s es) = [.consoleLog err, .once]) := by
  have h0 : CycleLog s ∧ Stuck p err s.cycles.length s :=
    ⟨hr.invariants.1, hp, ht, fun c h1 h2 => by omega⟩
  have hX := (moves_run_quiet s es hes).keeps
    (X := fun a => CycleLog a ∧ Stuck p err s.cycles.length a)
    (fun a b h ha => ⟨cycleLog_move a b h ha.1, stuck_move p _ err a b h ha.1 ha.2⟩) h0
  obtain ⟨_, g1, g2, g3⟩ := hX
  exact ⟨g1, g2, (cached_quiet_run p s es hes hp).2, g3⟩

theorem failed_installation_not_retried_witness :
    cycleEffects 1
        (run (run (newEventSubscriber ⟨0xAAA, []⟩ ⟨1⟩)
          [.start, .installSettles 0 (.error (.rpc 3))]) [.block, .wake 1])
      = [.consoleLog (.rpc 3), .once] :=
  ((failed_installation_not_retried
    (run (newEventSubscriber ⟨0xAAA, []⟩ ⟨1⟩) [.start, .installSettles 0 (.error (.rpc 3))])
    0 (.rpc 3) [.block, .wake 1] ⟨_, _, _, rfl⟩ (by decide) (by decide) (by decide)).2.2.2 1
    (by decide) (by decide)).elim (fun h => absurd h.1 (by decide)) (fun h => h.2)

/-! ## A stopped subscriber -/

theorem Fruitless.nil : Fruitless [] := by
  constructor <;> simp

theorem Fruitless.append {l : List Effect} (hl : Fruitless l) (E : List Effect)
    (h1 : ∀ x ∈ E, x.isGetChanges = false ∧ x.isEmit = false)
    (h2 : Effect.once ∈ E → ∃ e, Effect.consoleLog e ∈ E) : Fruitless (l ++ E) := by
  obtain ⟨a1, a2⟩ := hl
  constructor
  · intro x hx
    rcases List.mem_append.mp hx with hx | hx
    · exact a1 x hx
    · exact h1 x hx
  · intro ho
    rcases List.mem_append.mp ho with ho | ho
    · obtain ⟨e, he⟩ := a2 ho
      exact ⟨e, List.mem_append_left _ he⟩
    · obtain ⟨e, he⟩ := h2 ho
      exact ⟨e, List.mem_append_right _ he⟩

/-- On a stopped subscriber a doomed cycle stays doomed. -/
theorem doomed_move {q : Bool} (c : Nat) (s s' : State) (h : Move q s s')
    (hh : s.hault = true) (hs : Doomed c s) : Doomed c s' := by
  obtain ⟨⟨k, hk, hnc, hne⟩, heff⟩ := hs
  have hlt := lt_of_cont hk
  have key : ∀ (c' : Nat) (k' : Cont) (l : Nat) (net : Option Network) (E : List Effect)
      (k0 : Cont), s.cycles[c']? = some k0 →
      (c' = c → ((∀ f, k' ≠ .awaitChanges f) ∧ ∀ r, k' ≠ .awaitEmit r) ∧
        (∀ x ∈ E, x.isGetChanges = false ∧ x.isEmit = false) ∧
        (Effect.once ∈ E → ∃ e, Effect.consoleLog e ∈ E)) →
      Doomed c { s with
        network := net
        cycles := s.cycles.set c' k'
        listeners := l
        trace := s.trace ++ E.map (fun e => ⟨.cycle c', e⟩) } := by
    intro c' k' l net E k0 h0 hE
    by_cases hcc : c' = c
    · subst hcc
      obtain ⟨b1, b2, b3⟩ := hE rfl
      have := cycle_shape s c' k' l E net hlt
      refine ⟨⟨k', this.2, b1⟩, ?_⟩
      rw [this.1]
      exact heff.append E b2 b3
    · have := other_cycle s c c' k' l net E hcc
      refine ⟨⟨k, this.1.trans hk, hnc, hne⟩, ?_⟩
      rw [this.2]
      exact heff
  have push : ∀ (a : State) (k' : Cont) (E : List Entry),
      a.cycles = s.cycles → a.trace = s.trace →
      (∀ e ∈ E, e.origin = .cycle s.cycles.length) →
      (∃ k, (a.cycles ++ [k'])[c]? = some k ∧ (∀ f, k ≠ .awaitChanges f) ∧
        ∀ r, k ≠ .awaitEmit r) ∧
        Fruitless (((a.trace ++ E).filter (fun e => e.origin = .cycle c)).map
          (fun e => e.effect)) := by
    intro a k' E h1 h2 hE
    rw [h1, h2]
    refine ⟨⟨k, by rw [List.getElem?_append_left hlt]; exact hk, hnc, hne⟩, ?_⟩
    have : (E.filter (fun e => e.origin = .cycle c)) = [] := by
      rw [List.filter_eq_nil_iff]
      intro e he
      rw [hE e he]
      simp
      omega
    rw [List.filter_append, this, List.append_nil]
    exact heff
  cases h with
  | beginCached _ _ a p ha hp =>
    have := push a (.awaitInstall p) [] (by cases ha <;> rfl) (by cases ha <;> rfl) (by simp)
    simpa [Doomed, cycleEffects] using this
  | beginSubscribed _ _ a e ha h1 h2 h3 =>
    have hc : a.cycles = s.cycles := by cases ha <;> rfl
    have := push a (.awaitInstall a.tasks.length) [⟨.cycle a.cycles.length, e⟩] hc
      (by cases ha <;> rfl) (by simp [hc])
    simpa [Doomed, cycleEffects] using this
  | beginThrew _ _ a e ha h1 h2 =>
    have hc : a.cycles = s.cycles := by cases ha <;> rfl
    have := push a .done
      [⟨.cycle a.cycles.length, .consoleLog e⟩, ⟨.cycle a.cycles.length, .once⟩] hc
      (by cases ha <;> rfl) (by simp [hc])
    simpa [Doomed, cycleEffects] using this
  | installed _ _ c' p f h1 h2 =>
    exact key c' (.awaitNetwork f) s.listeners s.network [.getNetwork] _ h1
      (fun _ => ⟨⟨by simp, by simp⟩, by simp [Effect.isGetChanges, Effect.isEmit], by simp⟩)
  | recovered _ _ c' p ev h1 h2 h3 =>
    exact key c' .done s.listeners s.network
      [.recoverSubscriber (.pollingEventSubscriber ev)] _ h1
      (fun _ => ⟨⟨by simp, by simp⟩, by simp [Effect.isGetChanges, Effect.isEmit], by simp⟩)
  | caught _ _ c' k e h1 h2 h3 =>
    exact key c' .done (s.listeners + 1) s.network [.consoleLog e, .once] _ h1
      (fun _ => ⟨⟨by simp, by simp⟩, by simp [Effect.isGetChanges, Effect.isEmit],
        fun _ => ⟨e, by simp⟩⟩)
  | recorded _ _ n h1 => exact ⟨⟨k, hk, hnc, hne⟩, heff⟩
  | halted _ _ c' f h1 h2 =>
    have := key c' .done s.listeners s.network [] _ h1
      (fun _ => ⟨⟨by simp, by simp⟩, by simp, by simp⟩)
    simpa using this
  | asked _ _ c' f h1 h2 =>
    rw [hh] at h2
    cases h2
  | emitted _ _ c' f es r h1 =>
    have hcc : c' ≠ c := by
      rintro rfl
      rw [hk] at h1
      cases h1
      exact hnc f rfl
    have := key c' (.awaitEmit r) s.listeners s.network (es.map (fun e => .emit e.1 e.2)) _ h1
      (fun h => absurd h hcc)
    simpa [Function.comp_def] using this
  | finished _ _ c' h1 =>
    have hcc : c' ≠ c := by
      rintro rfl
      rw [hk] at h1
      cases h1
      exact hne _ rfl
    exact key c' .done (s.listeners + 1) s.network [.once] _ h1 (fun h => absurd h hcc)
  | tornDown _ p h1 => exact ⟨⟨k, hk, hnc, hne⟩, heff⟩
  | thenFired _ _ p v h1 h2 =>
    refine ⟨⟨k, hk, hnc, hne⟩, ?_⟩
    simpa [cycleEffects] using heff
  | thenDropped _ _ p e h1 h2 => exact ⟨⟨k, hk, hnc, hne⟩, heff⟩
  | stopped _ _ h1 => exact ⟨⟨k, hk, hnc, hne⟩, heff⟩
  | offed _ _ =>
    refine ⟨⟨k, hk, hnc, hne⟩, ?_⟩
    simpa [cycleEffects] using heff
  | taskSettled _ _ p t h1 h2 => exact ⟨⟨k, hk, hnc, hne⟩, heff⟩
  | providerChanged _ _ n => exact ⟨⟨k, hk, hnc, hne⟩, heff⟩


/-- A move begins no cycle, or it begins exactly one: the new cycle awaits an
    installation task, having at most sent the installation request, or it has
    already returned through the `catch` clause. -/
theorem begin_or_same {q : Bool} (s s' : State) (h : Move q s s') :
    s'.cycles.length = s.cycles.length ∨
      ∃ (k : Cont) (E : List Effect),
        s'.cycles = s.cycles ++ [k] ∧
        s'.trace = s.trace ++ E.map (fun e => ⟨.cycle s.cycles.length, e⟩) ∧
        (((∃ p, k = .awaitInstall p) ∧ ∀ x ∈ E, x.isInstall = true) ∨
          (k = .done ∧ ∃ e, E = [.consoleLog e, .once])) := by
  cases h with
  | beginCached _ _ a p ha hp =>
    right
    refine ⟨.awaitInstall p, [], ?_, ?_, Or.inl ⟨⟨p, rfl⟩, by simp⟩⟩ <;> cases ha <;> simp
  | beginSubscribed _ _ a e ha h1 h2 h3 =>
    right
    refine ⟨.awaitInstall a.tasks.length, [e], ?_, ?_, Or.inl ⟨⟨_, rfl⟩, by simpa using h3⟩⟩ <;>
      cases ha <;> simp
  | beginThrew _ _ a e ha h1 h2 =>
    right
    refine ⟨.done, [.consoleLog e, .once], ?_, ?_, Or.inr ⟨rfl, e, rfl⟩⟩ <;> cases ha <;> simp
  | _ => left; simp

theorem stopped_move {q : Bool} (n : Nat) (s s' : State) (h : Move q s s')
    (hs : Stopped n s) : Stopped n s' := by
  obtain ⟨hlog, hh, hn, hd⟩ := hs
  refine ⟨cycleLog_move s s' h hlog, hault_move s s' h hh,
    Nat.le_trans hn (cycles_length_move s s' h), fun c hc hl => ?_⟩
  by_cases hlt : c < s.cycles.length
  · exact doomed_move c s s' h hh (hd c hc hlt)
  · rcases begin_or_same s s' h with hsame | ⟨k, E, h1, h2, h3⟩
    · omega
    · have hceq : c = s.cycles.length := by
        rw [h1] at hl
        simp at hl
        omega
      subst hceq
      have hfresh := cycleEffects_fresh s s.cycles.length hlog (Nat.le_refl _)
      have heff : cycleEffects s.cycles.length s' = E := by
        simp only [cycleEffects] at hfresh ⊢
        rw [h2, List.filter_append, List.map_append, hfresh]
        simp [List.filter_map, Function.comp_def]
      refine ⟨⟨k, by rw [h1]; simp, ?_, ?_⟩, ?_⟩
      · rcases h3 with ⟨⟨p, rfl⟩, _⟩ | ⟨rfl, _⟩ <;> simp
      · rcases h3 with ⟨⟨p, rfl⟩, _⟩ | ⟨rfl, _⟩ <;> simp
      · rw [heff]
        rcases h3 with ⟨_, hE⟩ | ⟨_, e, rfl⟩
        · constructor
          · intro x hx
            have := hE x hx
            cases x with
            | send m ps => cases m <;> simp_all [Effect.isInstall, Effect.isGetChanges,
                Effect.isEmit]
            | _ => simp_all [Effect.isInstall, Effect.isGetChanges, Effect.isEmit]
          · intro ho
            have := hE _ ho
            simp [Effect.isInstall] at this
        · exact ⟨by simp [Effect.isGetChanges, Effect.isEmit], fun _ => ⟨e, by simp⟩⟩

/-- C16, as stated, fails: a cycle begun after the restart registers the
    poller when one of its steps fails. Here the subscriber is started, stopped
    and started again, and the second installation request is rejected: the
    cycle logs the error and calls `provider.once("block", poller)`. -/
theorem restarted_cycle_registers_counterexample :
    cycleEffects 1 (run (newEventSubscriber ⟨0xAAA, []⟩ ⟨1⟩)
        [.start, .stop, .start, .installSettles 1 (.error (.rpc 3))])
      = [.send .eth_newFilter [.filter ⟨0xAAA, []⟩], .consoleLog (.rpc 3), .once] ∧
    (run (newEventSubscriber ⟨0xAAA, []⟩ ⟨1⟩)
        [.start, .stop, .start, .installSettles 1 (.error (.rpc 3))]).hault = true ∧
    (run (newEventSubscriber ⟨0xAAA, []⟩ ⟨1⟩)
        [.start, .stop, .start, .installSettles 1 (.error (.rpc 3))]).listeners = 1 := by
  decide

/-- C16, amended. `#hault` is permanent. Once it is set in a reachable state
    it is set after every sequence of events (`start()` and `resume()`
    included), and every poll cycle begun from then on sends no
    `eth_getFilterChanges` and emits nothing, and registers the poller only if it
    has logged an error, that is only through the `catch` clause. -/
theorem halted_is_permanent (s : State) (es : List Event) (hr : Reachable s)
    (hh : s.hault = true) :
    (run s es).hault = true ∧
      ∀ c, s.cycles.length ≤ c → c < (run s es).cycles.length →
        (∀ x ∈ cycleEffects c (run s es), x.isGetChanges = false ∧ x.isEmit = false) ∧
        (Effect.once ∈ cycleEffects c (run s es) →
          ∃ e, Effect.consoleLog e ∈ cycleEffects c (run s es)) := by
  have h0 : Stopped s.cycles.length s :=
    ⟨hr.invariants.1, hh, Nat.le_refl _, fun c h1 h2 => by omega⟩
  obtain ⟨_, g1, _, g3⟩ := (moves_run s es).keeps
    (fun a b h => stopped_move s.cycles.length a b h) h0
  exact ⟨g1, fun c h1 h2 => (g3 c h1 h2).2⟩

theorem halted_is_permanent_witness :
    (run (run (newEventSubscriber ⟨0xAAA, []⟩ ⟨1⟩) [.start, .stop])
        [.start, .installSettles 1 (.ok (some 0xF2)), .networkReply 1 (.ok ⟨1⟩)]).hault = true ∧
      (cycleEffects 1
        (run (run (newEventSubscriber ⟨0xAAA, []⟩ ⟨1⟩) [.start, .stop])
          [.start, .installSettles 1 (.ok (some 0xF2)), .networkReply 1 (.ok ⟨1⟩)])).all
        (fun x => !x.isGetChanges && !x.isEmit) = true :=
  ⟨(halted_is_permanent (run (newEventSubscriber ⟨0xAAA, []⟩ ⟨1⟩) [.start, .stop])
      [.start, .installSettles 1 (.ok (some 0xF2)), .networkReply 1 (.ok ⟨1⟩)] ⟨_, _, _, rfl⟩
      (by decide)).1,
    List.all_eq_true.mpr (fun x hx => by
      have h := ((halted_is_permanent (run (newEventSubscriber ⟨0xAAA, []⟩ ⟨1⟩) [.start, .stop])
        [.start, .installSettles 1 (.ok (some 0xF2)), .networkReply 1 (.ok ⟨1⟩)] ⟨_, _, _, rfl⟩
        (by decide)).2 1 (by decide) (by decide)).1 x hx
      simp [h.1, h.2])⟩

/-! ## Idle subscribers and unsupported filters -/

/-- Every event but `stop()` leaves `#hault` as it is. -/
theorem hault_step (s : State) (e : Event) (he : e ≠ .stop) : (step s e).hault = s.hault := by
  cases e with
  | start =>
    simp only [step, start]
    split_ifs
    · rfl
    · rw [(poll_frame _).2.1]
  | resume =>
    simp only [step, resume, start]
    split_ifs
    · rfl
    · rw [(poll_frame _).2.1]
  | stop => exact absurd rfl he
  | pause d =>
    cases d <;> cases hp : s.filterIdPromise <;> simp [step, pause, teardown, hp, off, record]
  | block =>
    simp only [step, block]
    rw [(pollTimes_frame _ _).2.1]
  | installSettles p r =>
    simp only [step]
    rw [(settle_frame p _ s).2.1]
  | wake c =>
    simp only [step, wake]
    split
    · rw [(resumeInstall_resumed _ c s).2.2.2.2.1]
    · next r _ => cases r <;> simp [pollEmitted, pollExit, setCont, once, record]
    · rfl
  | networkReply c r =>
    simp only [step, networkReply]
    split
    · next f hc =>
      cases r with
      | error err => simp [pollNetwork, pollExit, setCont, once, record]
      | ok n =>
        cases hn : s.network <;> by_cases hh : s.hault = true <;>
          by_cases hm : (s.network.getD n).chainId = n.chainId <;>
          simp_all [pollNetwork, pollExit, setCont, once, record]
    · rfl
  | changesReply c r =>
    simp only [step, changesReply]
    split
    · next f hc =>
      cases r with
      | error err => simp [pollChanges, pollExit, setCont, once, record]
      | ok v =>
        cases hk : s.kind with
        | base => simp [pollChanges, _emitResults, hk, pollExit, setCont, once, record]
        | event ev =>
          cases v with
          | null => simp [pollChanges, _emitResults, hk, pollExit, setCont]
          | array rs => simp [pollChanges, emitResults_event _ rs s ev hk, pollExit, setCont]
        | pending =>
          cases v with
          | null => simp [pollChanges, _emitResults, hk, pollExit, setCont]
          | array rs => simp [pollChanges, emitResults_pending _ rs s hk, pollExit, setCont]
    · rfl
  | thenRuns p =>
    simp only [step]
    rw [(runThen_frame p 0 s).2.2.2.2]
  | providerNetworkIs n => rfl

/-- On an idle subscriber that stays unstopped a move begins no cycle and lets
    no cycle act: it can only remove a listener or run a `#teardown` callback. -/
theorem idle_move {q : Bool} (s s' : State) (h : Move q s s') (hs : Idle s)
    (hh : s'.hault = false) :
    Idle s' ∧ s'.cycles = s.cycles ∧
      ∃ es : List Entry, s'.trace = s.trace ++ es ∧
        ∀ e ∈ es, e.effect = .off ∨ e.effect.isUninstall = true := by
  obtain ⟨hr, hf, ht⟩ := hs
  have h0 : inFlight s = 0 ∧ s.listeners = 0 := by unfold tokens at ht; omega
  have nocycle : ∀ (c : Nat) (k : Cont),
      s.cycles[c]? = some k → k ≠ Cont.done → False := by
    intro c k hc hk
    have := inFlight_pos s c k hc hk
    omega
  cases h with
  | beginCached _ _ a p ha hp =>
    cases ha with
    | byStart h => rw [hr] at h; cases h
    | byBlock h => omega
  | beginSubscribed _ _ a e ha h1 h2 h3 =>
    cases ha with
    | byStart h => rw [hr] at h; cases h
    | byBlock h => omega
  | beginThrew _ _ a e ha h1 h2 =>
    cases ha with
    | byStart h => rw [hr] at h; cases h
    | byBlock h => omega
  | installed _ _ c p f h1 h2 => exact (nocycle c _ h1 (by simp)).elim
  | recovered _ _ c p ev h1 h2 h3 => exact (nocycle c _ h1 (by simp)).elim
  | caught _ _ c k e h1 h2 _ => exact (nocycle c _ h1 h2).elim
  | recorded _ _ n h1 => exact ⟨⟨hr, hf, ht⟩, rfl, [], by simp, by simp⟩
  | halted _ _ c f h1 h2 => exact (nocycle c _ h1 (by simp)).elim
  | asked _ _ c f h1 h2 => exact (nocycle c _ h1 (by simp)).elim
  | emitted _ _ c f es r h1 => exact (nocycle c _ h1 (by simp)).elim
  | finished _ _ c h1 => exact (nocycle c _ h1 (by simp)).elim
  | tornDown _ p h1 => exact ⟨⟨hr, hf, ht⟩, rfl, [], by simp, by simp⟩
  | thenFired _ _ p v h1 h2 =>
    exact ⟨⟨hr, hf, ht⟩, rfl, _, rfl, by simp [Effect.isUninstall]⟩
  | thenDropped _ _ p e h1 h2 => exact ⟨⟨hr, hf, ht⟩, rfl, [], by simp, by simp⟩
  | stopped _ _ h1 => cases hh
  | offed _ _ =>
    refine ⟨⟨hr, hf, ?_⟩, rfl, _, rfl, by simp⟩
    dsimp only [tokens, inFlight] at *
    omega
  | taskSettled _ _ p t h1 h2 => exact ⟨⟨hr, hf, ht⟩, rfl, [], by simp, by simp⟩
  | providerChanged _ _ n => exact ⟨⟨hr, hf, ht⟩, rfl, [], by simp, by simp⟩

theorem idle_moves {q : Bool} {s s' : State} (h : Moves q s s') (hs : Idle s)
    (hh : s'.hault = false) :
    Idle s' ∧ s'.cycles = s.cycles ∧
      ∃ es : List Entry, s'.trace = s.trace ++ es ∧
        ∀ e ∈ es, e.effect = .off ∨ e.effect.isUninstall = true := by
  induction h with
  | refl => exact ⟨hs, rfl, [], by simp, by simp⟩
  | tail hab hbc ih =>
    rename_i b c
    have hb : b.hault = false := by
      by_contra hcon
      have := hault_move b c hbc (by simpa using hcon)
      rw [hh] at this
      cases this
    obtain ⟨i1, i2, es, i3, i4⟩ := ih hb
    obtain ⟨j1, j2, es', j3, j4⟩ := idle_move b c hbc i1 hh
    refine ⟨j1, j2.trans i2, es ++ es', by rw [j3, i3, List.append_assoc], ?_⟩
    intro e he
    rcases List.mem_append.mp he with he | he
    · exact i4 e he
    · exact j4 e he

/-- An idle subscriber stays idle until `stop()` is called: no cycle begins, no
    cycle acts, and nothing is asked of the provider but `off` and
    `eth_uninstallFilter`. -/
theorem idle_run (s : State) (es : List Event) (hes : ∀ e ∈ es, e ≠ .stop) (hs : Idle s) :
    Idle (run s es) ∧ (run s es).cycles = s.cycles ∧
      ∃ tr : List Entry, (run s es).trace = s.trace ++ tr ∧
        ∀ e ∈ tr, e.effect = .off ∨ e.effect.isUninstall = true := by
  induction es generalizing s with
  | nil => exact ⟨hs, rfl, [], by simp [run], by simp⟩
  | cons e es ih =>
    have he : e ≠ .stop := hes e (by simp)
    have hh : (step s e).hault = false := (hault_step s e he).trans hs.2.1
    obtain ⟨a1, a2, tr, a3, a4⟩ := idle_moves (moves_step s e) hs hh
    obtain ⟨b1, b2, tr', b3, b4⟩ := ih (step s e) (fun x hx => hes x (by simp [hx])) a1
    rw [run_cons]
    refine ⟨b1, b2.trans a2, tr ++ tr', by rw [b3, a3, List.append_assoc], ?_⟩
    intro x hx
    rcases List.mem_append.mp hx with hx | hx
    · exact a4 x hx
    · exact b4 x hx


/-- After the handoff of a log-event subscriber that was never stopped, and
    until `stop()` is called, no cycle begins or acts: the fallback is not handed
    over again, no listener is registered and no request but `off` and
    `eth_uninstallFilter` is made. -/
theorem event_handoff_inert (D : Filter) (net : Network) (es0 es : List Event)
    (s : State) (c p : Nat) (e : Event)
    (hs : s = run (newEventSubscriber D net) es0) (hh : s.hault = false)
    (hc : s.cycles[c]? = some (.awaitInstall p))
    (he : (e = .installSettles p (.ok none) ∧ s.tasks[p]? = some .pending) ∨
      (e = .wake c ∧ s.tasks[p]? = some (.fulfilled none)))
    (hes : ∀ x ∈ es, x ≠ .stop) :
    (run (step s e) es).cycles = (step s e).cycles ∧
      (run (step s e) es).listeners = 0 ∧
      count Effect.isRecover (run (step s e) es) = count Effect.isRecover (step s e) ∧
      count Effect.isOnce (run (step s e) es) = count Effect.isOnce (step s e) ∧
      count Effect.isGetChanges (run (step s e) es)
        = count Effect.isGetChanges (step s e) := by
  have hreach : Reachable s := ⟨_, _, es0, hs⟩
  have hk : s.kind = .event (copy D) := by rw [hs, kind_run]; rfl
  obtain ⟨_, _, hone⟩ := hreach.invariants
  obtain ⟨_, _, h3, h4, h5⟩ := handoff_step s (copy D) c p e hk hc he
  obtain ⟨t1, t2⟩ := hone hh
  have hpos := inFlight_pos s c _ hc (by simp)
  have hrun : s.running = true := by
    by_contra hr
    have := t2 (by simpa using hr)
    unfold tokens at this
    omega
  have hidle : Idle (step s e) := ⟨h4.trans hrun, h5.trans hh, by omega⟩
  obtain ⟨⟨_, _, i1⟩, i2, tr, i3, i4⟩ := idle_run (step s e) es hes hidle
  refine ⟨i2, by unfold tokens at i1; omega, ?_, ?_, ?_⟩
  · refine count_frame _ _ _ tr i3 (fun x hx => ?_)
    rcases i4 x hx with h | h
    · rw [h]; rfl
    · cases hx' : x.effect <;> simp_all [Effect.isUninstall, Effect.isRecover]
  · refine count_frame _ _ _ tr i3 (fun x hx => ?_)
    rcases i4 x hx with h | h
    · rw [h]; rfl
    · cases hx' : x.effect <;> simp_all [Effect.isUninstall, Effect.isOnce]
  · refine count_frame _ _ _ tr i3 (fun x hx => ?_)
    rcases i4 x hx with h | h
    · rw [h]; rfl
    · cases hx' : x.effect with
      | send m ps => cases m <;> simp_all [Effect.isUninstall, Effect.isGetChanges]
      | _ => simp_all [Effect.isUninstall, Effect.isGetChanges]

/-- C12. Unsupported filters leave the pending-transaction subscriber polling.
    A `FilterIdPendingSubscriber` is started and its installation request yields
    `null`. `_recover` is the method of the base class and throws: the fallback
    is never handed to the provider, the cycle logs the error and registers the
    poller, and every later block notification begins a cycle that does the
    same again. -/
theorem pending_unsupported_keeps_polling :
    (run (newPendingSubscriber ⟨1⟩)
        [.start, .installSettles 0 (.ok none), .block, .wake 1, .block, .wake 2]).trace
      = [⟨.cycle 0, .send .eth_newPendingTransactionFilter []⟩,
          ⟨.cycle 0, .consoleLog .mustOverride⟩,
          ⟨.cycle 0, .once⟩,
          ⟨.cycle 1, .consoleLog .mustOverride⟩,
          ⟨.cycle 1, .once⟩,
          ⟨.cycle 2, .consoleLog .mustOverride⟩,
          ⟨.cycle 2, .once⟩] ∧
    count Effect.isRecover (run (newPendingSubscriber ⟨1⟩)
        [.start, .installSettles 0 (.ok none), .block, .wake 1, .block, .wake 2]) = 0 ∧
    (run (newPendingSubscriber ⟨1⟩)
        [.start, .installSettles 0 (.ok none), .block, .wake 1, .block, .wake 2]).listeners
      = 1 := by
  decide

/-! ## Pause with a cycle in flight -/

theorem emitResults_concrete (o : Origin) (rs : List Raw) (s : State) (hk : s.kind ≠ .base) :
    _emitResults o (.array rs) s
      = ({ s with trace := s.trace ++ (emissions s rs).map (fun e => ⟨o, e⟩) },
          .promised (.ok ())) := by
  cases hkind : s.kind with
  | base => exact absurd hkind hk
  | event ev =>
    rw [emitResults_event o rs s ev hkind]
    simp [emissions, hkind, Function.comp_def]
  | pending =>
    rw [emitResults_pending o rs s hkind]
    simp [emissions, hkind, Function.comp_def]

/-- From the `await` of `eth_getFilterChanges`: the results are emitted and the
    poller is registered. -/
theorem complete_from_changes (t : State) (c : Nat) (F : FilterId) (rs : List Raw)
    (hk : t.kind ≠ .base) (hc : t.cycles[c]? = some (.awaitChanges F)) :
    run t [.changesReply c (.ok (.array rs)), .wake c] = { t with
      network := t.network
      cycles := t.cycles.set c .done
      listeners := t.listeners + 1
      trace := t.trace ++ (emissions t rs ++ [Effect.once]).map (fun e => ⟨.cycle c, e⟩) } := by
  have hlt := lt_of_cont hc
  have h1 : step t (.changesReply c (.ok (.array rs))) = { t with
      cycles := t.cycles.set c (.awaitEmit (.ok ()))
      trace := t.trace ++ (emissions t rs).map (fun e => ⟨.cycle c, e⟩) } := by
    simp [step, changesReply, hc, pollChanges, emitResults_concrete _ rs t hk, pollExit, setCont]
  rw [run_cons, run_cons, h1]
  simp [run, step, wake, hlt, pollEmitted, pollExit, setCont, once, record]

/-- From the `await` of `getNetwork()`, on a subscriber that is not halted and
    with a matching network. -/
theorem complete_from_network (t : State) (c : Nat) (F : FilterId) (n : Network)
    (rs : List Raw) (hk : t.kind ≠ .base) (hh : t.hault = false)
    (hm : ∀ m, t.network = some m → m.chainId = n.chainId)
    (hc : t.cycles[c]? = some (.awaitNetwork F)) :
    run t [.networkReply c (.ok n), .changesReply c (.ok (.array rs)), .wake c] = { t with
      network := some (t.network.getD n)
      cycles := t.cycles.set c .done
      listeners := t.listeners + 1
      trace := t.trace ++
        ([Effect.send .eth_getFilterChanges [.filterId (some F)]] ++ emissions t rs ++ [Effect.once]).map
          (fun e => ⟨.cycle c, e⟩) } := by
  have hlt := lt_of_cont hc
  have h1 : step t (.networkReply c (.ok n)) = { t with
      network := some (t.network.getD n)
      cycles := t.cycles.set c (.awaitChanges F)
      trace := t.trace ++ [⟨.cycle c, .send .eth_getFilterChanges [.filterId (some F)]⟩] } := by
    cases hn : t.network with
    | none => simp [step, networkReply, hc, pollNetwork, hn, hh, pollExit, setCont, record]
    | some m =>
      have := hm m hn
      simp [step, networkReply, hc, pollNetwork, hn, hh, this, pollExit, setCont, record]
  rw [run_cons, h1, complete_from_changes _ c F rs (by simpa using hk) (by simp [hlt])]
  simp [emissions]

theorem settle_installed (t : State) (c p : Nat) (F : FilterId)
    (hc : t.cycles[c]? = some (.awaitInstall p)) (hp : t.tasks[p]? = some .pending) :
    (step t (.installSettles p (.ok (some F)))).cycles[c]? = some (.awaitNetwork F) ∧
      cycleEffects c (step t (.installSettles p (.ok (some F))))
        = cycleEffects c t ++ [.getNetwork] := by
  have hlt := lt_of_cont hc
  have hpl := lt_of_task hp
  have hstep : step t (.installSettles p (.ok (some F))) =
      runThen p ((List.range t.cycles.length).foldl (fun w c => resumeInstall p c w)
        { t with tasks := t.tasks.set p (.fulfilled (some F)) }) := by
    simp [step, settle, hp, taskOf]
  obtain ⟨f1, f2⟩ := foldl_resume_at p c [.getNetwork] (.awaitNetwork F)
    (List.range t.cycles.length) { t with tasks := t.tasks.set p (.fulfilled (some F)) }
    (List.nodup_range _) (List.mem_range.mpr hlt) hc
    (by
      intro s0 _ h2 h3
      have h4 : s0.tasks[p]? = some (.fulfilled (some F)) := by rw [h2]; simp [hpl]
      rw [resumeInstall_installed p c s0 F h3 h4]
      simpa using cycle_shape s0 c (.awaitNetwork F) s0.listeners [.getNetwork]
        s0.network (lt_of_cont h3))
  obtain ⟨r1, r2, -⟩ := runThen_frame p c
    ((List.range t.cycles.length).foldl (fun w c => resumeInstall p c w)
      { t with tasks := t.tasks.set p (.fulfilled (some F)) })
  rw [hstep]
  exact ⟨by rw [r1]; exact f2, r2.trans f1⟩

/-- From the `await` of the installation task. -/
theorem complete_from_install (t : State) (c p : Nat) (F : FilterId) (n : Network)
    (rs : List Raw) (hk : t.kind ≠ .base) (hh : t.hault = false)
    (hm : ∀ m, t.network = some m → m.chainId = n.chainId)
    (hc : t.cycles[c]? = some (.awaitInstall p)) (hp : t.tasks[p]? = some .pending) :
    cycleEffects c (run t [.installSettles p (.ok (some F)), .networkReply c (.ok n),
          .changesReply c (.ok (.array rs)), .wake c])
        = cycleEffects c t ++
          ([Effect.getNetwork, .send .eth_getFilterChanges [.filterId (some F)]] ++
            emissions t rs ++ [Effect.once]) ∧
      (run t [.installSettles p (.ok (some F)), .networkReply c (.ok n),
          .changesReply c (.ok (.array rs)), .wake c]).cycles[c]? = some .done ∧
      0 < (run t [.installSettles p (.ok (some F)), .networkReply c (.ok n),
          .changesReply c (.ok (.array rs)), .wake c]).listeners := by
  obtain ⟨a1, a2⟩ := settle_installed t c p F hc hp
  obtain ⟨b1, b2, b3, b4, _, _⟩ := settle_frame p (taskOf (.ok (some F))) t
  generalize hu : step t (.installSettles p (.ok (some F))) = u at a1 a2
  have hu' : settle p (taskOf (.ok (some F))) t = u := hu
  rw [hu'] at b1 b2 b3 b4
  have hcomp := complete_from_network u c F n rs (by rw [b3]; exact hk) (b2.trans hh)
    (by rw [b1]; exact hm) a1
  have hem : emissions u rs = emissions t rs := by simp [emissions, b3, b4]
  rw [run_cons, hu, hcomp]
  have hshape := cycle_shape u c .done (u.listeners + 1)
    ([Effect.send .eth_getFilterChanges [.filterId (some F)]] ++ emissions u rs ++ [Effect.once])
    (some (u.network.getD n)) (lt_of_cont a1)
  refine ⟨?_, hshape.2, by simp⟩
  rw [hshape.1, a2, hem]
  simp

theorem pollTimes_cycles_length (n : Nat) (s : State) :
    (pollTimes n s).cycles.length = s.cycles.length + n := by
  induction n generalizing s with
  | zero => rfl
  | succ n ih =>
    simp only [pollTimes]
    rw [ih, poll_cycles_length]
    omega


theorem pause_false_eq (s : State) :
    pause false s
      = { s with listeners := s.listeners - 1, trace := s.trace ++ [⟨.call, .off⟩] } := by
  simp [pause, off, record]

theorem pause_false_cycleEffects (s : State) (c : Nat) :
    cycleEffects c (pause false s) = cycleEffects c s := by
  rw [pause_false_eq]
  simp [cycleEffects]

/-- C18. `pause()` does not cancel a cycle in flight. `pause(false)` leaves
    every cycle where it is suspended. On a subscriber of a concrete class that
    is not halted, a cycle suspended at any of its three `await`s when
    `pause(false)` is called completes as it would have without the pause when
    its requests succeed and the network matches: it sends
    `eth_getFilterChanges` (unless it had already), emits every result, registers
    the poller and returns, so that a listener is registered and the next block
    notification begins a new cycle. Called on a running, never stopped
    subscriber with no cycle in flight, `pause(false)` leaves no listener, and
    until `stop()` is called no cycle ever begins again. -/
theorem pause_does_not_cancel (s : State) (c : Nat) (F : FilterId) (n : Network)
    (rs : List Raw) (hk : s.kind ≠ .base) (hh : s.hault = false)
    (hm : ∀ m, s.network = some m → m.chainId = n.chainId) :
    (pause false s).cycles = s.cycles ∧
    (∀ p, s.cycles[c]? = some (.awaitInstall p) → s.tasks[p]? = some .pending →
      cycleEffects c (run (pause false s) [.installSettles p (.ok (some F)),
          .networkReply c (.ok n), .changesReply c (.ok (.array rs)), .wake c])
        = cycleEffects c s ++
          ([Effect.getNetwork, .send .eth_getFilterChanges [.filterId (some F)]] ++
            emissions s rs ++ [Effect.once]) ∧
      (run (pause false s) [.installSettles p (.ok (some F)),
          .networkReply c (.ok n), .changesReply c (.ok (.array rs)), .wake c]).cycles[c]?
        = some .done ∧
      0 < (run (pause false s) [.installSettles p (.ok (some F)),
          .networkReply c (.ok n), .changesReply c (.ok (.array rs)), .wake c]).listeners) ∧
    (s.cycles[c]? = some (.awaitNetwork F) →
      cycleEffects c (run (pause false s)
          [.networkReply c (.ok n), .changesReply c (.ok (.array rs)), .wake c])
        = cycleEffects c s ++
          ([Effect.send .eth_getFilterChanges [.filterId (some F)]] ++ emissions s rs ++
            [Effect.once]) ∧
      (run (pause false s)
          [.networkReply c (.ok n), .changesReply c (.ok (.array rs)), .wake c]).cycles[c]?
        = some .done ∧
      (run (pause false s)
          [.networkReply c (.ok n), .changesReply c (.ok (.array rs)), .wake c]).listeners
        = s.listeners - 1 + 1) ∧
    (s.cycles[c]? = some (.awaitChanges F) →
      cycleEffects c (run (pause false s) [.changesReply c (.ok (.array rs)), .wake c])
        = cycleEffects c s ++ (emissions s rs ++ [Effect.once]) ∧
      (run (pause false s) [.changesReply c (.ok (.array rs)), .wake c]).cycles[c]?
        = some .done ∧
      (run (pause false s) [.changesReply c (.ok (.array rs)), .wake c]).listeners
        = s.listeners - 1 + 1) ∧
    (∀ t : State, 0 < t.listeners → t.cycles.length < (step t .block).cycles.length) ∧
    (Reachable s → s.running = true → inFlight s = 0 →
      ∀ es : List Event, (∀ e ∈ es, e ≠ .stop) →
        (run (pause false s) es).cycles = s.cycles ∧
        (run (pause false s) es).listeners = 0) := by
  have hp := pause_false_eq s
  have hkp : (pause false s).kind ≠ .base := by rw [hp]; exact hk
  have hhp : (pause false s).hault = false := by rw [hp]; exact hh
  have hmp : ∀ m, (pause false s).network = some m → m.chainId = n.chainId := by
    rw [hp]; exact hm
  have hcy : (pause false s).cycles = s.cycles := by rw [hp]
  have hem : emissions (pause false s) rs = emissions s rs := by rw [hp]; rfl
  have hli : (pause false s).listeners = s.listeners - 1 := by rw [hp]
  refine ⟨hcy, ?_, ?_, ?_, ?_, ?_⟩
  · intro p hc ht
    have := complete_from_install (pause false s) c p F n rs hkp hhp hmp
      (by rw [hcy]; exact hc) (by rw [hp]; exact ht)
    rw [pause_false_cycleEffects, hem] at this
    exact this
  · intro hc
    have hc' : (pause false s).cycles[c]? = some (.awaitNetwork F) := by rw [hcy]; exact hc
    have heq := complete_from_network (pause false s) c F n rs hkp hhp hmp hc'
    have hshape := cycle_shape (pause false s) c .done ((pause false s).listeners + 1)
      ([Effect.send .eth_getFilterChanges [.filterId (some F)]] ++
        emissions (pause false s) rs ++ [Effect.once])
      (some ((pause false s).network.getD n)) (lt_of_cont hc')
    rw [heq]
    refine ⟨?_, hshape.2, by simp [hli]⟩
    rw [hshape.1, pause_false_cycleEffects, hem]
  · intro hc
    have hc' : (pause false s).cycles[c]? = some (.awaitChanges F) := by rw [hcy]; exact hc
    have heq := complete_from_changes (pause false s) c F rs hkp hc'
    have hshape := cycle_shape (pause false s) c .done ((pause false s).listeners + 1)
      (emissions (pause false s) rs ++ [Effect.once]) (pause false s).network (lt_of_cont hc')
    rw [heq]
    refine ⟨?_, hshape.2, by simp [hli]⟩
    rw [hshape.1, pause_false_cycleEffects, hem]
  · intro t ht
    simp only [step, block]
    rw [pollTimes_cycles_length]
    simp only
    omega
  · intro hr hrun hfl es hes
    have hone := (hr.invariants.2.2 hh).1
    have hidle : Idle (pause false s) := by
      rw [hp]
      refine ⟨hrun, hh, ?_⟩
      dsimp only [tokens, inFlight] at *
      omega
    obtain ⟨⟨_, _, i1⟩, i2, _⟩ := idle_run (pause false s) es hes hidle
    exact ⟨i2.trans hcy, by unfold tokens at i1; omega⟩

theorem pause_does_not_cancel_witness :
    cycleEffects 0 (run (pause false
        (run (newEventSubscriber ⟨0xAAA, []⟩ ⟨1⟩)
          [.start, .installSettles 0 (.ok (some 0xF1))]))
        [.networkReply 0 (.ok ⟨1⟩), .changesReply 0 (.ok (.array [7])), .wake 0])
      = [.send .eth_newFilter [.filter ⟨0xAAA, []⟩], .getNetwork,
          .send .eth_getFilterChanges [.filterId (some 0xF1)],
          .emit (.event ⟨0xAAA, []⟩) (.wrapLog 7 ⟨1⟩), .once] :=
  ((pause_does_not_cancel
    (run (newEventSubscriber ⟨0xAAA, []⟩ ⟨1⟩) [.start, .installSettles 0 (.ok (some 0xF1))])
    0 0xF1 ⟨1⟩ [7] (by decide) (by decide) (by decide)).2.2.1 (by decide)).1.trans (by decide)

/-! ## Polling chains -/

/-- A stretch of `#poll` run by cycle `c`, suspended at `k` before it, that
    leaves the cycles and the registry to `pollExit`: the tokens do not grow,
    except by one when the cycle had not counted as in flight. -/
theorem tokens_exit (s : State) (c : Nat) (k : Cont) (x : State × Except Err Flow)
    (hc : s.cycles[c]? = some k) (h1 : x.1.cycles = s.cycles)
    (h2 : x.1.listeners = s.listeners) :
    tokens (pollExit c x) + (if k = .done then 0 else 1) ≤ tokens s + 1 := by
  obtain ⟨s1, r⟩ := x
  simp only at h1 h2
  have key : ∀ k2 : Cont, (s.cycles.set c k2).countP (fun k => k ≠ .done)
      + (if k = .done then 0 else 1)
      = s.cycles.countP (fun k => k ≠ .done) + (if k2 = .done then 0 else 1) := by
    intro k2
    have := countP_set_add (fun k => k ≠ .done) s.cycles c k k2 hc
    by_cases hk : k = .done <;> by_cases hk2 : k2 = .done <;> simp_all
  cases r with
  | error e =>
    have := key .done
    rw [if_pos (rfl : Cont.done = Cont.done)] at this
    simp only [pollExit, setCont, once, record, tokens, inFlight, h1, h2]
    split_ifs at this ⊢ <;> omega
  | ok fl =>
    cases fl with
    | suspend k2 =>
      have := key k2
      simp only [pollExit, setCont, tokens, inFlight, h1, h2]
      split_ifs at this ⊢ <;> omega
    | ret =>
      have := key .done
      rw [if_pos (rfl : Cont.done = Cont.done)] at this
      simp only [pollExit, setCont, tokens, inFlight, h1, h2]
      split_ifs at this ⊢ <;> omega
    | fallThrough =>
      have := key .done
      rw [if_pos (rfl : Cont.done = Cont.done)] at this
      simp only [pollExit, setCont, once, record, tokens, inFlight, h1, h2]
      split_ifs at this ⊢ <;> omega

theorem tokens_poll (s : State) : tokens (poll s) ≤ tokens s + 1 := by
  have h := tokens_exit { s with cycles := s.cycles ++ [.done] } s.cycles.length .done
    (pollBegin s.cycles.length { s with cycles := s.cycles ++ [.done] })
    (by simp)
    (by
      unfold pollBegin
      cases hp : s.filterIdPromise <;> cases hk : s.kind <;> simp [hk, _subscribe, record])
    (by
      unfold pollBegin
      cases hp : s.filterIdPromise <;> cases hk : s.kind <;> simp [hk, _subscribe, record])
  have h0 : tokens { s with cycles := s.cycles ++ [.done] } = tokens s := by
    simp [tokens, inFlight, List.countP_append]
  rw [h0] at h
  simpa [poll] using h

theorem tokens_pollTimes (n : Nat) (s : State) : tokens (pollTimes n s) ≤ tokens s + n := by
  induction n generalizing s with
  | zero => exact Nat.le_refl _
  | succ n ih =>
    have h1 := ih (poll s)
    have h2 := tokens_poll s
    simp only [pollTimes]
    omega

theorem tokens_runThen (p : Nat) (s : State) : tokens (runThen p s) = tokens s := by
  unfold runThen
  split_ifs
  · split <;> simp [record, tokens, inFlight]
  · rfl

/-- Only `start()` and `resume()` on a subscriber that is not running add a
    token: every other event leaves the cycles in flight plus the registered
    listeners as many as they were, or fewer. -/
theorem tokens_step (s : State) (e : Event)
    (he : e = .start ∨ e = .resume → s.running = true) : tokens (step s e) ≤ tokens s := by
  cases e with
  | start => simp [step, start, he (Or.inl rfl)]
  | resume => simp [step, resume, start, he (Or.inr rfl)]
  | stop =>
    cases hr : s.running <;> cases hp : s.filterIdPromise <;>
      simp [step, stop, teardown, hr, hp, off, record, tokens, inFlight]
  | pause d =>
    cases d <;> cases hp : s.filterIdPromise <;>
      simp [step, pause, teardown, hp, off, record, tokens, inFlight]
  | block =>
    have := tokens_pollTimes s.listeners { s with listeners := 0 }
    simp only [step, block]
    simp only [tokens, inFlight] at this ⊢
    omega
  | installSettles p r =>
    simp only [step, settle]
    split
    · split_ifs
      · exact Nat.le_refl _
      · rw [tokens_runThen]
        exact (foldl_resumed p _ _).2.2.2.2.2.2.2.2.2.1
    · exact Nat.le_refl _
  | wake c =>
    simp only [step, wake]
    split
    · exact (resumeInstall_resumed _ c s).2.2.2.2.2.2.2.2.2.1
    · next r hc =>
      have := tokens_exit s c _ (pollEmitted r s) hc
        (by cases r <;> rfl) (by cases r <;> rfl)
      simpa using this
    · exact Nat.le_refl _
  | networkReply c r =>
    simp only [step, networkReply]
    split
    · next f hc =>
      have := tokens_exit s c _ (pollNetwork c f r s) hc
        (by
          cases r with
          | error err => rfl
          | ok n => unfold pollNetwork; simp only; split_ifs <;> simp [record])
        (by
          cases r with
          | error err => rfl
          | ok n => unfold pollNetwork; simp only; split_ifs <;> simp [record])
      simpa using this
    · exact Nat.le_refl _
  | changesReply c r =>
    simp only [step, changesReply]
    split
    · next f hc =>
      have hfr : (pollChanges c r s).1.cycles = s.cycles ∧
          (pollChanges c r s).1.listeners = s.listeners := by
        cases r with
        | error err => exact ⟨rfl, rfl⟩
        | ok v =>
          cases hk : s.kind with
          | base => simp [pollChanges, _emitResults, hk]
          | event ev =>
            cases v with
            | null => simp [pollChanges, _emitResults, hk]
            | array rs => simp [pollChanges, emitResults_event _ rs s ev hk]
          | pending =>
            cases v with
            | null => simp [pollChanges, _emitResults, hk]
            | array rs => simp [pollChanges, emitResults_pending _ rs s hk]
      have := tokens_exit s c _ (pollChanges c r s) hc hfr.1 hfr.2
      simpa using this
    · exact Nat.le_refl _
  | thenRuns p =>
    simp only [step]
    rw [tokens_runThen]
  | providerNetworkIs n => exact Nat.le_refl _


/-- C15, amended. No overlapping poll cycles unless a stopped subscriber is
    restarted early. Take any sequence of events on a new subscriber in which
    `start()` or `resume()` is called on a stopped subscriber (not running,
    `#hault` set) only when no cycle is in flight and no listener is registered.
    Then at every moment of the sequence at most one poll cycle is in flight,
    and while one is in flight no listener is registered: the next cycle can
    begin only after the cycle in flight has returned. -/
theorem no_overlap_without_early_restart (kind : Kind) (net : Network) (es : List Event)
    (h : ∀ n, es[n]? = some .start ∨ es[n]? = some .resume →
      (run (init kind net) (es.take n)).running = false →
      (run (init kind net) (es.take n)).hault = true →
      inFlight (run (init kind net) (es.take n)) = 0 ∧
        (run (init kind net) (es.take n)).listeners = 0)
    (n : Nat) :
    inFlight (run (init kind net) (es.take n)) ≤ 1 ∧
      (inFlight (run (init kind net) (es.take n)) = 1 →
        (run (init kind net) (es.take n)).listeners = 0) := by
  have key : tokens (run (init kind net) (es.take n)) ≤ 1 := by
    induction n with
    | zero => simp [run, init, tokens, inFlight]
    | succ n ih =>
      rw [List.take_succ, run_append]
      cases hn : es[n]? with
      | none => simpa [run] using ih
      | some e =>
        have hstep : run (run (init kind net) (es.take n)) (some e).toList
            = step (run (init kind net) (es.take n)) e := rfl
        rw [hstep]
        have hr : Reachable (step (run (init kind net) (es.take n)) e) :=
          Reachable.step ⟨kind, net, _, rfl⟩ e
        by_cases hh : (step (run (init kind net) (es.take n)) e).hault = false
        · exact (hr.invariants.2.2 hh).1
        · by_cases hrun : (run (init kind net) (es.take n)).running = true
          · exact Nat.le_trans (tokens_step _ e (fun _ => hrun)) ih
          · by_cases hs : e = .start ∨ e = .resume
            · have hne : e ≠ .stop := by rcases hs with rfl | rfl <;> simp
              have hh2 : (run (init kind net) (es.take n)).hault = true := by
                rw [← hault_step _ e hne]
                simpa using hh
              have hrun2 : (run (init kind net) (es.take n)).running = false := by
                simpa using hrun
              have h0 := h n (by rcases hs with rfl | rfl <;> simp [hn]) hrun2 hh2
              have hp := tokens_poll { run (init kind net) (es.take n) with running := true }
              have heq : step (run (init kind net) (es.take n)) e
                  = poll { run (init kind net) (es.take n) with running := true } := by
                rcases hs with rfl | rfl <;> simp [step, resume, start, hrun2]
              rw [heq]
              simp only [tokens, inFlight] at hp h0 ⊢
              omega
            · exact Nat.le_trans (tokens_step _ e (fun he => absurd he hs)) ih
  unfold tokens at key
  exact ⟨by omega, fun h1 => by omega⟩

theorem no_overlap_without_early_restart_witness :
    inFlight (run (init (.event ⟨0xAAA, []⟩) ⟨1⟩)
      ([Event.start, .installSettles 0 (.error (.rpc 3)), .stop, .start].take 4)) ≤ 1 :=
  (no_overlap_without_early_restart (.event ⟨0xAAA, []⟩) ⟨1⟩
    [.start, .installSettles 0 (.error (.rpc 3)), .stop, .start]
    (fun n => by
      by_cases hn : n < 4
      · interval_cases n <;> decide
      · intro h1
        rw [List.getElem?_eq_none (by simpa using hn)] at h1
        simp at h1) 4).1

end SubscriberFilterId
